import Mathlib

/-!
Verification of the binding-normalization core of the fruit dependency-injection
framework (src/binding_normalization.cpp, src/normalized_component_storage.cpp).

The C++ code is shallowly embedded: `TypeId` becomes `Nat`, `ComponentStorageEntry`
becomes a tagged record whose payload mirrors the C++ union, the hash maps become
insertion-ordered association lists, function pointers and object pointers become
opaque `Nat` identities, and the work-stack loop of
`BindingNormalization::normalizeBindingsHelper` becomes a fuel-indexed recursive
function.  `exit(1)` after a diagnostic becomes the `fatal` outcome;
`FruitAssert` failures become the `assertFail` outcome.
-/

namespace Fruit

/-- TypeId: an opaque handle uniquely identifying a type (type_info pointer). -/
abbrev TypeId := Nat

/-- The `ComponentStorageEntry::Kind` values used by binding normalization. -/
inductive EntryKind where
  | bindingForConstructedObject
  | bindingForObjectToConstructThatNeedsAllocation
  | bindingForObjectToConstructThatNeedsNoAllocation
  | compressedBinding
  | multibindingForConstructedObject
  | multibindingForObjectToConstructThatNeedsAllocation
  | multibindingForObjectToConstructThatNeedsNoAllocation
  | multibindingVectorCreator
  | componentWithoutArgsEndMarker
  | componentWithArgsEndMarker
  | lazyComponentWithArgs
  | lazyComponentWithNoArgs
deriving DecidableEq, Repr

/-- The `BindingForObjectToConstruct` union member: a create-function identity
plus the dependency list (`BindingDeps`). -/
structure BindingForObjectToConstruct where
  create : Nat
  deps : List TypeId
deriving DecidableEq, Repr

/-- The union payload of a `ComponentStorageEntry`; the active member is the one
matching the entry's kind.  Multibinding payloads reuse the same member shapes as
the direct-binding ones, exactly as in the C++ union. -/
inductive EntryPayload where
  | constructedObject (object_ptr : Nat)
  | objectToConstruct (b : BindingForObjectToConstruct)
  | compressed (c_type_id : TypeId) (create : Nat)
  | vectorCreator (get_multibindings_vector : Nat)
  | lazyNoArgs (erased_fun : Nat)
  | lazyWithArgs (component : Nat)
deriving DecidableEq, Repr

/-- `ComponentStorageEntry`: kind tag, `type_id`, and the union payload. -/
structure ComponentStorageEntry where
  kind : EntryKind
  type_id : TypeId
  payload : EntryPayload
deriving DecidableEq, Repr

/-- Read `binding_for_constructed_object.object_ptr`. -/
def ComponentStorageEntry.object_ptr (e : ComponentStorageEntry) : Nat :=
  match e.payload with
  | .constructedObject p => p
  | _ => 0

/-- Read the `binding_for_object_to_construct` union member. -/
def ComponentStorageEntry.binding_for_object_to_construct
    (e : ComponentStorageEntry) : BindingForObjectToConstruct :=
  match e.payload with
  | .objectToConstruct b => b
  | _ => ⟨0, []⟩

/-- Read `compressed_binding.c_type_id`. -/
def ComponentStorageEntry.compressed_c_type_id (e : ComponentStorageEntry) : TypeId :=
  match e.payload with
  | .compressed c _ => c
  | _ => 0

/-- Read `compressed_binding.create`. -/
def ComponentStorageEntry.compressed_create (e : ComponentStorageEntry) : Nat :=
  match e.payload with
  | .compressed _ cr => cr
  | _ => 0

/-- Read `multibinding_vector_creator.get_multibindings_vector`. -/
def ComponentStorageEntry.get_multibindings_vector (e : ComponentStorageEntry) : Nat :=
  match e.payload with
  | .vectorCreator g => g
  | _ => 0

/-- Identity of a `LazyComponentWithNoArgs` (its `erased_fun`). -/
def ComponentStorageEntry.lazy_no_args_id (e : ComponentStorageEntry) : Nat :=
  match e.payload with
  | .lazyNoArgs f => f
  | _ => 0

/-- Identity of a `LazyComponentWithArgs` (the component object, whose structural
equality and hash the C++ sets delegate to). -/
def ComponentStorageEntry.lazy_with_args_id (e : ComponentStorageEntry) : Nat :=
  match e.payload with
  | .lazyWithArgs c => c
  | _ => 0

/-! ### Insertion-ordered association lists

`HashMap<TypeId, V>` is modelled as an insertion-ordered association list: a run
of the C++ code is deterministic for a fixed hash function, and an association
list realizes one deterministic iteration order. -/

/-- Map lookup (`find` / `operator[]` read). -/
def lookupA {β : Type} : List (Nat × β) → Nat → Option β
  | [], _ => none
  | (k, v) :: rest, t => if k = t then some v else lookupA rest t

/-- Map write (`operator[] = v`): update in place if the key is present,
otherwise append. -/
def insertA {β : Type} : List (Nat × β) → Nat → β → List (Nat × β)
  | [], k, v => [(k, v)]
  | (k', v') :: rest, k, v =>
    if k' = k then (k', v) :: rest else (k', v') :: insertA rest k v

/-- Map erase: removes the entry for the key. -/
def eraseA {β : Type} : List (Nat × β) → Nat → List (Nat × β)
  | [], _ => []
  | (k', v') :: rest, k =>
    if k' = k then eraseA rest k else (k', v') :: eraseA rest k

/-! ### Allocator descriptor, expander state, lazy-component environment -/

/-- `FixedSizeAllocator::FixedSizeAllocatorData`, abstracted as the ordered
record of calls it receives. -/
structure FixedSizeAllocatorData where
  addTypeCalls : List TypeId
  addExternallyAllocatedTypeCalls : List TypeId
deriving DecidableEq, Repr

/-- `addType(typeId)`. -/
def FixedSizeAllocatorData.addType (d : FixedSizeAllocatorData) (t : TypeId) :
    FixedSizeAllocatorData :=
  { d with addTypeCalls := d.addTypeCalls ++ [t] }

/-- `addExternallyAllocatedType(typeId)`. -/
def FixedSizeAllocatorData.addExternallyAllocatedType (d : FixedSizeAllocatorData)
    (t : TypeId) : FixedSizeAllocatorData :=
  { d with addExternallyAllocatedTypeCalls := d.addExternallyAllocatedTypeCalls ++ [t] }

/-- The mutable state threaded through `normalizeBindingsHelper`: the binding map,
the allocator descriptor and the four lazy-component bookkeeping sets. -/
structure ExpanderState where
  binding_data_map : List (TypeId × ComponentStorageEntry)
  allocator : FixedSizeAllocatorData
  fully_expanded_no_args : List Nat
  fully_expanded_with_args : List Nat
  in_progress_no_args : List Nat
  in_progress_with_args : List Nat
deriving DecidableEq, Repr

/-- The bodies of the lazy components: what `addBindings` pushes on the work
stack, keyed by the component identity.  A component absent from the
environment pushes nothing. -/
structure LazyEnv where
  no_args_bodies : List (Nat × List ComponentStorageEntry)
  with_args_bodies : List (Nat × List ComponentStorageEntry)
deriving DecidableEq, Repr

/-- Body pushed by `LazyComponentWithNoArgs::addBindings`. -/
def bodyNoArgs (env : LazyEnv) (id : Nat) : List ComponentStorageEntry :=
  (lookupA env.no_args_bodies id).getD []

/-- Body pushed by `LazyComponentWithArgs`'s `component->addBindings`. -/
def bodyWithArgs (env : LazyEnv) (id : Nat) : List ComponentStorageEntry :=
  (lookupA env.with_args_bodies id).getD []

/-! ### Diagnostics -/

/-- One line of the installation-loop trace printed to `std::cerr`. -/
inductive TraceLine where
  | componentId (t : TypeId)
  | loopStartsHere
deriving DecidableEq, Repr

/-- A fatal diagnostic written before `exit(1)`. -/
inductive Diag where
  | multipleBindings (t : TypeId)
  | installationLoop (trace : List TraceLine)
deriving DecidableEq, Repr

/-- `printLazyComponentInstallationLoop`: the trace printed when a lazy component
is expanded while its expansion is already in progress.  `entries` is
`entries_to_process` in vector order (bottom of the stack first); `getFunTypeId()`
of a component is its entry's `type_id`. -/
def printLazyComponentInstallationLoop (top : TypeId)
    (entries : List ComponentStorageEntry) (last : ComponentStorageEntry) :
    List TraceLine :=
  [TraceLine.componentId top]
  ++ entries.foldl (fun acc e =>
      match e.kind with
      | .componentWithArgsEndMarker =>
        acc ++ (if e.type_id = last.type_id ∧ last.kind = EntryKind.lazyComponentWithArgs
                   ∧ e.lazy_with_args_id = last.lazy_with_args_id then
                  [TraceLine.loopStartsHere] else [])
           ++ [TraceLine.componentId e.type_id]
      | .componentWithoutArgsEndMarker =>
        acc ++ (if e.type_id = last.type_id ∧ last.kind = EntryKind.lazyComponentWithNoArgs
                   ∧ e.lazy_no_args_id = last.lazy_no_args_id then
                  [TraceLine.loopStartsHere] else [])
           ++ [TraceLine.componentId e.type_id]
      | _ => acc) []
  ++ (match last.kind with
      | .lazyComponentWithArgs => [TraceLine.componentId last.type_id]
      | .lazyComponentWithNoArgs => [TraceLine.componentId last.type_id]
      | _ => [])

/-- Outcome of a normalization run: success, `exit(1)` after a diagnostic,
a `FruitAssert` violation (undefined behaviour in release builds), or fuel
exhaustion of the embedding. -/
inductive NormalizeOutcome (α : Type) where
  | ok (a : α)
  | fatal (d : Diag)
  | assertFail
  | outOfFuel
deriving DecidableEq, Repr

/-! ### The Expander: `normalizeBindingsHelper` -/

/-- Result of one iteration of the work-stack loop: continue with a new stack,
state and handler state, or stop with a diagnostic or an assertion failure. -/
inductive StepOut (σ : Type) where
  | next (stack : List ComponentStorageEntry) (core : ExpanderState) (s : σ)
  | fatal (d : Diag)
  | assertFail

/-- The switch on `entry.kind` in the body of the while-loop of
`BindingNormalization::normalizeBindingsHelper`, for a stack whose top is
`entry` above `rest`.  The stack is head-first (the list head is
`entries_to_process.back()`).  `hc` and `hm` are the `handle_compressed_binding`
and `handle_multibinding` template parameters acting on handler state `σ`. -/
def helperStep {σ : Type} (env : LazyEnv) (top : TypeId)
    (hc : σ → ComponentStorageEntry → σ)
    (hm : σ → ComponentStorageEntry → ComponentStorageEntry → σ)
    (entry : ComponentStorageEntry) (rest : List ComponentStorageEntry)
    (core : ExpanderState) (s : σ) : StepOut σ :=
  match entry.kind with
  | .bindingForConstructedObject =>
    match lookupA core.binding_data_map entry.type_id with
    | some entry_in_map =>
      if entry_in_map.kind ≠ EntryKind.bindingForConstructedObject
          ∨ entry.object_ptr ≠ entry_in_map.object_ptr then
        .fatal (.multipleBindings entry.type_id)
      else
        .next rest core s
    | none =>
      .next rest
        { core with
          binding_data_map := insertA core.binding_data_map entry.type_id entry } s
  | .bindingForObjectToConstructThatNeedsAllocation =>
    let core := { core with allocator := core.allocator.addType entry.type_id }
    match lookupA core.binding_data_map entry.type_id with
    | some entry_in_map =>
      if entry_in_map.kind ≠ EntryKind.bindingForObjectToConstructThatNeedsAllocation
          ∨ entry.binding_for_object_to_construct.create
             ≠ entry_in_map.binding_for_object_to_construct.create then
        .fatal (.multipleBindings entry.type_id)
      else
        .next rest core s
    | none =>
      .next rest
        { core with
          binding_data_map := insertA core.binding_data_map entry.type_id entry } s
  | .bindingForObjectToConstructThatNeedsNoAllocation =>
    let core := { core with
      allocator := core.allocator.addExternallyAllocatedType entry.type_id }
    match lookupA core.binding_data_map entry.type_id with
    | some entry_in_map =>
      if entry_in_map.kind ≠ EntryKind.bindingForObjectToConstructThatNeedsNoAllocation
          ∨ entry.binding_for_object_to_construct.create
             ≠ entry_in_map.binding_for_object_to_construct.create then
        .fatal (.multipleBindings entry.type_id)
      else
        .next rest core s
    | none =>
      .next rest
        { core with
          binding_data_map := insertA core.binding_data_map entry.type_id entry } s
  | .compressedBinding =>
    .next rest core (hc s entry)
  | .multibindingForConstructedObject =>
    match rest with
    | [] => .assertFail
    | vce :: rest' =>
      if vce.kind = EntryKind.multibindingVectorCreator then
        .next rest' core (hm s entry vce)
      else .assertFail
  | .multibindingForObjectToConstructThatNeedsAllocation =>
    match rest with
    | [] => .assertFail
    | vce :: rest' =>
      if vce.kind = EntryKind.multibindingVectorCreator then
        .next rest' core (hm s entry vce)
      else .assertFail
  | .multibindingForObjectToConstructThatNeedsNoAllocation =>
    match rest with
    | [] => .assertFail
    | vce :: rest' =>
      if vce.kind = EntryKind.multibindingVectorCreator then
        .next rest' core (hm s entry vce)
      else .assertFail
  | .multibindingVectorCreator =>
    match rest with
    | [] => .assertFail
    | mbe :: rest' =>
      if mbe.kind = EntryKind.multibindingForConstructedObject
          ∨ mbe.kind = EntryKind.multibindingForObjectToConstructThatNeedsAllocation
          ∨ mbe.kind = EntryKind.multibindingForObjectToConstructThatNeedsNoAllocation then
        .next rest' core (hm s mbe entry)
      else .assertFail
  | .componentWithoutArgsEndMarker =>
    .next rest
      { core with
        in_progress_no_args := core.in_progress_no_args.filter
          (fun j => j ≠ entry.lazy_no_args_id),
        fully_expanded_no_args := if entry.lazy_no_args_id ∈ core.fully_expanded_no_args
          then core.fully_expanded_no_args
          else entry.lazy_no_args_id :: core.fully_expanded_no_args } s
  | .componentWithArgsEndMarker =>
    .next rest
      { core with
        in_progress_with_args := core.in_progress_with_args.filter
          (fun j => j ≠ entry.lazy_with_args_id),
        fully_expanded_with_args := if entry.lazy_with_args_id ∈ core.fully_expanded_with_args
          then core.fully_expanded_with_args
          else entry.lazy_with_args_id :: core.fully_expanded_with_args } s
  | .lazyComponentWithArgs =>
    if entry.lazy_with_args_id ∈ core.fully_expanded_with_args then
      .next rest core s
    else if entry.lazy_with_args_id ∈ core.in_progress_with_args then
      .fatal (.installationLoop
        (printLazyComponentInstallationLoop top (entry :: rest).reverse entry))
    else
      .next
        ((bodyWithArgs env entry.lazy_with_args_id).reverse
          ++ ({ entry with kind := EntryKind.componentWithArgsEndMarker } :: rest))
        { core with
          in_progress_with_args := entry.lazy_with_args_id :: core.in_progress_with_args } s
  | .lazyComponentWithNoArgs =>
    if entry.lazy_no_args_id ∈ core.fully_expanded_no_args then
      .next rest core s
    else if entry.lazy_no_args_id ∈ core.in_progress_no_args then
      .fatal (.installationLoop
        (printLazyComponentInstallationLoop top (entry :: rest).reverse entry))
    else
      .next
        ((bodyNoArgs env entry.lazy_no_args_id).reverse
          ++ ({ entry with kind := EntryKind.componentWithoutArgsEndMarker } :: rest))
        { core with
          in_progress_no_args := entry.lazy_no_args_id :: core.in_progress_no_args } s

/-- The while-loop of `BindingNormalization::normalizeBindingsHelper`, with
explicit fuel: run `helperStep` until the stack is empty. -/
def helperLoop {σ : Type} (env : LazyEnv) (top : TypeId)
    (hc : σ → ComponentStorageEntry → σ)
    (hm : σ → ComponentStorageEntry → ComponentStorageEntry → σ) :
    Nat → List ComponentStorageEntry → ExpanderState → σ →
    NormalizeOutcome (ExpanderState × σ)
  | _, [], core, s => .ok (core, s)
  | 0, _ :: _, _, _ => .outOfFuel
  | fuel + 1, entry :: rest, core, s =>
    match helperStep env top hc hm entry rest core s with
    | .next stack core s => helperLoop env top hc hm fuel stack core s
    | .fatal d => .fatal d
    | .assertFail => .assertFail

/-- The initial `ExpanderState` of `normalizeBindingsHelper`: fresh binding map
and bookkeeping sets, caller-supplied allocator data. -/
def initialState (alloc : FixedSizeAllocatorData) : ExpanderState :=
  { binding_data_map := []
    allocator := alloc
    fully_expanded_no_args := []
    fully_expanded_with_args := []
    in_progress_no_args := []
    in_progress_with_args := [] }

/-- `BindingNormalization::normalizeBindingsHelper`: initializes the state and
runs the work-stack loop on the top-level entries (the vector's back is the top
of the stack, hence the reversal). -/
def normalizeBindingsHelper {σ : Type} (fuel : Nat) (env : LazyEnv)
    (toplevel_entries : List ComponentStorageEntry)
    (alloc : FixedSizeAllocatorData) (top : TypeId)
    (hc : σ → ComponentStorageEntry → σ)
    (hm : σ → ComponentStorageEntry → ComponentStorageEntry → σ) (s : σ) :
    NormalizeOutcome (ExpanderState × σ) :=
  helperLoop env top hc hm fuel toplevel_entries.reverse (initialState alloc) s

/-! ### The Compressor: `performBindingCompression` -/

/-- `BindingNormalization::BindingCompressionInfo`: the value stored in
`compressed_bindings_map` under key C. -/
structure BindingCompressionInfo where
  i_type_id : TypeId
  create_i_with_compression : Nat
deriving DecidableEq, Repr

/-- `NormalizedComponentStorage::CompressedBindingUndoInfo`: recorded per
compressed C so the compression can be reversed. -/
structure CompressedBindingUndoInfo where
  i_type_id : TypeId
  i_binding : BindingForObjectToConstruct
  c_binding : BindingForObjectToConstruct
deriving DecidableEq, Repr

/-- Pruning pass 1: a candidate C that is a dependency of a to-construct
multibinding is erased from the candidate map.  The `FruitAssert` on the
contribution kind becomes the error outcome. -/
def pruneMultibindingDeps :
    List (ComponentStorageEntry × ComponentStorageEntry) →
    List (TypeId × BindingCompressionInfo) →
    Except Unit (List (TypeId × BindingCompressionInfo))
  | [], cmap => .ok cmap
  | (entry, _) :: rest, cmap =>
    if entry.kind = EntryKind.multibindingForConstructedObject
        ∨ entry.kind = EntryKind.multibindingForObjectToConstructThatNeedsAllocation
        ∨ entry.kind = EntryKind.multibindingForObjectToConstructThatNeedsNoAllocation then
      if entry.kind ≠ EntryKind.multibindingForConstructedObject then
        pruneMultibindingDeps rest
          (entry.binding_for_object_to_construct.deps.foldl eraseA cmap)
      else
        pruneMultibindingDeps rest cmap
    else .error ()

/-- Pruning pass 3, inner loop: erase every dependency C of the binding for X
that is a candidate whose recorded I differs from X. -/
def pruneForeignConsumerDeps (x_id : TypeId) (deps : List TypeId)
    (cmap : List (TypeId × BindingCompressionInfo)) :
    List (TypeId × BindingCompressionInfo) :=
  deps.foldl (fun m c_id =>
    match lookupA m c_id with
    | some info => if info.i_type_id ≠ x_id then eraseA m c_id else m
    | none => m) cmap

/-- Pruning pass 3: iterate over the binding map; any type X ≠ I that depends on
a candidate C vetoes the candidate.  The `FruitAssert` on the binding kind
becomes the error outcome. -/
def pruneForeignConsumers :
    List (TypeId × ComponentStorageEntry) →
    List (TypeId × BindingCompressionInfo) →
    Except Unit (List (TypeId × BindingCompressionInfo))
  | [], cmap => .ok cmap
  | (x_id, entry) :: rest, cmap =>
    if entry.kind = EntryKind.bindingForConstructedObject
        ∨ entry.kind = EntryKind.bindingForObjectToConstructThatNeedsAllocation
        ∨ entry.kind = EntryKind.bindingForObjectToConstructThatNeedsNoAllocation then
      if entry.kind ≠ EntryKind.bindingForConstructedObject then
        pruneForeignConsumers rest
          (pruneForeignConsumerDeps x_id entry.binding_for_object_to_construct.deps cmap)
      else
        pruneForeignConsumers rest cmap
    else .error ()

/-- The three eligibility-pruning passes of `performBindingCompression`, in
source order: multibinding-dependency veto, exposed-type veto, foreign-consumer
veto. -/
def pruneEligibility (binding_data_map : List (TypeId × ComponentStorageEntry))
    (compressed_bindings_map : List (TypeId × BindingCompressionInfo))
    (multibindings_vector : List (ComponentStorageEntry × ComponentStorageEntry))
    (exposed_types : List TypeId) :
    Except Unit (List (TypeId × BindingCompressionInfo)) := do
  let cmap1 ← pruneMultibindingDeps multibindings_vector compressed_bindings_map
  let cmap2 := exposed_types.foldl eraseA cmap1
  pruneForeignConsumers binding_data_map cmap2

/-- One iteration of the compression rewrite loop: record undo info for the pair
`(I, C)`, overwrite the I-binding in place (kind, create, deps) and erase C.
The `FruitAssert`s on presence and kinds become the error outcome. -/
def compressRewriteStep (m : List (TypeId × ComponentStorageEntry))
    (undo : List (TypeId × CompressedBindingUndoInfo))
    (c_id : TypeId) (info : BindingCompressionInfo) :
    Except Unit (List (TypeId × ComponentStorageEntry)
                  × List (TypeId × CompressedBindingUndoInfo)) :=
  match lookupA m info.i_type_id, lookupA m c_id with
  | some i_entry, some c_entry =>
    if i_entry.kind = EntryKind.bindingForObjectToConstructThatNeedsNoAllocation then
      if c_entry.kind = EntryKind.bindingForObjectToConstructThatNeedsNoAllocation
          ∨ c_entry.kind = EntryKind.bindingForObjectToConstructThatNeedsAllocation then
        let u : CompressedBindingUndoInfo :=
          { i_type_id := info.i_type_id
            i_binding := i_entry.binding_for_object_to_construct
            c_binding := c_entry.binding_for_object_to_construct }
        let i_entry' : ComponentStorageEntry :=
          { i_entry with
            kind := c_entry.kind
            payload := EntryPayload.objectToConstruct
              { create := info.create_i_with_compression
                deps := c_entry.binding_for_object_to_construct.deps } }
        .ok (eraseA (insertA m info.i_type_id i_entry') c_id, insertA undo c_id u)
      else .error ()
    else .error ()
  | _, _ => .error ()

/-- The compression rewrite loop over the surviving candidates, accumulating
the undo map. -/
def compressRewrite :
    List (TypeId × BindingCompressionInfo) →
    List (TypeId × ComponentStorageEntry) →
    List (TypeId × CompressedBindingUndoInfo) →
    Except Unit (List (TypeId × ComponentStorageEntry)
                  × List (TypeId × CompressedBindingUndoInfo))
  | [], m, undo => .ok (m, undo)
  | (c_id, info) :: rest, m, undo =>
    match compressRewriteStep m undo c_id info with
    | .ok (m', undo') => compressRewrite rest m' undo'
    | .error e => .error e

/-- `BindingNormalization::performBindingCompression`: prune the candidates,
apply the rewrite, and emit the remaining binding-map values in iteration
order together with the undo map. -/
def performBindingCompression (binding_data_map : List (TypeId × ComponentStorageEntry))
    (compressed_bindings_map : List (TypeId × BindingCompressionInfo))
    (multibindings_vector : List (ComponentStorageEntry × ComponentStorageEntry))
    (exposed_types : List TypeId) :
    Except Unit (List ComponentStorageEntry
                  × List (TypeId × CompressedBindingUndoInfo)) := do
  let cmap ← pruneEligibility binding_data_map compressed_bindings_map
      multibindings_vector exposed_types
  let (m, undo) ← compressRewrite cmap binding_data_map []
  .ok (m.map Prod.snd, undo)

/-! ### The two public entry points -/

/-- Handler state of `normalizeBindings`: the compressed-candidate map and the
multibindings vector. -/
abbrev NormalizeHandlerState :=
  List (TypeId × BindingCompressionInfo)
    × List (ComponentStorageEntry × ComponentStorageEntry)

/-- The `handle_compressed_binding` lambda of `normalizeBindings`:
`compressed_bindings_map[c_type_id] = {i_type_id, create}` (last write wins,
no consistency check). -/
def normalizeHandleCompressed (s : NormalizeHandlerState)
    (entry : ComponentStorageEntry) : NormalizeHandlerState :=
  (insertA s.1 entry.compressed_c_type_id
    { i_type_id := entry.type_id
      create_i_with_compression := entry.compressed_create }, s.2)

/-- The `handle_multibinding` lambda shared by both entry points: append the
`(multibinding, vector_creator)` pair. -/
def normalizeHandleMultibinding (s : NormalizeHandlerState)
    (mb vce : ComponentStorageEntry) : NormalizeHandlerState :=
  (s.1, s.2 ++ [(mb, vce)])

/-- The outputs of `BindingNormalization::normalizeBindings`. -/
structure NormalizeResult where
  bindings_vector : List ComponentStorageEntry
  multibindings_vector : List (ComponentStorageEntry × ComponentStorageEntry)
  bindingCompressionInfoMap : List (TypeId × CompressedBindingUndoInfo)
  allocator : FixedSizeAllocatorData
deriving DecidableEq, Repr

/-- `BindingNormalization::normalizeBindings`: run the Expander collecting
candidates and multibindings, then perform binding compression. -/
def normalizeBindings (fuel : Nat) (env : LazyEnv)
    (toplevel_entries : List ComponentStorageEntry)
    (alloc : FixedSizeAllocatorData) (top : TypeId) (exposed_types : List TypeId) :
    NormalizeOutcome NormalizeResult :=
  match normalizeBindingsHelper fuel env toplevel_entries alloc top
      normalizeHandleCompressed normalizeHandleMultibinding ([], []) with
  | .ok (core, (cmap, mbv)) =>
    match performBindingCompression core.binding_data_map cmap mbv exposed_types with
    | .ok (bv, undo) =>
      .ok { bindings_vector := bv
            multibindings_vector := mbv
            bindingCompressionInfoMap := undo
            allocator := core.allocator }
    | .error _ => .assertFail
  | .fatal d => .fatal d
  | .assertFail => .assertFail
  | .outOfFuel => .outOfFuel

/-- The outputs of `normalizeBindingsWithoutBindingCompression`. -/
structure NormalizeWithoutCompressionResult where
  bindings_vector : List ComponentStorageEntry
  multibindings_vector : List (ComponentStorageEntry × ComponentStorageEntry)
  allocator : FixedSizeAllocatorData
deriving DecidableEq, Repr

/-- The no-op `handle_compressed_binding` of
`normalizeBindingsWithoutBindingCompression`. -/
def nwcHandleCompressed
    (s : List (ComponentStorageEntry × ComponentStorageEntry))
    (_ : ComponentStorageEntry) :
    List (ComponentStorageEntry × ComponentStorageEntry) := s

/-- The `handle_multibinding` lambda of
`normalizeBindingsWithoutBindingCompression`. -/
def nwcHandleMultibinding
    (s : List (ComponentStorageEntry × ComponentStorageEntry))
    (mb vce : ComponentStorageEntry) :
    List (ComponentStorageEntry × ComponentStorageEntry) := s ++ [(mb, vce)]

/-- `BindingNormalization::normalizeBindingsWithoutBindingCompression`: same
Expander with a no-op compressed-binding handler, then copy the binding map
values into the result vector. -/
def normalizeBindingsWithoutBindingCompression (fuel : Nat) (env : LazyEnv)
    (toplevel_entries : List ComponentStorageEntry)
    (alloc : FixedSizeAllocatorData) (top : TypeId) :
    NormalizeOutcome NormalizeWithoutCompressionResult :=
  match normalizeBindingsHelper fuel env toplevel_entries alloc top
      nwcHandleCompressed nwcHandleMultibinding [] with
  | .ok (core, mbv) =>
    .ok { bindings_vector := core.binding_data_map.map Prod.snd
          multibindings_vector := mbv
          allocator := core.allocator }
  | .fatal d => .fatal d
  | .assertFail => .assertFail
  | .outOfFuel => .outOfFuel

/-! ### The multibinding aggregator: `addMultibindings` -/

/-- `NormalizedMultibinding`: one contribution, constructed or to-construct. -/
structure NormalizedMultibinding where
  is_constructed : Bool
  object : Nat
  create : Nat
deriving DecidableEq, Repr

/-- `NormalizedMultibindingSet`: vector creator plus ordered contributions. -/
structure NormalizedMultibindingSet where
  get_multibindings_vector : Nat
  elems : List NormalizedMultibinding
deriving DecidableEq, Repr

/-- `BindingNormalization::addMultibindings`: merge the `(contribution,
vector_creator)` pairs into the per-type sets, reserving allocator space per
to-construct contribution.  The `FruitAssert`s become the error outcome. -/
def addMultibindings :
    List (ComponentStorageEntry × ComponentStorageEntry) →
    List (TypeId × NormalizedMultibindingSet) →
    FixedSizeAllocatorData →
    Except Unit (List (TypeId × NormalizedMultibindingSet) × FixedSizeAllocatorData)
  | [], multibindings, alloc => .ok (multibindings, alloc)
  | (mb, vce) :: rest, multibindings, alloc =>
    if vce.kind = EntryKind.multibindingVectorCreator then
      let b := (lookupA multibindings mb.type_id).getD ⟨0, []⟩
      let b := { b with get_multibindings_vector := vce.get_multibindings_vector }
      match mb.kind with
      | .multibindingForConstructedObject =>
        addMultibindings rest
          (insertA multibindings mb.type_id
            { b with elems := b.elems ++ [⟨true, mb.object_ptr, 0⟩] }) alloc
      | .multibindingForObjectToConstructThatNeedsNoAllocation =>
        addMultibindings rest
          (insertA multibindings mb.type_id
            { b with elems := b.elems
                ++ [⟨false, 0, mb.binding_for_object_to_construct.create⟩] })
          (alloc.addExternallyAllocatedType mb.type_id)
      | .multibindingForObjectToConstructThatNeedsAllocation =>
        addMultibindings rest
          (insertA multibindings mb.type_id
            { b with elems := b.elems
                ++ [⟨false, 0, mb.binding_for_object_to_construct.create⟩] })
          (alloc.addType mb.type_id)
      | _ => .error ()
    else .error ()

/-! ### Derived notions used by the claims -/

/-- The semantic-identity relation on duplicate bindings: same kind, same object
pointer for constructed-object bindings, same create-function identity for the
allocating kinds. -/
def semanticallyIdentical (prev entry : ComponentStorageEntry) : Prop :=
  prev.kind = entry.kind
    ∧ (entry.kind = EntryKind.bindingForConstructedObject →
        prev.object_ptr = entry.object_ptr)
    ∧ (entry.kind ≠ EntryKind.bindingForConstructedObject →
        prev.binding_for_object_to_construct.create
          = entry.binding_for_object_to_construct.create)

instance (prev entry : ComponentStorageEntry) :
    Decidable (semanticallyIdentical prev entry) := by
  unfold semanticallyIdentical; infer_instance

/-- Applying one `CompressedBindingUndoInfo`: re-insert C (with its recorded
original payload; the kind is recovered from the compressed I-binding, which
inherited it) and restore I's original kind `NeedsNoAllocation` and payload. -/
def applyCompressionUndo (m : List (TypeId × ComponentStorageEntry))
    (p : TypeId × CompressedBindingUndoInfo) :
    List (TypeId × ComponentStorageEntry) :=
  match lookupA m p.2.i_type_id with
  | some i_entry =>
    insertA
      (insertA m p.2.i_type_id
        { i_entry with
          kind := EntryKind.bindingForObjectToConstructThatNeedsNoAllocation
          payload := EntryPayload.objectToConstruct p.2.i_binding })
      p.1
      { kind := i_entry.kind
        type_id := p.1
        payload := EntryPayload.objectToConstruct p.2.c_binding }
  | none => m

/-- Applying every undo entry of the undo map, most recent first. -/
def applyAllCompressionUndos (undo : List (TypeId × CompressedBindingUndoInfo))
    (m : List (TypeId × ComponentStorageEntry)) :
    List (TypeId × ComponentStorageEntry) :=
  undo.foldr (fun p acc => applyCompressionUndo acc p) m

/-! ### Association-list lemmas -/

theorem lookupA_insertA {β : Type} (m : List (Nat × β)) (k t : Nat) (v : β) :
    lookupA (insertA m k v) t = if k = t then some v else lookupA m t := by
  induction m with
  | nil => by_cases h : k = t <;> simp [insertA, lookupA, h]
  | cons p rest ih =>
    obtain ⟨k', v'⟩ := p
    by_cases h : k' = k
    · subst h
      by_cases h2 : k' = t <;> simp [insertA, lookupA, h2]
    · by_cases h2 : k' = t
      · subst h2
        have : ¬ k = k' := fun hkk => h hkk.symm
        simp [insertA, lookupA, h, this]
      · simp [insertA, lookupA, h, h2, ih]

theorem lookupA_eraseA {β : Type} (m : List (Nat × β)) (k t : Nat) :
    lookupA (eraseA m k) t = if k = t then none else lookupA m t := by
  induction m with
  | nil => by_cases h : k = t <;> simp [eraseA, lookupA, h]
  | cons p rest ih =>
    obtain ⟨k', v'⟩ := p
    by_cases h : k' = k
    · subst h
      by_cases h2 : k' = t <;> simp [eraseA, lookupA, h2, ih] at *
      · simpa [h2] using ih
    · by_cases h2 : k' = t
      · subst h2
        have : ¬ k = k' := fun hkk => h hkk.symm
        simp [eraseA, lookupA, h, this]
      · simp [eraseA, lookupA, h, h2, ih]

theorem lookupA_foldl_eraseA {β : Type} (l : List Nat) (m : List (Nat × β)) (t : Nat) :
    lookupA (l.foldl eraseA m) t = if t ∈ l then none else lookupA m t := by
  induction l generalizing m with
  | nil => simp
  | cons d rest ih =>
    by_cases h : t = d
    · subst h
      simp [ih, lookupA_eraseA]
    · have hd : ¬ d = t := fun hdt => h hdt.symm
      by_cases h2 : t ∈ rest <;> simp [ih, lookupA_eraseA, h, h2, hd, List.mem_cons]

/-! ### Claim C3: duplicate-binding handling at direct-binding dispatch -/

/-- C3: when the Expander dispatches a direct binding entry whose `TypeId` is
already in the binding map, it emits the multiple-bindings diagnostic naming the
type and terminates exactly when the two entries are not semantically identical
(same kind; same object pointer for constructed-object bindings; same
create-function identity for the allocating kinds); when they are semantically
identical, processing continues with the binding map unchanged (a single entry
is kept for that `TypeId`) and no diagnostic is emitted. -/
theorem claim3_duplicate_binding_dispatch {σ : Type} (env : LazyEnv) (top : TypeId)
    (hc : σ → ComponentStorageEntry → σ)
    (hm : σ → ComponentStorageEntry → ComponentStorageEntry → σ)
    (entry : ComponentStorageEntry) (rest : List ComponentStorageEntry)
    (core : ExpanderState) (s : σ) (prev : ComponentStorageEntry)
    (hkind : entry.kind = EntryKind.bindingForConstructedObject
      ∨ entry.kind = EntryKind.bindingForObjectToConstructThatNeedsAllocation
      ∨ entry.kind = EntryKind.bindingForObjectToConstructThatNeedsNoAllocation)
    (hprev : lookupA core.binding_data_map entry.type_id = some prev) :
    (¬ semanticallyIdentical prev entry →
      helperStep env top hc hm entry rest core s
        = .fatal (.multipleBindings entry.type_id))
    ∧ (semanticallyIdentical prev entry →
      ∃ core', helperStep env top hc hm entry rest core s = .next rest core' s
        ∧ core'.binding_data_map = core.binding_data_map) := by
  rcases hkind with hk | hk | hk
  · constructor
    · intro hne
      have : prev.kind ≠ EntryKind.bindingForConstructedObject
          ∨ entry.object_ptr ≠ prev.object_ptr := by
        by_contra hcon
        push_neg at hcon
        exact hne ⟨hk ▸ hcon.1, fun _ => hcon.2.symm, fun hne2 => absurd hk hne2⟩
      simp [helperStep, hk, hprev, this]
    · intro hid
      obtain ⟨h1, h2, _⟩ := hid
      refine ⟨core, ?_, rfl⟩
      have hcond : ¬ (prev.kind ≠ EntryKind.bindingForConstructedObject
          ∨ entry.object_ptr ≠ prev.object_ptr) := by
        push_neg
        exact ⟨h1.trans hk, (h2 hk).symm⟩
      simp [helperStep, hk, hprev, hcond]
  · constructor
    · intro hne
      have : prev.kind ≠ EntryKind.bindingForObjectToConstructThatNeedsAllocation
          ∨ entry.binding_for_object_to_construct.create
              ≠ prev.binding_for_object_to_construct.create := by
        by_contra hcon
        push_neg at hcon
        refine hne ⟨hk ▸ hcon.1, fun hco => absurd hk (by simp [hco]), fun _ => hcon.2.symm⟩
      simp [helperStep, hk, hprev, this]
    · intro hid
      obtain ⟨h1, _, h3⟩ := hid
      refine ⟨{ core with allocator := core.allocator.addType entry.type_id }, ?_, rfl⟩
      have hcond : ¬ (prev.kind ≠ EntryKind.bindingForObjectToConstructThatNeedsAllocation
          ∨ entry.binding_for_object_to_construct.create
              ≠ prev.binding_for_object_to_construct.create) := by
        push_neg
        exact ⟨h1.trans hk, (h3 (by simp [hk])).symm⟩
      simp [helperStep, hk, hprev, hcond]
  · constructor
    · intro hne
      have : prev.kind ≠ EntryKind.bindingForObjectToConstructThatNeedsNoAllocation
          ∨ entry.binding_for_object_to_construct.create
              ≠ prev.binding_for_object_to_construct.create := by
        by_contra hcon
        push_neg at hcon
        refine hne ⟨hk ▸ hcon.1, fun hco => absurd hk (by simp [hco]), fun _ => hcon.2.symm⟩
      simp [helperStep, hk, hprev, this]
    · intro hid
      obtain ⟨h1, _, h3⟩ := hid
      refine ⟨{ core with
        allocator := core.allocator.addExternallyAllocatedType entry.type_id }, ?_, rfl⟩
      have hcond : ¬ (prev.kind ≠ EntryKind.bindingForObjectToConstructThatNeedsNoAllocation
          ∨ entry.binding_for_object_to_construct.create
              ≠ prev.binding_for_object_to_construct.create) := by
        push_neg
        exact ⟨h1.trans hk, (h3 (by simp [hk])).symm⟩
      simp [helperStep, hk, hprev, hcond]

/-! ### Claim C5: lazy-component dispatch, skip versus installation-loop -/

/-- C5: when the Expander dispatches a lazy-component entry, it emits the
lazy-component installation-loop diagnostic and terminates exactly when the
entry's identity is not yet fully expanded but is already in the corresponding
in-progress set; an entry whose identity is already in the corresponding
fully-expanded set is popped and skipped with no diagnostic, no state change and
no re-expansion. -/
theorem claim5_lazy_dispatch {σ : Type} (env : LazyEnv) (top : TypeId)
    (hc : σ → ComponentStorageEntry → σ)
    (hm : σ → ComponentStorageEntry → ComponentStorageEntry → σ)
    (entry : ComponentStorageEntry) (rest : List ComponentStorageEntry)
    (core : ExpanderState) (s : σ) :
    (entry.kind = EntryKind.lazyComponentWithNoArgs →
      ((entry.lazy_no_args_id ∈ core.fully_expanded_no_args →
          helperStep env top hc hm entry rest core s = .next rest core s)
        ∧ (helperStep env top hc hm entry rest core s
            = .fatal (.installationLoop
                (printLazyComponentInstallationLoop top (entry :: rest).reverse entry))
          ↔ entry.lazy_no_args_id ∉ core.fully_expanded_no_args
            ∧ entry.lazy_no_args_id ∈ core.in_progress_no_args)))
    ∧ (entry.kind = EntryKind.lazyComponentWithArgs →
      ((entry.lazy_with_args_id ∈ core.fully_expanded_with_args →
          helperStep env top hc hm entry rest core s = .next rest core s)
        ∧ (helperStep env top hc hm entry rest core s
            = .fatal (.installationLoop
                (printLazyComponentInstallationLoop top (entry :: rest).reverse entry))
          ↔ entry.lazy_with_args_id ∉ core.fully_expanded_with_args
            ∧ entry.lazy_with_args_id ∈ core.in_progress_with_args))) := by
  constructor
  · intro hk
    constructor
    · intro hfull
      simp [helperStep, hk, hfull]
    · constructor
      · intro heq
        by_cases hfull : entry.lazy_no_args_id ∈ core.fully_expanded_no_args
        · simp [helperStep, hk, hfull] at heq
        · by_cases hprog : entry.lazy_no_args_id ∈ core.in_progress_no_args
          · exact ⟨hfull, hprog⟩
          · simp [helperStep, hk, hfull, hprog] at heq
      · rintro ⟨hfull, hprog⟩
        simp [helperStep, hk, hfull, hprog]
  · intro hk
    constructor
    · intro hfull
      simp [helperStep, hk, hfull]
    · constructor
      · intro heq
        by_cases hfull : entry.lazy_with_args_id ∈ core.fully_expanded_with_args
        · simp [helperStep, hk, hfull] at heq
        · by_cases hprog : entry.lazy_with_args_id ∈ core.in_progress_with_args
          · exact ⟨hfull, hprog⟩
          · simp [helperStep, hk, hfull, hprog] at heq
      · rintro ⟨hfull, hprog⟩
        simp [helperStep, hk, hfull, hprog]

/-! ### Concrete fixtures used by witnesses and counterexamples -/

/-- Entry builder: direct binding for an already-constructed object. -/
def mkBindingCO (t p : Nat) : ComponentStorageEntry :=
  ⟨.bindingForConstructedObject, t, .constructedObject p⟩

/-- Entry builder: direct binding needing allocation. -/
def mkBindingNA (t f : Nat) (deps : List TypeId) : ComponentStorageEntry :=
  ⟨.bindingForObjectToConstructThatNeedsAllocation, t, .objectToConstruct ⟨f, deps⟩⟩

/-- Entry builder: direct binding needing no allocation. -/
def mkBindingNNA (t f : Nat) (deps : List TypeId) : ComponentStorageEntry :=
  ⟨.bindingForObjectToConstructThatNeedsNoAllocation, t, .objectToConstruct ⟨f, deps⟩⟩

/-- Entry builder: compressed-binding candidate `I → C`. -/
def mkCompressed (i c f : Nat) : ComponentStorageEntry :=
  ⟨.compressedBinding, i, .compressed c f⟩

/-- Entry builder: to-construct multibinding contribution needing allocation. -/
def mkMultibindingNA (t f : Nat) (deps : List TypeId) : ComponentStorageEntry :=
  ⟨.multibindingForObjectToConstructThatNeedsAllocation, t, .objectToConstruct ⟨f, deps⟩⟩

/-- Entry builder: multibinding vector creator. -/
def mkVectorCreator (t g : Nat) : ComponentStorageEntry :=
  ⟨.multibindingVectorCreator, t, .vectorCreator g⟩

/-- Entry builder: lazy component with no arguments. -/
def mkLazyNoArgs (t f : Nat) : ComponentStorageEntry :=
  ⟨.lazyComponentWithNoArgs, t, .lazyNoArgs f⟩

/-- Entry builder: lazy component with arguments. -/
def mkLazyWithArgs (t c : Nat) : ComponentStorageEntry :=
  ⟨.lazyComponentWithArgs, t, .lazyWithArgs c⟩

/-- An empty lazy-component environment. -/
def emptyEnv : LazyEnv := ⟨[], []⟩

/-- A fresh allocator descriptor. -/
def emptyAlloc : FixedSizeAllocatorData := ⟨[], []⟩

/-- Trivial compressed-binding handler on trivial handler state. -/
def trivialHC : Unit → ComponentStorageEntry → Unit := fun s _ => s

/-- Trivial multibinding handler on trivial handler state. -/
def trivialHM : Unit → ComponentStorageEntry → ComponentStorageEntry → Unit :=
  fun s _ _ => s

/-- A state whose binding map already holds a needs-allocation binding for
type 1. -/
def coreWithT1 : ExpanderState :=
  { initialState emptyAlloc with binding_data_map := [(1, mkBindingNA 1 100 [])] }

/-- Witness for C3 at a concrete duplicate: re-dispatching the same
needs-allocation binding for type 1 is accepted and leaves the map unchanged. -/
theorem claim3_witness :
    semanticallyIdentical (mkBindingNA 1 100 []) (mkBindingNA 1 100 [7])
    ∧ ∃ core', helperStep emptyEnv 0 trivialHC trivialHM (mkBindingNA 1 100 [7]) []
        coreWithT1 () = .next [] core' ()
        ∧ core'.binding_data_map = coreWithT1.binding_data_map :=
  ⟨by decide,
    (claim3_duplicate_binding_dispatch emptyEnv 0 trivialHC trivialHM
      (mkBindingNA 1 100 [7]) [] coreWithT1 () (mkBindingNA 1 100 [])
      (Or.inr (Or.inl rfl)) rfl).2 (by decide)⟩

/-- A state in which lazy component 5 is currently being expanded. -/
def coreInProgress5 : ExpanderState :=
  { initialState emptyAlloc with in_progress_no_args := [5] }

/-- Witness for C5 at a concrete input: dispatching lazy component 5 while its
expansion is in progress produces the installation-loop diagnostic. -/
theorem claim5_witness :
    mkLazyNoArgs 50 5 = mkLazyNoArgs 50 5
    ∧ helperStep emptyEnv 0 trivialHC trivialHM (mkLazyNoArgs 50 5) []
        coreInProgress5 ()
      = .fatal (.installationLoop
          (printLazyComponentInstallationLoop 0 [mkLazyNoArgs 50 5] (mkLazyNoArgs 50 5))) :=
  ⟨rfl,
    ((claim5_lazy_dispatch emptyEnv 0 trivialHC trivialHM (mkLazyNoArgs 50 5) []
      coreInProgress5 ()).1 rfl).2.mpr (by decide)⟩

/-! ### Claim C10: the last compressed entry processed for a given C wins -/

/-- Folding `normalizeHandleCompressed` over a stack of compressed entries. -/
def foldCandidates (stack : List ComponentStorageEntry)
    (cmap : List (TypeId × BindingCompressionInfo)) :
    List (TypeId × BindingCompressionInfo) :=
  stack.foldl (fun m e => insertA m e.compressed_c_type_id
    ⟨e.type_id, e.compressed_create⟩) cmap

theorem lookupA_foldCandidates (stack : List ComponentStorageEntry)
    (cmap : List (TypeId × BindingCompressionInfo)) (c : TypeId) :
    lookupA (foldCandidates stack cmap) c
      = match stack.reverse.find? (fun e => e.compressed_c_type_id = c) with
        | some e => some ⟨e.type_id, e.compressed_create⟩
        | none => lookupA cmap c := by
  induction stack generalizing cmap with
  | nil => simp [foldCandidates]
  | cons e rest ih =>
    have : foldCandidates (e :: rest) cmap
        = foldCandidates rest (insertA cmap e.compressed_c_type_id
            ⟨e.type_id, e.compressed_create⟩) := rfl
    rw [this, ih]
    have happ : (e :: rest).reverse = rest.reverse ++ [e] := by simp
    rw [happ, List.find?_append]
    cases hfind : rest.reverse.find? (fun e => decide (e.compressed_c_type_id = c)) with
    | some e' => simp
    | none =>
      simp only [Option.none_orElse]
      by_cases hec : e.compressed_c_type_id = c
      · simp [List.find?, hec, lookupA_insertA]
      · simp [List.find?, hec, lookupA_insertA]

/-- Running the Expander on a stack consisting only of compressed entries:
every entry goes through `handle_compressed_binding`; nothing can fail. -/
theorem helperLoop_all_compressed (env : LazyEnv) (top : TypeId)
    (stack : List ComponentStorageEntry)
    (hall : ∀ e ∈ stack, e.kind = EntryKind.compressedBinding) :
    ∀ (core : ExpanderState) (cmap : List (TypeId × BindingCompressionInfo))
      (mbv : List (ComponentStorageEntry × ComponentStorageEntry)),
    helperLoop env top normalizeHandleCompressed normalizeHandleMultibinding
        stack.length stack core (cmap, mbv)
      = .ok (core, (foldCandidates stack cmap, mbv)) := by
  induction stack with
  | nil => intro core cmap mbv; simp [helperLoop, foldCandidates]
  | cons e rest ih =>
    intro core cmap mbv
    have hk : e.kind = EntryKind.compressedBinding := hall e (by simp)
    have hrest : ∀ x ∈ rest, x.kind = EntryKind.compressedBinding :=
      fun x hx => hall x (by simp [hx])
    have hstep : helperStep env top normalizeHandleCompressed
        normalizeHandleMultibinding e rest core (cmap, mbv)
        = .next rest core (normalizeHandleCompressed (cmap, mbv) e) := by
      simp [helperStep, hk]
    show helperLoop env top normalizeHandleCompressed normalizeHandleMultibinding
        (rest.length + 1) (e :: rest) core (cmap, mbv) = _
    rw [helperLoop, hstep]
    exact ih hrest core _ mbv

/-- C10: when the top-level input consists of compressed entries, several of
which may share the same `c_type_id`, the Expander accepts them all with no
diagnostic and the resulting candidate map records, for each C, exactly the
`i_type_id` and create function of the last entry processed for that C (entries
are processed from the back of the input vector), silently overwriting earlier
candidates. -/
theorem claim10_last_candidate_wins (env : LazyEnv) (top : TypeId)
    (alloc : FixedSizeAllocatorData) (es : List ComponentStorageEntry)
    (hall : ∀ e ∈ es, e.kind = EntryKind.compressedBinding) :
    ∃ cmap, normalizeBindingsHelper es.length env es alloc top
        normalizeHandleCompressed normalizeHandleMultibinding ([], [])
        = .ok (initialState alloc, (cmap, []))
      ∧ ∀ c, lookupA cmap c
          = match es.find? (fun e => e.compressed_c_type_id = c) with
            | some e => some ⟨e.type_id, e.compressed_create⟩
            | none => none := by
  refine ⟨foldCandidates es.reverse [], ?_, ?_⟩
  · have hall' : ∀ e ∈ es.reverse, e.kind = EntryKind.compressedBinding :=
      fun e he => hall e (List.mem_reverse.mp he)
    have := helperLoop_all_compressed env top es.reverse hall'
      (initialState alloc) [] []
    simpa [normalizeBindingsHelper] using this
  · intro c
    rw [lookupA_foldCandidates]
    simp [lookupA]

/-- Two compressed entries with the same `c_type_id` 9 but different interfaces
and create functions. -/
def twoCandidatesSameC : List ComponentStorageEntry :=
  [mkCompressed 1 9 30, mkCompressed 2 9 31]

/-- Witness for C10: of the two candidates for C = 9, the one processed last
(the front of the input vector, since processing pops from the back) silently
wins; the other leaves no trace and no diagnostic is emitted. -/
theorem claim10_witness :
    (∀ e ∈ twoCandidatesSameC, e.kind = EntryKind.compressedBinding)
    ∧ (∃ cmap, normalizeBindingsHelper twoCandidatesSameC.length emptyEnv
          twoCandidatesSameC emptyAlloc 0
          normalizeHandleCompressed normalizeHandleMultibinding ([], [])
          = .ok (initialState emptyAlloc, (cmap, []))
        ∧ lookupA cmap 9 = some ⟨1, 30⟩) := by
  refine ⟨by decide, ?_⟩
  obtain ⟨cmap, h1, h2⟩ := claim10_last_candidate_wins emptyEnv 0 emptyAlloc
    twoCandidatesSameC (by decide)
  refine ⟨cmap, h1, ?_⟩
  rw [h2 9]
  rfl

/-! ### Claim C1: compression-eligibility pruning -/

/-- Veto 1: C is a dependency of a to-construct multibinding contribution. -/
def multibindingVeto (mbv : List (ComponentStorageEntry × ComponentStorageEntry))
    (c : TypeId) : Prop :=
  ∃ p ∈ mbv, p.1.kind ≠ EntryKind.multibindingForConstructedObject
    ∧ c ∈ p.1.binding_for_object_to_construct.deps

instance (mbv : List (ComponentStorageEntry × ComponentStorageEntry)) (c : TypeId) :
    Decidable (multibindingVeto mbv c) := by
  unfold multibindingVeto; infer_instance

/-- Veto 3: some bound type X with a non-constructed-object binding has C among
its dependencies, and X differs from the candidate's recorded I (as currently
recorded in the candidate map `cmap`). -/
def foreignConsumerVeto (bmap : List (TypeId × ComponentStorageEntry))
    (cmap : List (TypeId × BindingCompressionInfo)) (c : TypeId) : Prop :=
  ∃ p ∈ bmap, p.2.kind ≠ EntryKind.bindingForConstructedObject
    ∧ c ∈ p.2.binding_for_object_to_construct.deps
    ∧ ∃ info, lookupA cmap c = some info ∧ info.i_type_id ≠ p.1

instance (bmap : List (TypeId × ComponentStorageEntry))
    (cmap : List (TypeId × BindingCompressionInfo)) (c : TypeId) :
    Decidable (foreignConsumerVeto bmap cmap c) := by
  unfold foreignConsumerVeto; infer_instance

theorem pruneMultibindingDeps_lookup
    (mbv : List (ComponentStorageEntry × ComponentStorageEntry))
    (hwf : ∀ p ∈ mbv, p.1.kind = EntryKind.multibindingForConstructedObject
      ∨ p.1.kind = EntryKind.multibindingForObjectToConstructThatNeedsAllocation
      ∨ p.1.kind = EntryKind.multibindingForObjectToConstructThatNeedsNoAllocation) :
    ∀ cmap : List (TypeId × BindingCompressionInfo),
    ∃ cmap1, pruneMultibindingDeps mbv cmap = .ok cmap1
      ∧ ∀ c, lookupA cmap1 c
          = if multibindingVeto mbv c then none else lookupA cmap c := by
  induction mbv with
  | nil =>
    intro cmap
    refine ⟨cmap, rfl, fun c => ?_⟩
    simp [multibindingVeto]
  | cons p rest ih =>
    intro cmap
    obtain ⟨e, vc⟩ := p
    have hke := hwf (e, vc) (by simp)
    have hrest : ∀ q ∈ rest, q.1.kind = EntryKind.multibindingForConstructedObject
        ∨ q.1.kind = EntryKind.multibindingForObjectToConstructThatNeedsAllocation
        ∨ q.1.kind = EntryKind.multibindingForObjectToConstructThatNeedsNoAllocation :=
      fun q hq => hwf q (by simp [hq])
    by_cases hco : e.kind = EntryKind.multibindingForConstructedObject
    · obtain ⟨cmap1, hok, hchar⟩ := ih hrest cmap
      refine ⟨cmap1, ?_, fun c => ?_⟩
      · simp [pruneMultibindingDeps, hco, hok]
      · rw [hchar c]
        have : multibindingVeto ((e, vc) :: rest) c ↔ multibindingVeto rest c := by
          constructor
          · rintro ⟨q, hq, hkq, hdq⟩
            rcases List.mem_cons.mp hq with rfl | hq2
            · exact absurd hco hkq
            · exact ⟨q, hq2, hkq, hdq⟩
          · rintro ⟨q, hq, hkq, hdq⟩
            exact ⟨q, by simp [hq], hkq, hdq⟩
        by_cases hv : multibindingVeto rest c <;> simp [this, hv]
    · obtain ⟨cmap1, hok, hchar⟩ :=
        ih hrest (e.binding_for_object_to_construct.deps.foldl eraseA cmap)
      refine ⟨cmap1, ?_, fun c => ?_⟩
      · simp only [pruneMultibindingDeps]
        rw [if_pos hke, if_pos hco]
        exact hok
      · rw [hchar c, lookupA_foldl_eraseA]
        have hiff : multibindingVeto ((e, vc) :: rest) c
            ↔ (c ∈ e.binding_for_object_to_construct.deps ∨ multibindingVeto rest c) := by
          constructor
          · rintro ⟨q, hq, hkq, hdq⟩
            rcases List.mem_cons.mp hq with rfl | hq2
            · exact Or.inl hdq
            · exact Or.inr ⟨q, hq2, hkq, hdq⟩
          · rintro (hd | ⟨q, hq, hkq, hdq⟩)
            · exact ⟨(e, vc), by simp, hco, hd⟩
            · exact ⟨q, by simp [hq], hkq, hdq⟩
        by_cases hv : multibindingVeto rest c
          <;> by_cases hd : c ∈ e.binding_for_object_to_construct.deps
          <;> simp [hiff, hv, hd]

theorem pruneForeignConsumerDeps_lookup (x : TypeId) (deps : List TypeId) :
    ∀ (cmap : List (TypeId × BindingCompressionInfo)) (c : TypeId),
    lookupA (pruneForeignConsumerDeps x deps cmap) c
      = if c ∈ deps ∧ (∃ info, lookupA cmap c = some info ∧ info.i_type_id ≠ x)
        then none else lookupA cmap c := by
  induction deps with
  | nil => intro cmap c; simp [pruneForeignConsumerDeps]
  | cons d rest ih =>
    intro cmap c
    have hstep : pruneForeignConsumerDeps x (d :: rest) cmap
        = pruneForeignConsumerDeps x rest
            (match lookupA cmap d with
             | some info => if info.i_type_id ≠ x then eraseA cmap d else cmap
             | none => cmap) := by
      simp [pruneForeignConsumerDeps]
    by_cases hcd : c = d
    · subst hcd
      cases hl : lookupA cmap c with
      | none =>
        rw [hstep, hl, ih]
        simp [hl]
      | some info =>
        by_cases hne : info.i_type_id ≠ x
        · have hred : pruneForeignConsumerDeps x (c :: rest) cmap
              = pruneForeignConsumerDeps x rest (eraseA cmap c) := by
            rw [hstep, hl]
            simp [hne]
          rw [hred, ih]
          have h1 : lookupA (eraseA cmap c) c = none := by simp [lookupA_eraseA]
          have hL : ¬ (c ∈ rest ∧ ∃ info', lookupA (eraseA cmap c) c = some info'
              ∧ info'.i_type_id ≠ x) := by
            rintro ⟨-, info', hli, -⟩
            rw [h1] at hli
            exact Option.noConfusion hli
          have hR : c ∈ c :: rest ∧ ∃ info', (some info : Option BindingCompressionInfo)
              = some info' ∧ info'.i_type_id ≠ x := ⟨by simp, info, rfl, hne⟩
          rw [if_neg hL, if_pos hR, h1]
        · have hred : pruneForeignConsumerDeps x (c :: rest) cmap
              = pruneForeignConsumerDeps x rest cmap := by
            rw [hstep, hl]
            simp [hne]
          rw [hred, ih]
          push_neg at hne
          have hni1 : ¬ (∃ info', lookupA cmap c = some info' ∧ info'.i_type_id ≠ x) := by
            rintro ⟨info', hl', hne'⟩
            rw [hl] at hl'
            exact hne' (Option.some.inj hl' ▸ hne)
          have hni2 : ¬ (∃ info', (some info : Option BindingCompressionInfo) = some info'
              ∧ info'.i_type_id ≠ x) := by
            rintro ⟨info', hl', hne'⟩
            exact hne' (Option.some.inj hl' ▸ hne)
          rw [if_neg (fun h => hni1 h.2), if_neg (fun h => hni2 h.2)]
          exact hl
    · have hlf : ∀ m : List (TypeId × BindingCompressionInfo),
          lookupA (match lookupA cmap d with
             | some info => if info.i_type_id ≠ x then eraseA cmap d else cmap
             | none => cmap) c = lookupA cmap c := by
        intro
        cases hl : lookupA cmap d with
        | none => rfl
        | some info =>
          by_cases hne : info.i_type_id ≠ x
          · have hd : ¬ d = c := fun h => hcd h.symm
            simp [hne, lookupA_eraseA, hd]
          · simp [hne]
      rw [hstep, ih]
      rw [hlf cmap]
      have hmem : (c ∈ d :: rest) ↔ c ∈ rest := by simp [List.mem_cons, hcd]
      by_cases h1 : c ∈ rest
        <;> by_cases h2 : ∃ info, lookupA cmap c = some info ∧ info.i_type_id ≠ x
        <;> simp [hmem, h1, h2]

theorem pruneForeignConsumers_lookup (bmap : List (TypeId × ComponentStorageEntry))
    (hwf : ∀ p ∈ bmap, p.2.kind = EntryKind.bindingForConstructedObject
      ∨ p.2.kind = EntryKind.bindingForObjectToConstructThatNeedsAllocation
      ∨ p.2.kind = EntryKind.bindingForObjectToConstructThatNeedsNoAllocation) :
    ∀ cmap : List (TypeId × BindingCompressionInfo),
    ∃ cmap3, pruneForeignConsumers bmap cmap = .ok cmap3
      ∧ ∀ c, lookupA cmap3 c
          = if foreignConsumerVeto bmap cmap c then none else lookupA cmap c := by
  induction bmap with
  | nil =>
    intro cmap
    refine ⟨cmap, rfl, fun c => ?_⟩
    simp [foreignConsumerVeto]
  | cons p rest ih =>
    intro cmap
    obtain ⟨x, bx⟩ := p
    have hkx := hwf (x, bx) (by simp)
    have hrest : ∀ q ∈ rest, q.2.kind = EntryKind.bindingForConstructedObject
        ∨ q.2.kind = EntryKind.bindingForObjectToConstructThatNeedsAllocation
        ∨ q.2.kind = EntryKind.bindingForObjectToConstructThatNeedsNoAllocation :=
      fun q hq => hwf q (by simp [hq])
    by_cases hco : bx.kind = EntryKind.bindingForConstructedObject
    · obtain ⟨cmap3, hok, hchar⟩ := ih hrest cmap
      refine ⟨cmap3, ?_, fun c => ?_⟩
      · simp [pruneForeignConsumers, hco, hok]
      · rw [hchar c]
        have hiff : foreignConsumerVeto ((x, bx) :: rest) cmap c
            ↔ foreignConsumerVeto rest cmap c := by
          constructor
          · rintro ⟨q, hq, hkq, hdq, hinfo⟩
            rcases List.mem_cons.mp hq with rfl | hq2
            · exact absurd hco hkq
            · exact ⟨q, hq2, hkq, hdq, hinfo⟩
          · rintro ⟨q, hq, hkq, hdq, hinfo⟩
            exact ⟨q, by simp [hq], hkq, hdq, hinfo⟩
        by_cases hv : foreignConsumerVeto rest cmap c <;> simp [hiff, hv]
    · set cmap' := pruneForeignConsumerDeps x bx.binding_for_object_to_construct.deps cmap
        with hcmap'
      obtain ⟨cmap3, hok, hchar⟩ := ih hrest cmap'
      refine ⟨cmap3, ?_, fun c => ?_⟩
      · simp only [pruneForeignConsumers]
        rw [if_pos hkx, if_pos hco]
        exact hok
      · rw [hchar c]
        have hinner := pruneForeignConsumerDeps_lookup x
          bx.binding_for_object_to_construct.deps cmap c
        by_cases hhead : c ∈ bx.binding_for_object_to_construct.deps
            ∧ (∃ info, lookupA cmap c = some info ∧ info.i_type_id ≠ x)
        · have hnone : lookupA cmap' c = none := by rw [hcmap', hinner, if_pos hhead]
          have hvr : ¬ foreignConsumerVeto rest cmap' c := by
            rintro ⟨q, hq, hkq, hdq, info, hli, hni⟩
            rw [hnone] at hli
            exact Option.noConfusion hli
          have hvc : foreignConsumerVeto ((x, bx) :: rest) cmap c :=
            ⟨(x, bx), by simp, hco, hhead.1, hhead.2⟩
          rw [if_neg hvr, if_pos hvc, hnone]
        · have hsame : lookupA cmap' c = lookupA cmap c := by
            rw [hcmap', hinner, if_neg hhead]
          have hviff : foreignConsumerVeto rest cmap' c ↔ foreignConsumerVeto rest cmap c := by
            constructor
            · rintro ⟨q, hq, hkq, hdq, info, hli, hni⟩
              exact ⟨q, hq, hkq, hdq, info, hsame ▸ hli, hni⟩
            · rintro ⟨q, hq, hkq, hdq, info, hli, hni⟩
              exact ⟨q, hq, hkq, hdq, info, hsame.symm ▸ hli, hni⟩
          have hcons : foreignConsumerVeto ((x, bx) :: rest) cmap c
              ↔ foreignConsumerVeto rest cmap c := by
            constructor
            · rintro ⟨q, hq, hkq, hdq, hinfo⟩
              rcases List.mem_cons.mp hq with rfl | hq2
              · exact absurd ⟨hdq, hinfo⟩ hhead
              · exact ⟨q, hq2, hkq, hdq, hinfo⟩
            · rintro ⟨q, hq, hkq, hdq, hinfo⟩
              exact ⟨q, by simp [hq], hkq, hdq, hinfo⟩
          rw [hsame]
          by_cases hv : foreignConsumerVeto rest cmap c
          · rw [if_pos (hviff.mpr hv), if_pos (hcons.mpr hv)]
          · rw [if_neg (fun h => hv (hviff.mp h)), if_neg (fun h => hv (hcons.mp h))]

/-- C1: a compression candidate `(I → C)` survives the eligibility pruning of
`performBindingCompression` if and only if all three hold: C is not in the
dependency list of any multibinding contribution whose kind is not
constructed-object, C is not in the exposed-types list, and no binding-map entry
`(X, binding_X)` with kind other than constructed-object and X distinct from the
candidate's recorded I has C in its dependency list.  A surviving candidate
keeps its recorded info unchanged, and keys absent from the candidate map stay
absent. -/
theorem claim1_compression_eligibility
    (bmap : List (TypeId × ComponentStorageEntry))
    (cmap : List (TypeId × BindingCompressionInfo))
    (mbv : List (ComponentStorageEntry × ComponentStorageEntry))
    (exposed : List TypeId)
    (hmb : ∀ p ∈ mbv, p.1.kind = EntryKind.multibindingForConstructedObject
      ∨ p.1.kind = EntryKind.multibindingForObjectToConstructThatNeedsAllocation
      ∨ p.1.kind = EntryKind.multibindingForObjectToConstructThatNeedsNoAllocation)
    (hbm : ∀ p ∈ bmap, p.2.kind = EntryKind.bindingForConstructedObject
      ∨ p.2.kind = EntryKind.bindingForObjectToConstructThatNeedsAllocation
      ∨ p.2.kind = EntryKind.bindingForObjectToConstructThatNeedsNoAllocation) :
    ∃ pruned, pruneEligibility bmap cmap mbv exposed = .ok pruned
      ∧ (∀ c, lookupA cmap c = none → lookupA pruned c = none)
      ∧ (∀ c info, lookupA cmap c = some info →
          (lookupA pruned c = some info
            ↔ ¬ multibindingVeto mbv c ∧ c ∉ exposed
              ∧ ¬ ∃ p ∈ bmap, p.2.kind ≠ EntryKind.bindingForConstructedObject
                  ∧ p.1 ≠ info.i_type_id
                  ∧ c ∈ p.2.binding_for_object_to_construct.deps)
          ∧ (lookupA pruned c = some info ∨ lookupA pruned c = none)) := by
  obtain ⟨cmap1, hok1, hchar1⟩ := pruneMultibindingDeps_lookup mbv hmb cmap
  obtain ⟨cmap3, hok3, hchar3⟩ :=
    pruneForeignConsumers_lookup bmap hbm (exposed.foldl eraseA cmap1)
  have hrun : pruneEligibility bmap cmap mbv exposed = .ok cmap3 := by
    simp only [pruneEligibility, hok1]
    exact hok3
  have hc2 : ∀ c, lookupA (exposed.foldl eraseA cmap1) c
      = if c ∈ exposed then none else lookupA cmap1 c :=
    fun c => lookupA_foldl_eraseA exposed cmap1 c
  refine ⟨cmap3, hrun, ?_, ?_⟩
  · intro c hnone
    have h1 : lookupA cmap1 c = none := by
      rw [hchar1 c, hnone]
      by_cases hv : multibindingVeto mbv c <;> simp [hv]
    have h2 : lookupA (exposed.foldl eraseA cmap1) c = none := by
      rw [hc2 c, h1]
      by_cases he : c ∈ exposed <;> simp [he]
    have h3 : ¬ foreignConsumerVeto bmap (exposed.foldl eraseA cmap1) c := by
      rintro ⟨q, hq, hkq, hdq, info, hli, hni⟩
      rw [h2] at hli
      exact Option.noConfusion hli
    rw [hchar3 c, if_neg h3, h2]
  · intro c info hsome
    by_cases hv1 : multibindingVeto mbv c
    · have h1 : lookupA cmap1 c = none := by rw [hchar1 c, if_pos hv1]
      have h2 : lookupA (exposed.foldl eraseA cmap1) c = none := by
        rw [hc2 c, h1]
        by_cases he : c ∈ exposed <;> simp [he]
      have h3 : ¬ foreignConsumerVeto bmap (exposed.foldl eraseA cmap1) c := by
        rintro ⟨q, hq, hkq, hdq, info', hli, hni⟩
        rw [h2] at hli
        exact Option.noConfusion hli
      have hfin : lookupA cmap3 c = none := by rw [hchar3 c, if_neg h3, h2]
      rw [hfin]
      exact ⟨⟨fun h => Option.noConfusion h, fun h => absurd hv1 h.1⟩, Or.inr rfl⟩
    · by_cases hv2 : c ∈ exposed
      · have h2 : lookupA (exposed.foldl eraseA cmap1) c = none := by
          rw [hc2 c, if_pos hv2]
        have h3 : ¬ foreignConsumerVeto bmap (exposed.foldl eraseA cmap1) c := by
          rintro ⟨q, hq, hkq, hdq, info', hli, hni⟩
          rw [h2] at hli
          exact Option.noConfusion hli
        have hfin : lookupA cmap3 c = none := by rw [hchar3 c, if_neg h3, h2]
        rw [hfin]
        exact ⟨⟨fun h => Option.noConfusion h, fun h => absurd hv2 h.2.1⟩, Or.inr rfl⟩
      · have h1 : lookupA cmap1 c = some info := by rw [hchar1 c, if_neg hv1, hsome]
        have h2 : lookupA (exposed.foldl eraseA cmap1) c = some info := by
          rw [hc2 c, if_neg hv2, h1]
        have hv3iff : foreignConsumerVeto bmap (exposed.foldl eraseA cmap1) c
            ↔ ∃ p ∈ bmap, p.2.kind ≠ EntryKind.bindingForConstructedObject
                ∧ p.1 ≠ info.i_type_id
                ∧ c ∈ p.2.binding_for_object_to_construct.deps := by
          constructor
          · rintro ⟨q, hq, hkq, hdq, info', hli, hni⟩
            rw [h2] at hli
            refine ⟨q, hq, hkq, fun h => hni ?_, hdq⟩
            rw [← Option.some.inj hli]
            exact h.symm
          · rintro ⟨q, hq, hkq, hne, hdq⟩
            exact ⟨q, hq, hkq, hdq, info, h2, fun h => hne h.symm⟩
        by_cases hv3 : foreignConsumerVeto bmap (exposed.foldl eraseA cmap1) c
        · have hfin : lookupA cmap3 c = none := by rw [hchar3 c, if_pos hv3]
          rw [hfin]
          refine ⟨⟨fun h => Option.noConfusion h, fun h => absurd (hv3iff.mp hv3) h.2.2⟩,
            Or.inr rfl⟩
        · have hfin : lookupA cmap3 c = some info := by rw [hchar3 c, if_neg hv3, h2]
          rw [hfin]
          exact ⟨⟨fun _ => ⟨hv1, hv2, fun h => hv3 (hv3iff.mpr h)⟩, fun _ => rfl⟩, Or.inl rfl⟩

/-- Binding map for the C1 witness: I = 1 (no allocation), C = 2 (needs
allocation), and a foreign consumer X = 3 whose dependency list contains C. -/
def c1bmap : List (TypeId × ComponentStorageEntry) :=
  [(1, mkBindingNNA 1 10 []), (2, mkBindingNA 2 20 []), (3, mkBindingNA 3 40 [2])]

/-- Candidate map for the C1 witness: C = 2 with recorded I = 1. -/
def c1cmap : List (TypeId × BindingCompressionInfo) :=
  [(2, ⟨1, 30⟩)]

/-- Witness for C1: with a foreign consumer X = 3 ≠ I = 1 depending on C = 2,
the candidate for C = 2 is pruned. -/
theorem claim1_witness :
    (∀ p ∈ c1bmap, p.2.kind = EntryKind.bindingForConstructedObject
      ∨ p.2.kind = EntryKind.bindingForObjectToConstructThatNeedsAllocation
      ∨ p.2.kind = EntryKind.bindingForObjectToConstructThatNeedsNoAllocation)
    ∧ (∃ pruned, pruneEligibility c1bmap c1cmap [] [] = .ok pruned
        ∧ lookupA pruned 2 = none) := by
  refine ⟨by decide, ?_⟩
  obtain ⟨pruned, hrun, hnone, hmain⟩ :=
    claim1_compression_eligibility c1bmap c1cmap [] [] (by simp) (by decide)
  obtain ⟨hiff, hor⟩ := hmain 2 ⟨1, 30⟩ rfl
  refine ⟨pruned, hrun, ?_⟩
  rcases hor with hsome | hnone2
  · exfalso
    exact (hiff.mp hsome).2.2
      ⟨(3, mkBindingNA 3 40 [2]), by decide, by decide, by decide, by decide⟩
  · exact hnone2

/-! ### Claim C4: allocator calls are per processed entry, not per final binding -/

/-- Counterexample to C4 as stated: for the input consisting of the same
needs-allocation binding for T1 = 1 given twice, the run succeeds with a single
final binding but `addType(1)` is called twice, not once — the call happens
before the duplicate check, once per processed entry occurrence. -/
theorem claim4_counterexample :
    normalizeBindings 2 emptyEnv [mkBindingNA 1 100 [], mkBindingNA 1 100 []]
        emptyAlloc 0 []
      = .ok { bindings_vector := [mkBindingNA 1 100 []]
              multibindings_vector := []
              bindingCompressionInfoMap := []
              allocator := { addTypeCalls := [1, 1]
                             addExternallyAllocatedTypeCalls := [] } }
    ∧ List.count 1 [1, 1] = 2 ∧ ¬ List.count 1 [1, 1] = 1 := by
  refine ⟨?_, by decide, by decide⟩
  rfl

theorem addMultibindings_allocator
    (vec : List (ComponentStorageEntry × ComponentStorageEntry)) :
    ∀ (m : List (TypeId × NormalizedMultibindingSet)) (alloc : FixedSizeAllocatorData)
      (m' : List (TypeId × NormalizedMultibindingSet)) (alloc' : FixedSizeAllocatorData),
    addMultibindings vec m alloc = .ok (m', alloc') →
    alloc'.addTypeCalls = alloc.addTypeCalls
        ++ vec.filterMap (fun p =>
            if p.1.kind = EntryKind.multibindingForObjectToConstructThatNeedsAllocation
            then some p.1.type_id else none)
      ∧ alloc'.addExternallyAllocatedTypeCalls = alloc.addExternallyAllocatedTypeCalls
        ++ vec.filterMap (fun p =>
            if p.1.kind = EntryKind.multibindingForObjectToConstructThatNeedsNoAllocation
            then some p.1.type_id else none) := by
  induction vec with
  | nil =>
    intro m alloc m' alloc' h
    obtain ⟨rfl, rfl⟩ : m = m' ∧ alloc = alloc' := by
      simpa [addMultibindings] using h
    simp
  | cons p rest ih =>
    intro m alloc m' alloc' h
    obtain ⟨mb, vce⟩ := p
    simp only [addMultibindings] at h
    by_cases hvk : vce.kind = EntryKind.multibindingVectorCreator
    · rw [if_pos hvk] at h
      cases hmk : mb.kind <;> simp only [hmk] at h <;>
        first
          | exact absurd h (by simp)
          | · obtain ⟨h1, h2⟩ := ih _ _ _ _ h
              refine ⟨?_, ?_⟩
              · rw [h1, List.filterMap_cons]
                simp [hmk, FixedSizeAllocatorData.addType,
                  FixedSizeAllocatorData.addExternallyAllocatedType]
              · rw [h2, List.filterMap_cons]
                simp [hmk, FixedSizeAllocatorData.addType,
                  FixedSizeAllocatorData.addExternallyAllocatedType]
    · rw [if_neg hvk] at h
      exact absurd h (by simp)

/-- The sequence of entry occurrences processed by the work-stack loop of a
successful run: one entry per loop iteration (the popped top of the stack),
in processing order. -/
def helperTrace {σ : Type} (env : LazyEnv) (top : TypeId)
    (hc : σ → ComponentStorageEntry → σ)
    (hm : σ → ComponentStorageEntry → ComponentStorageEntry → σ) :
    Nat → List ComponentStorageEntry → ExpanderState → σ →
    Option (List ComponentStorageEntry)
  | _, [], _, _ => some []
  | 0, _ :: _, _, _ => none
  | fuel + 1, entry :: rest, core, s =>
    match helperStep env top hc hm entry rest core s with
    | .next stack core s =>
      (helperTrace env top hc hm fuel stack core s).map (fun tr => entry :: tr)
    | .fatal _ => none
    | .assertFail => none

/-- The `addType` calls a sequence of processed occurrences produces: one per
needs-allocation binding occurrence, in processing order. -/
def allocCallsNA (trace : List ComponentStorageEntry) : List TypeId :=
  trace.filterMap (fun e =>
    if e.kind = EntryKind.bindingForObjectToConstructThatNeedsAllocation
    then some e.type_id else none)

/-- The `addExternallyAllocatedType` calls a sequence of processed occurrences
produces: one per needs-no-allocation binding occurrence, in processing
order. -/
def allocCallsNNA (trace : List ComponentStorageEntry) : List TypeId :=
  trace.filterMap (fun e =>
    if e.kind = EntryKind.bindingForObjectToConstructThatNeedsNoAllocation
    then some e.type_id else none)

/-- Allocator effect of one continuing step: exactly one `addType` call if the
popped occurrence is a needs-allocation binding, exactly one
`addExternallyAllocatedType` call if it is a needs-no-allocation binding, and
no call otherwise. -/
theorem helperStep_alloc {σ : Type} (env : LazyEnv) (top : TypeId)
    (hc : σ → ComponentStorageEntry → σ)
    (hm : σ → ComponentStorageEntry → ComponentStorageEntry → σ)
    (entry : ComponentStorageEntry) (rest : List ComponentStorageEntry)
    (core : ExpanderState) (s : σ) (st : List ComponentStorageEntry)
    (c : ExpanderState) (s' : σ)
    (h : helperStep env top hc hm entry rest core s = .next st c s') :
    c.allocator.addTypeCalls = core.allocator.addTypeCalls
        ++ (if entry.kind = EntryKind.bindingForObjectToConstructThatNeedsAllocation
            then [entry.type_id] else [])
    ∧ c.allocator.addExternallyAllocatedTypeCalls
      = core.allocator.addExternallyAllocatedTypeCalls
        ++ (if entry.kind = EntryKind.bindingForObjectToConstructThatNeedsNoAllocation
            then [entry.type_id] else []) := by
  cases hK : entry.kind <;> simp only [helperStep, hK] at h
  case bindingForConstructedObject =>
    split at h
    · split_ifs at h
      obtain ⟨rfl, rfl, rfl⟩ : rest = st ∧ core = c ∧ s = s' := by
        simpa [StepOut.next.injEq] using h
      simp [hK]
    · obtain ⟨rfl, rfl, rfl⟩ : rest = st
          ∧ { core with
                binding_data_map := insertA core.binding_data_map entry.type_id entry } = c
          ∧ s = s' := by
        simpa [StepOut.next.injEq] using h
      simp [hK]
  case bindingForObjectToConstructThatNeedsAllocation =>
    split at h
    · split_ifs at h
      obtain ⟨rfl, rfl, rfl⟩ : rest = st
          ∧ { core with allocator := core.allocator.addType entry.type_id } = c
          ∧ s = s' := by
        simpa [StepOut.next.injEq] using h
      simp [hK, FixedSizeAllocatorData.addType]
    · obtain ⟨rfl, rfl, rfl⟩ : rest = st
          ∧ { core with
                allocator := core.allocator.addType entry.type_id
                binding_data_map := insertA core.binding_data_map entry.type_id entry } = c
          ∧ s = s' := by
        simpa [StepOut.next.injEq] using h
      simp [hK, FixedSizeAllocatorData.addType]
  case bindingForObjectToConstructThatNeedsNoAllocation =>
    split at h
    · split_ifs at h
      obtain ⟨rfl, rfl, rfl⟩ : rest = st
          ∧ { core with
                allocator := core.allocator.addExternallyAllocatedType entry.type_id } = c
          ∧ s = s' := by
        simpa [StepOut.next.injEq] using h
      simp [hK, FixedSizeAllocatorData.addExternallyAllocatedType]
    · obtain ⟨rfl, rfl, rfl⟩ : rest = st
          ∧ { core with
                allocator := core.allocator.addExternallyAllocatedType entry.type_id
                binding_data_map := insertA core.binding_data_map entry.type_id entry } = c
          ∧ s = s' := by
        simpa [StepOut.next.injEq] using h
      simp [hK, FixedSizeAllocatorData.addExternallyAllocatedType]
  case compressedBinding =>
    obtain ⟨rfl, rfl, rfl⟩ : rest = st ∧ core = c ∧ hc s entry = s' := by
      simpa [StepOut.next.injEq] using h
    simp [hK]
  case multibindingForConstructedObject =>
    cases rest with
    | nil => simp at h
    | cons vce rest' =>
      simp only [] at h
      split_ifs at h with hvk
      obtain ⟨rfl, rfl, rfl⟩ : rest' = st ∧ core = c ∧ hm s entry vce = s' := by
        simpa [StepOut.next.injEq] using h
      simp [hK]
  case multibindingForObjectToConstructThatNeedsAllocation =>
    cases rest with
    | nil => simp at h
    | cons vce rest' =>
      simp only [] at h
      split_ifs at h with hvk
      obtain ⟨rfl, rfl, rfl⟩ : rest' = st ∧ core = c ∧ hm s entry vce = s' := by
        simpa [StepOut.next.injEq] using h
      simp [hK]
  case multibindingForObjectToConstructThatNeedsNoAllocation =>
    cases rest with
    | nil => simp at h
    | cons vce rest' =>
      simp only [] at h
      split_ifs at h with hvk
      obtain ⟨rfl, rfl, rfl⟩ : rest' = st ∧ core = c ∧ hm s entry vce = s' := by
        simpa [StepOut.next.injEq] using h
      simp [hK]
  case multibindingVectorCreator =>
    cases rest with
    | nil => simp at h
    | cons mbe rest' =>
      simp only [] at h
      split_ifs at h with hvk
      obtain ⟨rfl, rfl, rfl⟩ : rest' = st ∧ core = c ∧ hm s mbe entry = s' := by
        simpa [StepOut.next.injEq] using h
      simp [hK]
  case componentWithoutArgsEndMarker =>
    obtain ⟨rfl, rfl, rfl⟩ : rest = st
        ∧ { core with
              in_progress_no_args := core.in_progress_no_args.filter
                (fun j => j ≠ entry.lazy_no_args_id)
              fully_expanded_no_args :=
                if entry.lazy_no_args_id ∈ core.fully_expanded_no_args
                then core.fully_expanded_no_args
                else entry.lazy_no_args_id :: core.fully_expanded_no_args } = c
        ∧ s = s' := by
      simpa [StepOut.next.injEq] using h
    simp [hK]
  case componentWithArgsEndMarker =>
    obtain ⟨rfl, rfl, rfl⟩ : rest = st
        ∧ { core with
              in_progress_with_args := core.in_progress_with_args.filter
                (fun j => j ≠ entry.lazy_with_args_id)
              fully_expanded_with_args :=
                if entry.lazy_with_args_id ∈ core.fully_expanded_with_args
                then core.fully_expanded_with_args
                else entry.lazy_with_args_id :: core.fully_expanded_with_args } = c
        ∧ s = s' := by
      simpa [StepOut.next.injEq] using h
    simp [hK]
  case lazyComponentWithArgs =>
    split_ifs at h with h1 h2
    · obtain ⟨rfl, rfl, rfl⟩ : rest = st ∧ core = c ∧ s = s' := by
        simpa [StepOut.next.injEq] using h
      simp [hK]
    · obtain ⟨rfl, rfl, rfl⟩ : (bodyWithArgs env entry.lazy_with_args_id).reverse
            ++ ({ entry with kind := EntryKind.componentWithArgsEndMarker } :: rest) = st
          ∧ { core with
                in_progress_with_args :=
                  entry.lazy_with_args_id :: core.in_progress_with_args } = c
          ∧ s = s' := by
        simpa [StepOut.next.injEq] using h
      simp [hK]
  case lazyComponentWithNoArgs =>
    split_ifs at h with h1 h2
    · obtain ⟨rfl, rfl, rfl⟩ : rest = st ∧ core = c ∧ s = s' := by
        simpa [StepOut.next.injEq] using h
      simp [hK]
    · obtain ⟨rfl, rfl, rfl⟩ : (bodyNoArgs env entry.lazy_no_args_id).reverse
            ++ ({ entry with kind := EntryKind.componentWithoutArgsEndMarker } :: rest) = st
          ∧ { core with
                in_progress_no_args :=
                  entry.lazy_no_args_id :: core.in_progress_no_args } = c
          ∧ s = s' := by
        simpa [StepOut.next.injEq] using h
      simp [hK]

/-- Allocator accounting of every successful work-stack run: the final call
lists extend the initial ones by exactly one `addType` per processed
needs-allocation occurrence and one `addExternallyAllocatedType` per processed
needs-no-allocation occurrence, in processing order. -/
theorem helperLoop_alloc {σ : Type} (env : LazyEnv) (top : TypeId)
    (hc : σ → ComponentStorageEntry → σ)
    (hm : σ → ComponentStorageEntry → ComponentStorageEntry → σ) :
    ∀ (fuel : Nat) (stack : List ComponentStorageEntry) (core : ExpanderState)
      (s : σ) (coreF : ExpanderState) (s' : σ),
    helperLoop env top hc hm fuel stack core s = .ok (coreF, s') →
    ∃ trace, helperTrace env top hc hm fuel stack core s = some trace
      ∧ coreF.allocator.addTypeCalls
        = core.allocator.addTypeCalls ++ allocCallsNA trace
      ∧ coreF.allocator.addExternallyAllocatedTypeCalls
        = core.allocator.addExternallyAllocatedTypeCalls ++ allocCallsNNA trace := by
  intro fuel
  induction fuel with
  | zero =>
    intro stack core s coreF s' h
    cases stack with
    | nil =>
      obtain ⟨rfl, rfl⟩ : core = coreF ∧ s = s' := by simpa [helperLoop] using h
      exact ⟨[], rfl, by simp [allocCallsNA], by simp [allocCallsNNA]⟩
    | cons e rest => simp [helperLoop] at h
  | succ fuel ih =>
    intro stack core s coreF s' h
    cases stack with
    | nil =>
      obtain ⟨rfl, rfl⟩ : core = coreF ∧ s = s' := by simpa [helperLoop] using h
      exact ⟨[], rfl, by simp [allocCallsNA], by simp [allocCallsNNA]⟩
    | cons entry rest =>
      rw [helperLoop] at h
      cases hstep : helperStep env top hc hm entry rest core s with
      | fatal d => rw [hstep] at h; exact absurd h (by simp)
      | assertFail => rw [hstep] at h; exact absurd h (by simp)
      | next st c s2 =>
        rw [hstep] at h
        obtain ⟨ha1, ha2⟩ := helperStep_alloc env top hc hm entry rest core s st c s2 hstep
        obtain ⟨tr, htr, h1, h2⟩ := ih st c s2 coreF s' h
        refine ⟨entry :: tr, ?_, ?_, ?_⟩
        · rw [helperTrace, hstep]
          simp [htr]
        · rw [h1, ha1]
          by_cases hk : entry.kind = EntryKind.bindingForObjectToConstructThatNeedsAllocation
          · simp [allocCallsNA, List.filterMap_cons, hk, List.append_assoc]
          · simp [allocCallsNA, List.filterMap_cons, hk, List.append_assoc]
        · rw [h2, ha2]
          by_cases hk : entry.kind = EntryKind.bindingForObjectToConstructThatNeedsNoAllocation
          · simp [allocCallsNNA, List.filterMap_cons, hk, List.append_assoc]
          · simp [allocCallsNNA, List.filterMap_cons, hk, List.append_assoc]

/-- C4 amended: for every successful Expander run — arbitrary environment,
input, allocator, handlers, handler state and fuel — the allocator's final
call lists extend the initial ones by exactly one `addType` call per processed
needs-allocation binding entry occurrence and exactly one
`addExternallyAllocatedType` call per processed needs-no-allocation binding
entry occurrence, in processing order, where the processed occurrences are the
entries popped by the work-stack loop (duplicate occurrences each count,
because the call happens before the duplicate check); `addMultibindings`
performs exactly one `addType` call per needs-allocation multibinding
contribution and one `addExternallyAllocatedType` call per needs-no-allocation
multibinding contribution, in processing order; in particular, the same
needs-allocation binding for a type T given twice yields exactly two
`addType(T)` calls and a single final binding. -/
theorem claim4_alloc_calls_amended :
    (∀ (σ : Type) (fuel : Nat) (env : LazyEnv) (l : List ComponentStorageEntry)
        (alloc : FixedSizeAllocatorData) (top : TypeId)
        (hc : σ → ComponentStorageEntry → σ)
        (hm : σ → ComponentStorageEntry → ComponentStorageEntry → σ)
        (s : σ) (coreF : ExpanderState) (s' : σ),
      normalizeBindingsHelper fuel env l alloc top hc hm s = .ok (coreF, s') →
      ∃ trace, helperTrace env top hc hm fuel l.reverse (initialState alloc) s = some trace
        ∧ coreF.allocator.addTypeCalls = alloc.addTypeCalls ++ allocCallsNA trace
        ∧ coreF.allocator.addExternallyAllocatedTypeCalls
          = alloc.addExternallyAllocatedTypeCalls ++ allocCallsNNA trace)
    ∧ (∀ (vec : List (ComponentStorageEntry × ComponentStorageEntry)) m alloc0 m' alloc0',
        addMultibindings vec m alloc0 = .ok (m', alloc0') →
        alloc0'.addTypeCalls = alloc0.addTypeCalls
            ++ vec.filterMap (fun p =>
                if p.1.kind = EntryKind.multibindingForObjectToConstructThatNeedsAllocation
                then some p.1.type_id else none)
          ∧ alloc0'.addExternallyAllocatedTypeCalls
            = alloc0.addExternallyAllocatedTypeCalls
              ++ vec.filterMap (fun p =>
                  if p.1.kind = EntryKind.multibindingForObjectToConstructThatNeedsNoAllocation
                  then some p.1.type_id else none))
    ∧ (∀ (env : LazyEnv) (top : TypeId) (alloc : FixedSizeAllocatorData)
        (t f : Nat) (deps : List TypeId),
      ∃ core, normalizeBindingsHelper 2 env [mkBindingNA t f deps, mkBindingNA t f deps]
            alloc top trivialHC trivialHM ()
          = .ok (core, ())
        ∧ core.binding_data_map = [(t, mkBindingNA t f deps)]
        ∧ core.allocator.addTypeCalls = alloc.addTypeCalls ++ [t, t]) := by
  refine ⟨?_, ?_, ?_⟩
  · intro σ fuel env l alloc top hc hm s coreF s' h
    unfold normalizeBindingsHelper at h
    exact helperLoop_alloc env top hc hm fuel l.reverse (initialState alloc) s coreF s' h
  · exact fun vec m alloc0 m' alloc0' h => addMultibindings_allocator vec m alloc0 m' alloc0' h
  · intro env top alloc t f deps
    refine ⟨{ binding_data_map := [(t, mkBindingNA t f deps)]
              allocator := { alloc with addTypeCalls := alloc.addTypeCalls ++ [t, t] }
              fully_expanded_no_args := []
              fully_expanded_with_args := []
              in_progress_no_args := []
              in_progress_with_args := [] }, ?_, rfl, rfl⟩
    simp [normalizeBindingsHelper, helperLoop, helperStep, initialState, mkBindingNA,
      lookupA, insertA, FixedSizeAllocatorData.addType,
      ComponentStorageEntry.binding_for_object_to_construct]

/-- Witness for the amended C4 at a concrete input: the duplicated
needs-allocation binding for type 1 yields the processed-occurrence trace of
both occurrences, two `addType(1)` calls, no `addExternallyAllocatedType`
call, and one final binding. -/
theorem claim4_witness :
    ∃ (trace : List ComponentStorageEntry) (core : ExpanderState),
      normalizeBindingsHelper 2 emptyEnv [mkBindingNA 1 100 [], mkBindingNA 1 100 []]
          emptyAlloc 0 trivialHC trivialHM () = .ok (core, ())
      ∧ helperTrace emptyEnv 0 trivialHC trivialHM 2
          [mkBindingNA 1 100 [], mkBindingNA 1 100 []].reverse
          (initialState emptyAlloc) () = some trace
      ∧ core.allocator.addTypeCalls = allocCallsNA trace
      ∧ core.allocator.addExternallyAllocatedTypeCalls = allocCallsNNA trace
      ∧ core.binding_data_map = [(1, mkBindingNA 1 100 [])]
      ∧ core.allocator.addTypeCalls = [1, 1] := by
  obtain ⟨hgen, -, hdup⟩ := claim4_alloc_calls_amended
  obtain ⟨core, hrun, hmap, hcalls⟩ := hdup emptyEnv 0 emptyAlloc 1 100 []
  obtain ⟨trace, htr, ha1, ha2⟩ :=
    hgen Unit 2 emptyEnv [mkBindingNA 1 100 [], mkBindingNA 1 100 []] emptyAlloc 0
      trivialHC trivialHM () core () hrun
  refine ⟨trace, core, hrun, htr, ?_, ?_, hmap, by simpa [emptyAlloc] using hcalls⟩
  · rw [ha1]
    simp [emptyAlloc]
  · rw [ha2]
    simp [emptyAlloc]

/-! ### Claim C7: `normalize` = `normalize_without_compression` + external compression -/

/-- Map the handler-state component of a step result. -/
def StepOut.mapS {s1 s2 : Type} (f : s1 → s2) : StepOut s1 → StepOut s2
  | .next st c s => .next st c (f s)
  | .fatal d => .fatal d
  | .assertFail => .assertFail

/-- Map the payload of a run outcome. -/
def NormalizeOutcome.mapO {α β : Type} (g : α → β) :
    NormalizeOutcome α → NormalizeOutcome β
  | .ok a => .ok (g a)
  | .fatal d => .fatal d
  | .assertFail => .assertFail
  | .outOfFuel => .outOfFuel

/-- The Expander's control flow, binding map, allocator and bookkeeping sets do
not depend on the handler state: a handler-state simulation `f` commuting with
the handlers carries one step to the other. -/
theorem helperStep_map {s1 s2 : Type} (env : LazyEnv) (top : TypeId)
    (hc1 : s1 → ComponentStorageEntry → s1)
    (hm1 : s1 → ComponentStorageEntry → ComponentStorageEntry → s1)
    (hc2 : s2 → ComponentStorageEntry → s2)
    (hm2 : s2 → ComponentStorageEntry → ComponentStorageEntry → s2)
    (f : s1 → s2)
    (hfc : ∀ s e, f (hc1 s e) = hc2 (f s) e)
    (hfm : ∀ s a b, f (hm1 s a b) = hm2 (f s) a b)
    (entry : ComponentStorageEntry) (rest : List ComponentStorageEntry)
    (core : ExpanderState) (s : s1) :
    helperStep env top hc2 hm2 entry rest core (f s)
      = (helperStep env top hc1 hm1 entry rest core s).mapS f := by
  cases hK : entry.kind <;> simp only [helperStep, hK]
  case bindingForConstructedObject =>
    cases lookupA core.binding_data_map entry.type_id <;> simp only [StepOut.mapS]
    split <;> simp [StepOut.mapS]
  case bindingForObjectToConstructThatNeedsAllocation =>
    cases lookupA core.binding_data_map entry.type_id <;> simp only [StepOut.mapS]
    split <;> simp [StepOut.mapS]
  case bindingForObjectToConstructThatNeedsNoAllocation =>
    cases lookupA core.binding_data_map entry.type_id <;> simp only [StepOut.mapS]
    split <;> simp [StepOut.mapS]
  case compressedBinding => simp [StepOut.mapS, hfc]
  case multibindingForConstructedObject =>
    cases rest with
    | nil => simp [StepOut.mapS]
    | cons vce rest' =>
      simp only []
      split_ifs <;> simp [StepOut.mapS, hfm]
  case multibindingForObjectToConstructThatNeedsAllocation =>
    cases rest with
    | nil => simp [StepOut.mapS]
    | cons vce rest' =>
      simp only []
      split_ifs <;> simp [StepOut.mapS, hfm]
  case multibindingForObjectToConstructThatNeedsNoAllocation =>
    cases rest with
    | nil => simp [StepOut.mapS]
    | cons vce rest' =>
      simp only []
      split_ifs <;> simp [StepOut.mapS, hfm]
  case multibindingVectorCreator =>
    cases rest with
    | nil => simp [StepOut.mapS]
    | cons mbe rest' =>
      simp only []
      split_ifs <;> simp [StepOut.mapS, hfm]
  case componentWithoutArgsEndMarker => simp [StepOut.mapS]
  case componentWithArgsEndMarker => simp [StepOut.mapS]
  case lazyComponentWithArgs => split_ifs <;> simp [StepOut.mapS]
  case lazyComponentWithNoArgs => split_ifs <;> simp [StepOut.mapS]

theorem helperLoop_map {s1 s2 : Type} (env : LazyEnv) (top : TypeId)
    (hc1 : s1 → ComponentStorageEntry → s1)
    (hm1 : s1 → ComponentStorageEntry → ComponentStorageEntry → s1)
    (hc2 : s2 → ComponentStorageEntry → s2)
    (hm2 : s2 → ComponentStorageEntry → ComponentStorageEntry → s2)
    (f : s1 → s2)
    (hfc : ∀ s e, f (hc1 s e) = hc2 (f s) e)
    (hfm : ∀ s a b, f (hm1 s a b) = hm2 (f s) a b) :
    ∀ (fuel : Nat) (stack : List ComponentStorageEntry) (core : ExpanderState) (s : s1),
    helperLoop env top hc2 hm2 fuel stack core (f s)
      = (helperLoop env top hc1 hm1 fuel stack core s).mapO (fun p => (p.1, f p.2)) := by
  intro fuel
  induction fuel with
  | zero =>
    intro stack core s
    cases stack <;> simp [helperLoop, NormalizeOutcome.mapO]
  | succ fuel ih =>
    intro stack core s
    cases stack with
    | nil => simp [helperLoop, NormalizeOutcome.mapO]
    | cons entry rest =>
      rw [helperLoop, helperLoop,
        helperStep_map env top hc1 hm1 hc2 hm2 f hfc hfm entry rest core s]
      cases helperStep env top hc1 hm1 entry rest core s with
      | next st c s' => simpa [StepOut.mapS] using ih st c s'
      | fatal d => simp [StepOut.mapS, NormalizeOutcome.mapO]
      | assertFail => simp [StepOut.mapS, NormalizeOutcome.mapO]

/-- C7: `normalizeBindings` is exactly `normalizeBindingsWithoutBindingCompression`
followed by an external `performBindingCompression` pass on the same binding
map, candidate map, multibindings vector and exposed types.  Both share the same
Expander run; when that run succeeds with state `core`, candidates `cmap` and
multibindings `mbv`, the without-compression entry point returns the binding-map
values, `mbv` and the allocator of `core` unchanged, and the full entry point
returns precisely the compression of those same outputs. -/
theorem claim7_refinement (fuel : Nat) (env : LazyEnv)
    (l : List ComponentStorageEntry) (alloc : FixedSizeAllocatorData)
    (top : TypeId) (exposed : List TypeId) (core : ExpanderState)
    (cmap : List (TypeId × BindingCompressionInfo))
    (mbv : List (ComponentStorageEntry × ComponentStorageEntry))
    (hrun : normalizeBindingsHelper fuel env l alloc top
        normalizeHandleCompressed normalizeHandleMultibinding ([], [])
      = .ok (core, (cmap, mbv))) :
    normalizeBindingsWithoutBindingCompression fuel env l alloc top
      = .ok { bindings_vector := core.binding_data_map.map Prod.snd
              multibindings_vector := mbv
              allocator := core.allocator }
    ∧ normalizeBindings fuel env l alloc top exposed
      = match performBindingCompression core.binding_data_map cmap mbv exposed with
        | .ok (bv, undo) =>
          .ok { bindings_vector := bv
                multibindings_vector := mbv
                bindingCompressionInfoMap := undo
                allocator := core.allocator }
        | .error _ => .assertFail := by
  constructor
  · have hsim := helperLoop_map env top
      normalizeHandleCompressed normalizeHandleMultibinding
      nwcHandleCompressed nwcHandleMultibinding
      Prod.snd (fun s e => rfl) (fun s a b => rfl)
      fuel l.reverse (initialState alloc) ([], [])
    unfold normalizeBindingsHelper at hrun
    rw [hrun] at hsim
    unfold normalizeBindingsWithoutBindingCompression normalizeBindingsHelper
    rw [show (([], []) : NormalizeHandlerState).2 = ([] :
        List (ComponentStorageEntry × ComponentStorageEntry)) from rfl] at hsim
    rw [hsim]
    rfl
  · unfold normalizeBindings
    rw [hrun]

/-- Input for the C7 witness: spec scenario S3 (I = 1 bound without allocation,
C = 2 bound with allocation, one compression candidate I → C). -/
def c7input : List ComponentStorageEntry :=
  [mkBindingNNA 1 10 [], mkBindingNA 2 20 [], mkCompressed 1 2 30]

/-- Witness for C7 at a concrete input: the without-compression run returns the
raw binding map and the full run returns its compression. -/
theorem claim7_witness :
    normalizeBindingsWithoutBindingCompression 5 emptyEnv c7input emptyAlloc 0
      = .ok { bindings_vector := [mkBindingNA 2 20 [], mkBindingNNA 1 10 []]
              multibindings_vector := []
              allocator := { addTypeCalls := [2], addExternallyAllocatedTypeCalls := [1] } }
    ∧ normalizeBindings 5 emptyEnv c7input emptyAlloc 0 []
      = .ok { bindings_vector := [mkBindingNA 1 30 []]
              multibindings_vector := []
              bindingCompressionInfoMap := [(2, ⟨1, ⟨10, []⟩, ⟨20, []⟩⟩)]
              allocator := { addTypeCalls := [2], addExternallyAllocatedTypeCalls := [1] } } := by
  have h := claim7_refinement 5 emptyEnv c7input emptyAlloc 0 [] _ _ _ rfl
  refine ⟨h.1, ?_⟩
  rw [h.2]
  rfl

/-! ### Claims C2 and C6: the compression rewrite and its undo -/

/-- Well-formedness of a binding map, as established by the Expander: every
entry is stored under its own `type_id`, and entries of the two to-construct
kinds carry an object-to-construct payload. -/
def WfBindingMap (m : List (TypeId × ComponentStorageEntry)) : Prop :=
  ∀ p ∈ m, p.2.type_id = p.1
    ∧ ((p.2.kind = EntryKind.bindingForObjectToConstructThatNeedsAllocation
        ∨ p.2.kind = EntryKind.bindingForObjectToConstructThatNeedsNoAllocation) →
      p.2.payload = EntryPayload.objectToConstruct p.2.binding_for_object_to_construct)

instance (m : List (TypeId × ComponentStorageEntry)) : Decidable (WfBindingMap m) := by
  unfold WfBindingMap; infer_instance

theorem lookupA_mem {β : Type} (m : List (Nat × β)) (k : Nat) (v : β)
    (h : lookupA m k = some v) : (k, v) ∈ m := by
  induction m with
  | nil => exact absurd h (by simp [lookupA])
  | cons p rest ih =>
    obtain ⟨k', v'⟩ := p
    by_cases hk : k' = k
    · subst hk
      simp [lookupA] at h
      simp [h]
    · simp [lookupA, hk] at h
      simp [ih h]

theorem mem_insertA {β : Type} (m : List (Nat × β)) (k : Nat) (v : β) (p : Nat × β)
    (h : p ∈ insertA m k v) : p = (k, v) ∨ p ∈ m := by
  induction m with
  | nil => simpa [insertA] using h
  | cons q rest ih =>
    obtain ⟨k', v'⟩ := q
    by_cases hk : k' = k
    · subst hk
      simp [insertA] at h
      rcases h with h | h
      · exact Or.inl (by simp [h])
      · exact Or.inr (by simp [h])
    · simp [insertA, hk] at h
      rcases h with h | h
      · exact Or.inr (by simp [h])
      · rcases ih h with h2 | h2
        · exact Or.inl h2
        · exact Or.inr (by simp [h2])

theorem mem_eraseA {β : Type} (m : List (Nat × β)) (k : Nat) (p : Nat × β)
    (h : p ∈ eraseA m k) : p ∈ m := by
  induction m with
  | nil => simp [eraseA] at h
  | cons q rest ih =>
    obtain ⟨k', v'⟩ := q
    by_cases hk : k' = k
    · simp [eraseA, hk] at h
      simp [ih h]
    · simp [eraseA, hk] at h
      rcases h with h | h
      · simp [h]
      · simp [ih h]

theorem insertA_append_of_not_mem {β : Type} (m : List (Nat × β)) (k : Nat) (v : β)
    (h : k ∉ m.map Prod.fst) : insertA m k v = m ++ [(k, v)] := by
  induction m with
  | nil => simp [insertA]
  | cons q rest ih =>
    obtain ⟨k', v'⟩ := q
    simp at h
    rw [show insertA ((k', v') :: rest) k v
      = if k' = k then (k', v) :: rest else (k', v') :: insertA rest k v from rfl]
    rw [if_neg (fun hh => h.1 hh.symm)]
    simp [ih (by simpa using h.2)]

/-- Inversion of one compression-rewrite iteration. -/
theorem compressRewriteStep_inv (m : List (TypeId × ComponentStorageEntry))
    (undo : List (TypeId × CompressedBindingUndoInfo)) (c_id : TypeId)
    (info : BindingCompressionInfo)
    (m1 : List (TypeId × ComponentStorageEntry))
    (undo1 : List (TypeId × CompressedBindingUndoInfo))
    (h : compressRewriteStep m undo c_id info = .ok (m1, undo1)) :
    ∃ ie ce, lookupA m info.i_type_id = some ie ∧ lookupA m c_id = some ce
      ∧ ie.kind = EntryKind.bindingForObjectToConstructThatNeedsNoAllocation
      ∧ (ce.kind = EntryKind.bindingForObjectToConstructThatNeedsNoAllocation
        ∨ ce.kind = EntryKind.bindingForObjectToConstructThatNeedsAllocation)
      ∧ m1 = eraseA (insertA m info.i_type_id
          { ie with kind := ce.kind
                    payload := EntryPayload.objectToConstruct
                      { create := info.create_i_with_compression
                        deps := ce.binding_for_object_to_construct.deps } }) c_id
      ∧ undo1 = insertA undo c_id
          ⟨info.i_type_id, ie.binding_for_object_to_construct,
            ce.binding_for_object_to_construct⟩ := by
  unfold compressRewriteStep at h
  split at h
  · rename_i ie ce hie hce
    split_ifs at h with hik hck
    all_goals first
      | (simp only [Except.ok.injEq, Prod.mk.injEq] at h
         exact ⟨ie, ce, hie, hce, hik, hck, h.1.symm, h.2.symm⟩)
      | exact absurd h (by simp)
  · exact absurd h (by simp)

/-- The rewrite step preserves binding-map well-formedness. -/
theorem compressRewriteStep_wf (m : List (TypeId × ComponentStorageEntry))
    (undo : List (TypeId × CompressedBindingUndoInfo)) (c_id : TypeId)
    (info : BindingCompressionInfo) (m1 : List (TypeId × ComponentStorageEntry))
    (undo1 : List (TypeId × CompressedBindingUndoInfo))
    (hwf : WfBindingMap m)
    (h : compressRewriteStep m undo c_id info = .ok (m1, undo1)) :
    WfBindingMap m1 := by
  obtain ⟨ie, ce, hie, hce, hik, hck, hm1, -⟩ := compressRewriteStep_inv m undo c_id info m1 undo1 h
  subst hm1
  intro p hp
  have hp2 := mem_eraseA _ _ _ hp
  rcases mem_insertA _ _ _ _ hp2 with rfl | hpm
  · have hi := hwf _ (lookupA_mem m info.i_type_id ie hie)
    exact ⟨hi.1, fun _ => rfl⟩
  · exact hwf _ hpm

theorem compressRewrite_frame (cands : List (TypeId × BindingCompressionInfo)) :
    ∀ (m : List (TypeId × ComponentStorageEntry)) undo m' undo',
    compressRewrite cands m undo = .ok (m', undo') →
    ∀ t, (∀ p ∈ cands, p.1 ≠ t) → (∀ p ∈ cands, p.2.i_type_id ≠ t) →
    lookupA m' t = lookupA m t := by
  induction cands with
  | nil =>
    intro m undo m' undo' h t _ _
    obtain ⟨rfl, rfl⟩ : m = m' ∧ undo = undo' := by simpa [compressRewrite] using h
    rfl
  | cons p rest ih =>
    intro m undo m' undo' h t hc hi
    obtain ⟨c_id, info⟩ := p
    rw [show compressRewrite ((c_id, info) :: rest) m undo
        = (match compressRewriteStep m undo c_id info with
           | .ok (m1, undo1) => compressRewrite rest m1 undo1
           | .error e => .error e) from rfl] at h
    cases hstep : compressRewriteStep m undo c_id info with
    | error e => rw [hstep] at h; exact absurd h (by simp)
    | ok r =>
      obtain ⟨m1, undo1⟩ := r
      rw [hstep] at h
      obtain ⟨ie, ce, hie, hce, hik, hck, hm1, -⟩ :=
        compressRewriteStep_inv m undo c_id info m1 undo1 hstep
      have h1 : lookupA m1 t = lookupA m t := by
        subst hm1
        rw [lookupA_eraseA, if_neg (hc (c_id, info) (by simp)),
          lookupA_insertA, if_neg (hi (c_id, info) (by simp))]
      rw [← h1]
      exact ih m1 undo1 m' undo' h t
        (fun q hq => hc q (by simp [hq])) (fun q hq => hi q (by simp [hq]))

theorem compressRewrite_undo_extends (cands : List (TypeId × BindingCompressionInfo)) :
    ∀ (m : List (TypeId × ComponentStorageEntry)) undo m' undo',
    (cands.map Prod.fst).Nodup →
    (∀ p ∈ cands, p.1 ∉ undo.map Prod.fst) →
    compressRewrite cands m undo = .ok (m', undo') →
    ∃ δ, undo' = undo ++ δ ∧ δ.map Prod.fst = cands.map Prod.fst := by
  induction cands with
  | nil =>
    intro m undo m' undo' _ _ h
    obtain ⟨rfl, rfl⟩ : m = m' ∧ undo = undo' := by simpa [compressRewrite] using h
    exact ⟨[], by simp⟩
  | cons p rest ih =>
    intro m undo m' undo' hnod hfresh h
    obtain ⟨c_id, info⟩ := p
    rw [show compressRewrite ((c_id, info) :: rest) m undo
        = (match compressRewriteStep m undo c_id info with
           | .ok (m1, undo1) => compressRewrite rest m1 undo1
           | .error e => .error e) from rfl] at h
    cases hstep : compressRewriteStep m undo c_id info with
    | error e => rw [hstep] at h; exact absurd h (by simp)
    | ok r =>
      obtain ⟨m1, undo1⟩ := r
      rw [hstep] at h
      obtain ⟨ie, ce, hie, hce, hik, hck, hm1, hu1⟩ :=
        compressRewriteStep_inv m undo c_id info m1 undo1 hstep
      have hcfresh : c_id ∉ undo.map Prod.fst := hfresh (c_id, info) (by simp)
      have hu1' : undo1 = undo ++ [(c_id,
          (⟨info.i_type_id, ie.binding_for_object_to_construct,
            ce.binding_for_object_to_construct⟩ : CompressedBindingUndoInfo))] := by
        rw [hu1, insertA_append_of_not_mem undo c_id _ hcfresh]
      have hnodrest : (rest.map Prod.fst).Nodup := (List.nodup_cons.mp hnod).2
      have hcnotin : c_id ∉ rest.map Prod.fst := (List.nodup_cons.mp hnod).1
      have hfreshrest : ∀ q ∈ rest, q.1 ∉ undo1.map Prod.fst := by
        intro q hq
        rw [hu1']
        simp only [List.map_append, List.mem_append]
        rintro (hin | hin)
        · exact hfresh q (by simp [hq]) hin
        · simp at hin
          exact hcnotin (hin ▸ (List.mem_map.mpr ⟨q, hq, rfl⟩))
      obtain ⟨δ, hδ, hkeys⟩ := ih m1 undo1 m' undo' hnodrest hfreshrest h
      refine ⟨(c_id, ⟨info.i_type_id, ie.binding_for_object_to_construct,
        ce.binding_for_object_to_construct⟩) :: δ, ?_, ?_⟩
      · rw [hδ, hu1']
        simp
      · simp [hkeys]

theorem applyCompressionUndo_congr (a b : List (TypeId × ComponentStorageEntry))
    (p : TypeId × CompressedBindingUndoInfo)
    (h : ∀ t, lookupA a t = lookupA b t) :
    ∀ t, lookupA (applyCompressionUndo a p) t = lookupA (applyCompressionUndo b p) t := by
  intro t
  unfold applyCompressionUndo
  rw [h p.2.i_type_id]
  cases lookupA b p.2.i_type_id with
  | none => exact h t
  | some ie =>
    simp only [lookupA_insertA]
    split_ifs <;> first | rfl | exact h t

/-- Applying the undo info recorded by one rewrite step to the step's result
restores the binding map exactly (extensionally), provided I ≠ C. -/
theorem applyCompressionUndo_inverts (m : List (TypeId × ComponentStorageEntry))
    (hwf : WfBindingMap m) (c_id : TypeId) (info : BindingCompressionInfo)
    (ie ce : ComponentStorageEntry)
    (hic : info.i_type_id ≠ c_id)
    (hie : lookupA m info.i_type_id = some ie)
    (hce : lookupA m c_id = some ce)
    (hik : ie.kind = EntryKind.bindingForObjectToConstructThatNeedsNoAllocation)
    (hck : ce.kind = EntryKind.bindingForObjectToConstructThatNeedsNoAllocation
      ∨ ce.kind = EntryKind.bindingForObjectToConstructThatNeedsAllocation) :
    ∀ t, lookupA (applyCompressionUndo
        (eraseA (insertA m info.i_type_id
          { ie with kind := ce.kind
                    payload := EntryPayload.objectToConstruct
                      { create := info.create_i_with_compression
                        deps := ce.binding_for_object_to_construct.deps } }) c_id)
        (c_id, ⟨info.i_type_id, ie.binding_for_object_to_construct,
          ce.binding_for_object_to_construct⟩)) t
      = lookupA m t := by
  intro t
  have hiw := hwf _ (lookupA_mem m info.i_type_id ie hie)
  have hcw := hwf _ (lookupA_mem m c_id ce hce)
  have hipay : ie.payload
      = EntryPayload.objectToConstruct ie.binding_for_object_to_construct :=
    hiw.2 (Or.inr hik)
  have hcpay : ce.payload
      = EntryPayload.objectToConstruct ce.binding_for_object_to_construct :=
    hcw.2 hck.symm
  have hlooki : lookupA
      (eraseA (insertA m info.i_type_id
        { ie with kind := ce.kind
                  payload := EntryPayload.objectToConstruct
                    { create := info.create_i_with_compression
                      deps := ce.binding_for_object_to_construct.deps } }) c_id)
      info.i_type_id
      = some { ie with kind := ce.kind
                       payload := EntryPayload.objectToConstruct
                         { create := info.create_i_with_compression
                           deps := ce.binding_for_object_to_construct.deps } } := by
    rw [lookupA_eraseA, if_neg (fun h => hic h.symm), lookupA_insertA, if_pos rfl]
  unfold applyCompressionUndo
  rw [hlooki]
  simp only [lookupA_insertA]
  by_cases hct : c_id = t
  · subst hct
    rw [if_pos rfl, hce]
    congr 1
    obtain ⟨cek, cet, cep⟩ := ce
    have hcet : cet = c_id := hcw.1
    subst hcet
    simp only [ComponentStorageEntry.mk.injEq]
    exact ⟨trivial, trivial, hcpay.symm⟩
  · rw [if_neg hct]
    by_cases hit : info.i_type_id = t
    · subst hit
      rw [if_pos rfl, hie]
      congr 1
      obtain ⟨iek, iet, iep⟩ := ie
      simp only at hik
      subst hik
      simp only [ComponentStorageEntry.mk.injEq]
      exact ⟨trivial, trivial, hipay.symm⟩
    · rw [if_neg hit, lookupA_eraseA, if_neg hct, lookupA_insertA, if_neg hit]

/-- Replaying the undo entries recorded by the compression rewrite, most recent
first, restores the input binding map extensionally. -/
theorem compressRewrite_roundtrip (cands : List (TypeId × BindingCompressionInfo)) :
    ∀ (m : List (TypeId × ComponentStorageEntry)) undoAcc m' undo',
    WfBindingMap m →
    (∀ p ∈ cands, p.2.i_type_id ≠ p.1) →
    (cands.map Prod.fst).Nodup →
    (∀ p ∈ cands, p.1 ∉ undoAcc.map Prod.fst) →
    compressRewrite cands m undoAcc = .ok (m', undo') →
    ∃ δ, undo' = undoAcc ++ δ
      ∧ ∀ t, lookupA (applyAllCompressionUndos δ m') t = lookupA m t := by
  induction cands with
  | nil =>
    intro m undoAcc m' undo' _ _ _ _ h
    obtain ⟨rfl, rfl⟩ : m = m' ∧ undoAcc = undo' := by simpa [compressRewrite] using h
    exact ⟨[], by simp, fun t => by simp [applyAllCompressionUndos]⟩
  | cons p rest ih =>
    intro m undoAcc m' undo' hwf hic hnod hfresh h
    obtain ⟨c_id, info⟩ := p
    rw [show compressRewrite ((c_id, info) :: rest) m undoAcc
        = (match compressRewriteStep m undoAcc c_id info with
           | .ok (m1, undo1) => compressRewrite rest m1 undo1
           | .error e => .error e) from rfl] at h
    cases hstep : compressRewriteStep m undoAcc c_id info with
    | error e => rw [hstep] at h; exact absurd h (by simp)
    | ok r =>
      obtain ⟨m1, undo1⟩ := r
      rw [hstep] at h
      obtain ⟨ie, ce, hie, hce, hik, hck, hm1, hu1⟩ :=
        compressRewriteStep_inv m undoAcc c_id info m1 undo1 hstep
      have hwf1 : WfBindingMap m1 :=
        compressRewriteStep_wf m undoAcc c_id info m1 undo1 hwf hstep
      have hcfresh : c_id ∉ undoAcc.map Prod.fst := hfresh (c_id, info) (by simp)
      have hu1' : undo1 = undoAcc ++ [(c_id,
          (⟨info.i_type_id, ie.binding_for_object_to_construct,
            ce.binding_for_object_to_construct⟩ : CompressedBindingUndoInfo))] := by
        rw [hu1, insertA_append_of_not_mem undoAcc c_id _ hcfresh]
      have hnodrest : (rest.map Prod.fst).Nodup := (List.nodup_cons.mp hnod).2
      have hcnotin : c_id ∉ rest.map Prod.fst := (List.nodup_cons.mp hnod).1
      have hfreshrest : ∀ q ∈ rest, q.1 ∉ undo1.map Prod.fst := by
        intro q hq
        rw [hu1']
        simp only [List.map_append, List.mem_append]
        rintro (hin | hin)
        · exact hfresh q (by simp [hq]) hin
        · simp at hin
          exact hcnotin (hin ▸ (List.mem_map.mpr ⟨q, hq, rfl⟩))
      obtain ⟨δ, hδ, hround⟩ := ih m1 undo1 m' undo' hwf1
        (fun q hq => hic q (by simp [hq])) hnodrest hfreshrest h
      refine ⟨(c_id, ⟨info.i_type_id, ie.binding_for_object_to_construct,
        ce.binding_for_object_to_construct⟩) :: δ, ?_, ?_⟩
      · rw [hδ, hu1']
        simp
      · intro t
        have hfold : applyAllCompressionUndos ((c_id,
            (⟨info.i_type_id, ie.binding_for_object_to_construct,
              ce.binding_for_object_to_construct⟩ : CompressedBindingUndoInfo)) :: δ) m'
            = applyCompressionUndo (applyAllCompressionUndos δ m')
              (c_id, ⟨info.i_type_id, ie.binding_for_object_to_construct,
                ce.binding_for_object_to_construct⟩) := rfl
        rw [hfold]
        have hcongr := applyCompressionUndo_congr (applyAllCompressionUndos δ m') m1
          (c_id, ⟨info.i_type_id, ie.binding_for_object_to_construct,
            ce.binding_for_object_to_construct⟩) hround
        rw [hcongr t]
        have hinv := applyCompressionUndo_inverts m hwf c_id info ie ce
          (hic (c_id, info) (by simp)) hie hce hik hck t
        rw [hm1] at *
        exact hinv

/-- C6: for every compression rewrite over candidates with pairwise-distinct C
keys, each with recorded I distinct from its C (the structural shape the
compile-time layer guarantees and the source comments assert), applying each
`CompressedBindingUndoInfo` in the undo map — most recent first — to the
post-compression binding map (re-inserting C with its recorded original payload
and the kind recovered from the compressed I-binding, and restoring I's
original kind `NeedsNoAllocation` and payload) reproduces the pre-compression
binding map exactly, as a key-to-entry mapping. -/
theorem claim6_compression_roundtrip
    (cands : List (TypeId × BindingCompressionInfo))
    (m m' : List (TypeId × ComponentStorageEntry))
    (undo : List (TypeId × CompressedBindingUndoInfo))
    (hwf : WfBindingMap m)
    (hic : ∀ p ∈ cands, p.2.i_type_id ≠ p.1)
    (hnod : (cands.map Prod.fst).Nodup)
    (hrun : compressRewrite cands m [] = .ok (m', undo)) :
    ∀ t, lookupA (applyAllCompressionUndos undo m') t = lookupA m t := by
  obtain ⟨δ, hδ, h⟩ :=
    compressRewrite_roundtrip cands m [] m' undo hwf hic hnod (by simp) hrun
  intro t
  rw [hδ]
  simpa using h t

/-- The binding map used by the C6 and C2 witnesses (the Expander's output for
spec scenario S3). -/
def c6map : List (TypeId × ComponentStorageEntry) :=
  [(2, mkBindingNA 2 20 []), (1, mkBindingNNA 1 10 [])]

/-- The surviving candidate map used by the C6 and C2 witnesses. -/
def c6cands : List (TypeId × BindingCompressionInfo) :=
  [(2, ⟨1, 30⟩)]

/-- Witness for C6 at the S3 input: undoing the single compression restores the
binding map. -/
theorem claim6_witness :
    WfBindingMap c6map
    ∧ (∃ m' undo, compressRewrite c6cands c6map [] = .ok (m', undo)
        ∧ lookupA (applyAllCompressionUndos undo m') 1 = lookupA c6map 1
        ∧ lookupA (applyAllCompressionUndos undo m') 2 = lookupA c6map 2) := by
  refine ⟨by decide, ?_⟩
  have h := claim6_compression_roundtrip c6cands c6map _ _
    (by decide) (by decide) (by decide) rfl
  exact ⟨_, _, rfl, h 1, h 2⟩

theorem lookupA_none_not_mem {β : Type} (m : List (Nat × β)) (k : Nat)
    (h : lookupA m k = none) : ∀ v, (k, v) ∉ m := by
  induction m with
  | nil => simp
  | cons p rest ih =>
    obtain ⟨k', v'⟩ := p
    by_cases hk : k' = k
    · subst hk
      simp [lookupA] at h
    · simp [lookupA, hk] at h
      intro v hv
      rcases List.mem_cons.mp hv with heq | hmem
      · exact hk (by injection heq with h1 h2; exact h1.symm)
      · exact ih h v hmem

theorem compressRewrite_wf (cands : List (TypeId × BindingCompressionInfo)) :
    ∀ (m : List (TypeId × ComponentStorageEntry)) undo m' undo',
    WfBindingMap m →
    compressRewrite cands m undo = .ok (m', undo') →
    WfBindingMap m' := by
  induction cands with
  | nil =>
    intro m undo m' undo' hwf h
    obtain ⟨rfl, rfl⟩ : m = m' ∧ undo = undo' := by simpa [compressRewrite] using h
    exact hwf
  | cons p rest ih =>
    intro m undo m' undo' hwf h
    obtain ⟨c_id, info⟩ := p
    rw [show compressRewrite ((c_id, info) :: rest) m undo
        = (match compressRewriteStep m undo c_id info with
           | .ok (m1, undo1) => compressRewrite rest m1 undo1
           | .error e => .error e) from rfl] at h
    cases hstep : compressRewriteStep m undo c_id info with
    | error e => rw [hstep] at h; exact absurd h (by simp)
    | ok r =>
      obtain ⟨m1, undo1⟩ := r
      rw [hstep] at h
      exact ih m1 undo1 m' undo'
        (compressRewriteStep_wf m undo c_id info m1 undo1 hwf hstep) h

/-- Per-candidate effect of the rewrite loop: with pairwise-distinct C keys,
recorded I's that are pairwise distinct and never candidate keys, every
candidate's I-binding is overwritten (kind from C, create from the candidate,
deps from C) and its C entry erased, with the undo info recorded. -/
theorem compressRewrite_processed (cands : List (TypeId × BindingCompressionInfo)) :
    ∀ (m : List (TypeId × ComponentStorageEntry)) undoAcc m' undo',
    WfBindingMap m →
    (cands.map Prod.fst).Nodup →
    (∀ p ∈ cands, ∀ q ∈ cands, p.2.i_type_id ≠ q.1) →
    cands.Pairwise (fun p q => p.2.i_type_id ≠ q.2.i_type_id) →
    (∀ p ∈ cands, p.1 ∉ undoAcc.map Prod.fst) →
    compressRewrite cands m undoAcc = .ok (m', undo') →
    ∀ p ∈ cands, ∃ ie ce,
      lookupA m p.2.i_type_id = some ie ∧ lookupA m p.1 = some ce
      ∧ ie.kind = EntryKind.bindingForObjectToConstructThatNeedsNoAllocation
      ∧ (ce.kind = EntryKind.bindingForObjectToConstructThatNeedsNoAllocation
        ∨ ce.kind = EntryKind.bindingForObjectToConstructThatNeedsAllocation)
      ∧ lookupA m' p.1 = none
      ∧ lookupA m' p.2.i_type_id = some
          { ie with kind := ce.kind
                    payload := EntryPayload.objectToConstruct
                      { create := p.2.create_i_with_compression
                        deps := ce.binding_for_object_to_construct.deps } }
      ∧ (p.1, (⟨p.2.i_type_id, ie.binding_for_object_to_construct,
          ce.binding_for_object_to_construct⟩ : CompressedBindingUndoInfo)) ∈ undo' := by
  induction cands with
  | nil => intro m undoAcc m' undo' _ _ _ _ _ _ p hp; simp at hp
  | cons hd rest ih =>
    intro m undoAcc m' undo' hwf hnod hinc hii hfresh h
    obtain ⟨c_id, info⟩ := hd
    rw [show compressRewrite ((c_id, info) :: rest) m undoAcc
        = (match compressRewriteStep m undoAcc c_id info with
           | .ok (m1, undo1) => compressRewrite rest m1 undo1
           | .error e => .error e) from rfl] at h
    cases hstep : compressRewriteStep m undoAcc c_id info with
    | error e => rw [hstep] at h; exact absurd h (by simp)
    | ok r =>
      obtain ⟨m1, undo1⟩ := r
      rw [hstep] at h
      obtain ⟨ie, ce, hie, hce, hik, hck, hm1, hu1⟩ :=
        compressRewriteStep_inv m undoAcc c_id info m1 undo1 hstep
      have hwf1 : WfBindingMap m1 :=
        compressRewriteStep_wf m undoAcc c_id info m1 undo1 hwf hstep
      have hicc : info.i_type_id ≠ c_id := hinc (c_id, info) (by simp) (c_id, info) (by simp)
      have hcfresh : c_id ∉ undoAcc.map Prod.fst := hfresh (c_id, info) (by simp)
      have hu1' : undo1 = undoAcc ++ [(c_id,
          (⟨info.i_type_id, ie.binding_for_object_to_construct,
            ce.binding_for_object_to_construct⟩ : CompressedBindingUndoInfo))] := by
        rw [hu1, insertA_append_of_not_mem undoAcc c_id _ hcfresh]
      have hnodrest : (rest.map Prod.fst).Nodup := (List.nodup_cons.mp hnod).2
      have hcnotin : c_id ∉ rest.map Prod.fst := (List.nodup_cons.mp hnod).1
      have hfreshrest : ∀ q ∈ rest, q.1 ∉ undo1.map Prod.fst := by
        intro q hq
        rw [hu1']
        simp only [List.map_append, List.mem_append]
        rintro (hin | hin)
        · exact hfresh q (by simp [hq]) hin
        · simp at hin
          exact hcnotin (hin ▸ (List.mem_map.mpr ⟨q, hq, rfl⟩))
      have hm1lookup : ∀ t, t ≠ c_id → t ≠ info.i_type_id →
          lookupA m1 t = lookupA m t := by
        intro t h1 h2
        rw [hm1, lookupA_eraseA, if_neg (fun hh => h1 hh.symm),
          lookupA_insertA, if_neg (fun hh => h2 hh.symm)]
      intro p hp
      rcases List.mem_cons.mp hp with rfl | hprest
      · -- the head candidate
        refine ⟨ie, ce, hie, hce, hik, hck, ?_, ?_, ?_⟩
        · have h1 : lookupA m1 c_id = none := by
            rw [hm1, lookupA_eraseA, if_pos rfl]
          rw [compressRewrite_frame rest m1 undo1 m' undo' h c_id
            (fun q hq hh => hcnotin (hh ▸ (List.mem_map.mpr ⟨q, hq, rfl⟩)))
            (fun q hq => hinc q (by simp [hq]) (c_id, info) (by simp))]
          exact h1
        · have h1 : lookupA m1 info.i_type_id = some
              { ie with kind := ce.kind
                        payload := EntryPayload.objectToConstruct
                          { create := info.create_i_with_compression
                            deps := ce.binding_for_object_to_construct.deps } } := by
            rw [hm1, lookupA_eraseA, if_neg (fun hh => hicc hh.symm),
              lookupA_insertA, if_pos rfl]
          rw [compressRewrite_frame rest m1 undo1 m' undo' h info.i_type_id
            (fun q hq hh => hinc (c_id, info) (by simp) q (by simp [hq]) hh.symm)
            (fun q hq hh =>
              (List.pairwise_cons.mp hii).1 q hq hh.symm)]
          exact h1
        · obtain ⟨δ, hδ, -⟩ :=
            compressRewrite_undo_extends rest m1 undo1 m' undo' hnodrest hfreshrest h
          rw [hδ, hu1']
          simp
      · -- a candidate in the tail
        have hres := ih m1 undo1 m' undo' hwf1 hnodrest
          (fun q hq q' hq' => hinc q (by simp [hq]) q' (by simp [hq']))
          (List.pairwise_cons.mp hii).2 hfreshrest h p hprest
        obtain ⟨ie2, ce2, hie2, hce2, hik2, hck2, hrest⟩ := hres
        have hq_i_ne_c : p.2.i_type_id ≠ c_id :=
          hinc p (by simp [hprest]) (c_id, info) (by simp)
        have hq_i_ne_i : p.2.i_type_id ≠ info.i_type_id :=
          fun hh => ((List.pairwise_cons.mp hii).1 p hprest) hh.symm
        have hq_c_ne_c : p.1 ≠ c_id :=
          fun hh => hcnotin (hh ▸ (List.mem_map.mpr ⟨p, hprest, rfl⟩))
        have hq_c_ne_i : p.1 ≠ info.i_type_id :=
          fun hh => (hinc (c_id, info) (by simp) p (by simp [hprest])) hh.symm
        refine ⟨ie2, ce2, ?_, ?_, hik2, hck2, hrest⟩
        · rw [← hm1lookup p.2.i_type_id hq_i_ne_c hq_i_ne_i]
          exact hie2
        · rw [← hm1lookup p.1 hq_c_ne_c hq_c_ne_i]
          exact hce2

/-- C2: for every candidate `(C → {I, create_I_with_compression})` handed to the
rewrite loop (the survivors of pruning), under the structural hypotheses the
compile-time layer guarantees (pairwise-distinct C keys; recorded I's pairwise
distinct and never candidate keys), the Compressor overwrites the I-binding in
place — its kind becomes C's original kind, its create function becomes
`create_I_with_compression`, its dependency list becomes C's dependency list —
removes C's entry from the binding map and records the undo info; consequently
in the output vector (the binding-map values emitted by
`performBindingCompression`) C does not appear and I appears with the allocating
kind inherited from C. -/
theorem claim2_compression_rewrite
    (cands : List (TypeId × BindingCompressionInfo))
    (m m' : List (TypeId × ComponentStorageEntry))
    (undo : List (TypeId × CompressedBindingUndoInfo))
    (hwf : WfBindingMap m)
    (hnod : (cands.map Prod.fst).Nodup)
    (hinc : ∀ p ∈ cands, ∀ q ∈ cands, p.2.i_type_id ≠ q.1)
    (hii : cands.Pairwise (fun p q => p.2.i_type_id ≠ q.2.i_type_id))
    (hrun : compressRewrite cands m [] = .ok (m', undo)) :
    ∀ p ∈ cands, ∃ ie ce,
      lookupA m p.2.i_type_id = some ie ∧ lookupA m p.1 = some ce
      ∧ ie.kind = EntryKind.bindingForObjectToConstructThatNeedsNoAllocation
      ∧ (ce.kind = EntryKind.bindingForObjectToConstructThatNeedsNoAllocation
        ∨ ce.kind = EntryKind.bindingForObjectToConstructThatNeedsAllocation)
      ∧ lookupA m' p.1 = none
      ∧ lookupA m' p.2.i_type_id = some
          { ie with kind := ce.kind
                    payload := EntryPayload.objectToConstruct
                      { create := p.2.create_i_with_compression
                        deps := ce.binding_for_object_to_construct.deps } }
      ∧ (p.1, (⟨p.2.i_type_id, ie.binding_for_object_to_construct,
          ce.binding_for_object_to_construct⟩ : CompressedBindingUndoInfo)) ∈ undo
      ∧ (∀ e ∈ m'.map Prod.snd, e.type_id ≠ p.1)
      ∧ (∃ e ∈ m'.map Prod.snd, e.type_id = p.2.i_type_id ∧ e.kind = ce.kind) := by
  intro p hp
  obtain ⟨ie, ce, h1, h2, h3, h4, h5, h6, h7⟩ :=
    compressRewrite_processed cands m [] m' undo hwf hnod hinc hii (by simp) hrun p hp
  have hwf' : WfBindingMap m' := compressRewrite_wf cands m [] m' undo hwf hrun
  refine ⟨ie, ce, h1, h2, h3, h4, h5, h6, h7, ?_, ?_⟩
  · intro e he hte
    obtain ⟨⟨k, e'⟩, hkm, rfl⟩ := List.mem_map.mp he
    have hk : k = p.1 := ((hwf' _ hkm).1).symm.trans hte
    exact lookupA_none_not_mem m' p.1 h5 e' (hk ▸ hkm)
  · have hmem := lookupA_mem m' p.2.i_type_id _ h6
    have hietid : ie.type_id = p.2.i_type_id :=
      (hwf _ (lookupA_mem m p.2.i_type_id ie h1)).1
    exact ⟨_, List.mem_map.mpr ⟨_, hmem, rfl⟩, hietid, rfl⟩

/-- Witness for C2 at the S3 input: C = 2 is removed, I = 1 is rewritten in
place with C's kind and dependency list and the candidate's create function,
and the undo info is recorded. -/
theorem claim2_witness :
    WfBindingMap c6map
    ∧ ∃ (m' : List (TypeId × ComponentStorageEntry))
        (undo : List (TypeId × CompressedBindingUndoInfo))
        (ie ce : ComponentStorageEntry),
        compressRewrite c6cands c6map [] = .ok (m', undo)
        ∧ lookupA m' 2 = none
        ∧ lookupA m' 1 = some
            { ie with kind := ce.kind
                      payload := EntryPayload.objectToConstruct
                        { create := 30
                          deps := ce.binding_for_object_to_construct.deps } }
        ∧ (2, (⟨1, ie.binding_for_object_to_construct,
            ce.binding_for_object_to_construct⟩ : CompressedBindingUndoInfo)) ∈ undo := by
  refine ⟨by decide, ?_⟩
  obtain ⟨ie, ce, h1, h2, h3, h4, h5, h6, h7, h8, h9⟩ :=
    claim2_compression_rewrite c6cands c6map _ _
      (by decide) (by decide) (by decide) (by decide) rfl (2, ⟨1, 30⟩) (by decide)
  exact ⟨_, _, ie, ce, rfl, h5, h6, h7⟩

/-! ### Claim C8: termination of the work-stack loop and empty in-progress sets -/

/-- Weight of a stack entry: lazy components weigh 2 (they are rewritten to an
end marker before their body is pushed), everything else 1. -/
def entryWeight (e : ComponentStorageEntry) : Nat :=
  match e.kind with
  | .lazyComponentWithArgs => 2
  | .lazyComponentWithNoArgs => 2
  | _ => 1

/-- Total weight of a stack. -/
def stackWeight (l : List ComponentStorageEntry) : Nat :=
  (l.map entryWeight).sum

/-- Weight of the environment bodies whose component has not yet been visited
(is neither in progress nor fully expanded). -/
def unvisitedWeight (inprog fully : List Nat)
    (bodies : List (Nat × List ComponentStorageEntry)) : Nat :=
  (bodies.map (fun p => if p.1 ∈ inprog ∨ p.1 ∈ fully then 0
    else stackWeight p.2 + 3)).sum

/-- Termination measure of the work-stack loop. -/
def loopMeasure (env : LazyEnv) (stack : List ComponentStorageEntry)
    (core : ExpanderState) : Nat :=
  stackWeight stack
    + unvisitedWeight core.in_progress_no_args core.fully_expanded_no_args
        env.no_args_bodies
    + unvisitedWeight core.in_progress_with_args core.fully_expanded_with_args
        env.with_args_bodies

theorem entryWeight_pos (e : ComponentStorageEntry) : 1 ≤ entryWeight e := by
  unfold entryWeight
  split <;> omega

theorem stackWeight_cons (e : ComponentStorageEntry) (l : List ComponentStorageEntry) :
    stackWeight (e :: l) = entryWeight e + stackWeight l := by
  simp [stackWeight]

theorem stackWeight_append (a b : List ComponentStorageEntry) :
    stackWeight (a ++ b) = stackWeight a + stackWeight b := by
  simp [stackWeight]

theorem stackWeight_reverse (a : List ComponentStorageEntry) :
    stackWeight a.reverse = stackWeight a := by
  unfold stackWeight
  rw [List.map_reverse, List.sum_reverse]

theorem unvisitedWeight_mono (inprog fully inprog' fully' : List Nat)
    (bodies : List (Nat × List ComponentStorageEntry))
    (h : ∀ j, (j ∈ inprog ∨ j ∈ fully) → (j ∈ inprog' ∨ j ∈ fully')) :
    unvisitedWeight inprog' fully' bodies ≤ unvisitedWeight inprog fully bodies := by
  unfold unvisitedWeight
  apply List.sum_le_sum
  intro p hp
  by_cases hc : p.1 ∈ inprog ∨ p.1 ∈ fully
  · simp [hc, h p.1 hc]
  · by_cases hc' : p.1 ∈ inprog' ∨ p.1 ∈ fully' <;> simp [hc, hc'] <;> omega

theorem unvisitedWeight_expand (id : Nat) (inprog fully : List Nat)
    (bodies : List (Nat × List ComponentStorageEntry))
    (body : List ComponentStorageEntry)
    (hni : id ∉ inprog) (hnf : id ∉ fully)
    (hlook : lookupA bodies id = some body) :
    unvisitedWeight (id :: inprog) fully bodies + stackWeight body + 3
      ≤ unvisitedWeight inprog fully bodies := by
  induction bodies with
  | nil => simp [lookupA] at hlook
  | cons p rest ih =>
    obtain ⟨k, b⟩ := p
    by_cases hk : k = id
    · subst hk
      simp [lookupA] at hlook
      rw [← hlook]
      have hterm : unvisitedWeight (k :: inprog) fully ((k, b) :: rest)
          = 0 + unvisitedWeight (k :: inprog) fully rest := by
        unfold unvisitedWeight
        simp [List.mem_cons]
      have hterm2 : unvisitedWeight inprog fully ((k, b) :: rest)
          = (stackWeight b + 3) + unvisitedWeight inprog fully rest := by
        unfold unvisitedWeight
        simp [hni, hnf]
      rw [hterm, hterm2]
      have := unvisitedWeight_mono inprog fully (k :: inprog) fully rest
        (fun j hj => by rcases hj with hj | hj; exact Or.inl (by simp [hj]); exact Or.inr hj)
      omega
    · simp [lookupA, hk] at hlook
      have hhead : ∀ ip fu, unvisitedWeight ip fu ((k, b) :: rest)
          = (if k ∈ ip ∨ k ∈ fu then 0 else stackWeight b + 3)
            + unvisitedWeight ip fu rest := by
        intro ip fu
        unfold unvisitedWeight
        simp
      rw [hhead, hhead]
      have hkm : (k ∈ id :: inprog ∨ k ∈ fully) ↔ (k ∈ inprog ∨ k ∈ fully) := by
        simp [List.mem_cons, hk]
      have hrec := ih hlook
      by_cases hc : k ∈ inprog ∨ k ∈ fully
      · rw [if_pos (hkm.mpr hc), if_pos hc]
        omega
      · rw [if_neg (fun hh => hc (hkm.mp hh)), if_neg hc]
        omega

/-- Every continuing step strictly decreases the termination measure. -/
theorem helperStep_measure {σ : Type} (env : LazyEnv) (top : TypeId)
    (hc : σ → ComponentStorageEntry → σ)
    (hm : σ → ComponentStorageEntry → ComponentStorageEntry → σ)
    (entry : ComponentStorageEntry) (rest : List ComponentStorageEntry)
    (core : ExpanderState) (s : σ) (st : List ComponentStorageEntry)
    (c : ExpanderState) (s' : σ)
    (h : helperStep env top hc hm entry rest core s = .next st c s') :
    loopMeasure env st c < loopMeasure env (entry :: rest) core := by
  have hw := entryWeight_pos entry
  cases hK : entry.kind <;> simp only [helperStep, hK] at h
  case bindingForConstructedObject =>
    split at h
    · split_ifs at h
      obtain ⟨rfl, rfl, rfl⟩ : rest = st ∧ core = c ∧ s = s' := by
        simpa [StepOut.next.injEq] using h
      simp only [loopMeasure, stackWeight_cons]
      omega
    · obtain ⟨rfl, rfl, rfl⟩ : rest = st
          ∧ { core with binding_data_map := insertA core.binding_data_map entry.type_id entry } = c
          ∧ s = s' := by
        simpa [StepOut.next.injEq] using h
      simp only [loopMeasure, stackWeight_cons]
      omega
  case bindingForObjectToConstructThatNeedsAllocation =>
    split at h
    · split_ifs at h
      obtain ⟨rfl, rfl, rfl⟩ : rest = st
          ∧ { core with allocator := core.allocator.addType entry.type_id } = c
          ∧ s = s' := by
        simpa [StepOut.next.injEq] using h
      simp only [loopMeasure, stackWeight_cons]
      omega
    · rename_i hnone
      obtain ⟨rfl, rfl, rfl⟩ : rest = st
          ∧ { core with
                allocator := core.allocator.addType entry.type_id
                binding_data_map := insertA core.binding_data_map entry.type_id entry } = c
          ∧ s = s' := by
        simpa [StepOut.next.injEq] using h
      simp only [loopMeasure, stackWeight_cons]
      omega
  case bindingForObjectToConstructThatNeedsNoAllocation =>
    split at h
    · split_ifs at h
      obtain ⟨rfl, rfl, rfl⟩ : rest = st
          ∧ { core with
                allocator := core.allocator.addExternallyAllocatedType entry.type_id } = c
          ∧ s = s' := by
        simpa [StepOut.next.injEq] using h
      simp only [loopMeasure, stackWeight_cons]
      omega
    · obtain ⟨rfl, rfl, rfl⟩ : rest = st
          ∧ { core with
                allocator := core.allocator.addExternallyAllocatedType entry.type_id
                binding_data_map := insertA core.binding_data_map entry.type_id entry } = c
          ∧ s = s' := by
        simpa [StepOut.next.injEq] using h
      simp only [loopMeasure, stackWeight_cons]
      omega
  case compressedBinding =>
    obtain ⟨rfl, rfl, rfl⟩ : rest = st ∧ core = c ∧ hc s entry = s' := by
      simpa [StepOut.next.injEq] using h
    simp only [loopMeasure, stackWeight_cons]
    omega
  case multibindingForConstructedObject =>
    cases rest with
    | nil => simp at h
    | cons vce rest' =>
      simp only [] at h
      split_ifs at h
      obtain ⟨rfl, rfl, rfl⟩ : rest' = st ∧ core = c ∧ hm s entry vce = s' := by
        simpa [StepOut.next.injEq] using h
      have := entryWeight_pos vce
      simp only [loopMeasure, stackWeight_cons]
      omega
  case multibindingForObjectToConstructThatNeedsAllocation =>
    cases rest with
    | nil => simp at h
    | cons vce rest' =>
      simp only [] at h
      split_ifs at h
      obtain ⟨rfl, rfl, rfl⟩ : rest' = st ∧ core = c ∧ hm s entry vce = s' := by
        simpa [StepOut.next.injEq] using h
      have := entryWeight_pos vce
      simp only [loopMeasure, stackWeight_cons]
      omega
  case multibindingForObjectToConstructThatNeedsNoAllocation =>
    cases rest with
    | nil => simp at h
    | cons vce rest' =>
      simp only [] at h
      split_ifs at h
      obtain ⟨rfl, rfl, rfl⟩ : rest' = st ∧ core = c ∧ hm s entry vce = s' := by
        simpa [StepOut.next.injEq] using h
      have := entryWeight_pos vce
      simp only [loopMeasure, stackWeight_cons]
      omega
  case multibindingVectorCreator =>
    cases rest with
    | nil => simp at h
    | cons mbe rest' =>
      simp only [] at h
      split_ifs at h
      obtain ⟨rfl, rfl, rfl⟩ : rest' = st ∧ core = c ∧ hm s mbe entry = s' := by
        simpa [StepOut.next.injEq] using h
      have := entryWeight_pos mbe
      simp only [loopMeasure, stackWeight_cons]
      omega
  case componentWithoutArgsEndMarker =>
    obtain ⟨rfl, rfl, rfl⟩ : rest = st
        ∧ { core with
              in_progress_no_args := core.in_progress_no_args.filter
                (fun j => j ≠ entry.lazy_no_args_id)
              fully_expanded_no_args :=
                if entry.lazy_no_args_id ∈ core.fully_expanded_no_args
                then core.fully_expanded_no_args
                else entry.lazy_no_args_id :: core.fully_expanded_no_args } = c
        ∧ s = s' := by
      simpa [StepOut.next.injEq] using h
    have hmono := unvisitedWeight_mono core.in_progress_no_args
      core.fully_expanded_no_args
      (core.in_progress_no_args.filter (fun j => j ≠ entry.lazy_no_args_id))
      (if entry.lazy_no_args_id ∈ core.fully_expanded_no_args
        then core.fully_expanded_no_args
        else entry.lazy_no_args_id :: core.fully_expanded_no_args)
      env.no_args_bodies ?_
    · simp only [loopMeasure, stackWeight_cons]
      omega
    · intro j hj
      rcases hj with hj | hj
      · by_cases hje : j = entry.lazy_no_args_id
        · subst hje
          right
          split_ifs with hf
          · exact hf
          · exact List.mem_cons_self _ _
        · left
          simp [List.mem_filter, hj, hje]
      · right
        split_ifs with hf
        · exact hj
        · exact List.mem_cons_of_mem _ hj
  case componentWithArgsEndMarker =>
    obtain ⟨rfl, rfl, rfl⟩ : rest = st
        ∧ { core with
              in_progress_with_args := core.in_progress_with_args.filter
                (fun j => j ≠ entry.lazy_with_args_id)
              fully_expanded_with_args :=
                if entry.lazy_with_args_id ∈ core.fully_expanded_with_args
                then core.fully_expanded_with_args
                else entry.lazy_with_args_id :: core.fully_expanded_with_args } = c
        ∧ s = s' := by
      simpa [StepOut.next.injEq] using h
    have hmono := unvisitedWeight_mono core.in_progress_with_args
      core.fully_expanded_with_args
      (core.in_progress_with_args.filter (fun j => j ≠ entry.lazy_with_args_id))
      (if entry.lazy_with_args_id ∈ core.fully_expanded_with_args
        then core.fully_expanded_with_args
        else entry.lazy_with_args_id :: core.fully_expanded_with_args)
      env.with_args_bodies ?_
    · simp only [loopMeasure, stackWeight_cons]
      omega
    · intro j hj
      rcases hj with hj | hj
      · by_cases hje : j = entry.lazy_with_args_id
        · subst hje
          right
          split_ifs with hf
          · exact hf
          · exact List.mem_cons_self _ _
        · left
          simp [List.mem_filter, hj, hje]
      · right
        split_ifs with hf
        · exact hj
        · exact List.mem_cons_of_mem _ hj
  case lazyComponentWithArgs =>
    split_ifs at h with hfully hprog
    · obtain ⟨rfl, rfl, rfl⟩ : rest = st ∧ core = c ∧ s = s' := by
        simpa [StepOut.next.injEq] using h
      simp only [loopMeasure, stackWeight_cons]
      omega
    · obtain ⟨rfl, rfl, rfl⟩ :
          (bodyWithArgs env entry.lazy_with_args_id).reverse
            ++ ({ entry with kind := EntryKind.componentWithArgsEndMarker } :: rest) = st
          ∧ { core with
                in_progress_with_args :=
                  entry.lazy_with_args_id :: core.in_progress_with_args } = c
          ∧ s = s' := by
        simpa [StepOut.next.injEq] using h
      have hmarker : entryWeight
          { entry with kind := EntryKind.componentWithArgsEndMarker } = 1 := rfl
      have hentry : entryWeight entry = 2 := by simp [entryWeight, hK]
      cases hlook : lookupA env.with_args_bodies entry.lazy_with_args_id with
      | none =>
        have hbody : bodyWithArgs env entry.lazy_with_args_id = [] := by
          simp [bodyWithArgs, hlook]
        have hmono := unvisitedWeight_mono core.in_progress_with_args
          core.fully_expanded_with_args
          (entry.lazy_with_args_id :: core.in_progress_with_args)
          core.fully_expanded_with_args env.with_args_bodies
          (fun j hj => by
            rcases hj with hj | hj
            · exact Or.inl (List.mem_cons_of_mem _ hj)
            · exact Or.inr hj)
        simp only [loopMeasure, stackWeight_cons, stackWeight_append, hbody,
          stackWeight_reverse, hmarker, hentry]
        simp only [stackWeight, List.map_nil, List.sum_nil]
        omega
      | some body =>
        have hbody : bodyWithArgs env entry.lazy_with_args_id = body := by
          simp [bodyWithArgs, hlook]
        have hexp := unvisitedWeight_expand entry.lazy_with_args_id
          core.in_progress_with_args core.fully_expanded_with_args
          env.with_args_bodies body hprog hfully hlook
        simp only [loopMeasure, stackWeight_cons, stackWeight_append, hbody,
          stackWeight_reverse, hmarker, hentry]
        omega
  case lazyComponentWithNoArgs =>
    split_ifs at h with hfully hprog
    · obtain ⟨rfl, rfl, rfl⟩ : rest = st ∧ core = c ∧ s = s' := by
        simpa [StepOut.next.injEq] using h
      simp only [loopMeasure, stackWeight_cons]
      omega
    · obtain ⟨rfl, rfl, rfl⟩ :
          (bodyNoArgs env entry.lazy_no_args_id).reverse
            ++ ({ entry with kind := EntryKind.componentWithoutArgsEndMarker } :: rest) = st
          ∧ { core with
                in_progress_no_args :=
                  entry.lazy_no_args_id :: core.in_progress_no_args } = c
          ∧ s = s' := by
        simpa [StepOut.next.injEq] using h
      have hmarker : entryWeight
          { entry with kind := EntryKind.componentWithoutArgsEndMarker } = 1 := rfl
      have hentry : entryWeight entry = 2 := by simp [entryWeight, hK]
      cases hlook : lookupA env.no_args_bodies entry.lazy_no_args_id with
      | none =>
        have hbody : bodyNoArgs env entry.lazy_no_args_id = [] := by
          simp [bodyNoArgs, hlook]
        have hmono := unvisitedWeight_mono core.in_progress_no_args
          core.fully_expanded_no_args
          (entry.lazy_no_args_id :: core.in_progress_no_args)
          core.fully_expanded_no_args env.no_args_bodies
          (fun j hj => by
            rcases hj with hj | hj
            · exact Or.inl (List.mem_cons_of_mem _ hj)
            · exact Or.inr hj)
        simp only [loopMeasure, stackWeight_cons, stackWeight_append, hbody,
          stackWeight_reverse, hmarker, hentry]
        simp only [stackWeight, List.map_nil, List.sum_nil]
        omega
      | some body =>
        have hbody : bodyNoArgs env entry.lazy_no_args_id = body := by
          simp [bodyNoArgs, hlook]
        have hexp := unvisitedWeight_expand entry.lazy_no_args_id
          core.in_progress_no_args core.fully_expanded_no_args
          env.no_args_bodies body hprog hfully hlook
        simp only [loopMeasure, stackWeight_cons, stackWeight_append, hbody,
          stackWeight_reverse, hmarker, hentry]
        omega

/-- With fuel at least the measure, the loop never runs out of fuel. -/
theorem helperLoop_no_fuel_exhaustion {σ : Type} (env : LazyEnv) (top : TypeId)
    (hc : σ → ComponentStorageEntry → σ)
    (hm : σ → ComponentStorageEntry → ComponentStorageEntry → σ) :
    ∀ (fuel : Nat) (stack : List ComponentStorageEntry) (core : ExpanderState) (s : σ),
    loopMeasure env stack core ≤ fuel →
    helperLoop env top hc hm fuel stack core s ≠ .outOfFuel := by
  intro fuel
  induction fuel with
  | zero =>
    intro stack core s hmeas
    cases stack with
    | nil => simp [helperLoop]
    | cons entry rest =>
      exfalso
      have h1 := entryWeight_pos entry
      have : 1 ≤ loopMeasure env (entry :: rest) core := by
        simp only [loopMeasure, stackWeight_cons]
        omega
      omega
  | succ fuel ih =>
    intro stack core s hmeas
    cases stack with
    | nil => simp [helperLoop]
    | cons entry rest =>
      rw [helperLoop]
      cases hstep : helperStep env top hc hm entry rest core s with
      | fatal d => simp
      | assertFail => simp
      | next st c s' =>
        have hdec := helperStep_measure env top hc hm entry rest core s st c s' hstep
        exact ih st c s' (by omega)

/-- The identities of the no-args end markers currently on the stack. -/
def markerIdsNo (stack : List ComponentStorageEntry) : List Nat :=
  stack.filterMap (fun e =>
    if e.kind = EntryKind.componentWithoutArgsEndMarker
    then some e.lazy_no_args_id else none)

/-- The identities of the with-args end markers currently on the stack. -/
def markerIdsWa (stack : List ComponentStorageEntry) : List Nat :=
  stack.filterMap (fun e =>
    if e.kind = EntryKind.componentWithArgsEndMarker
    then some e.lazy_with_args_id else none)

/-- Loop invariant: each in-progress set holds exactly the identities of the
end markers of its variant on the stack, without duplicates. -/
def MarkerInv (stack : List ComponentStorageEntry) (core : ExpanderState) : Prop :=
  (∀ j, j ∈ core.in_progress_no_args ↔ j ∈ markerIdsNo stack)
    ∧ (markerIdsNo stack).Nodup
    ∧ (∀ j, j ∈ core.in_progress_with_args ↔ j ∈ markerIdsWa stack)
    ∧ (markerIdsWa stack).Nodup

/-- A list of entries containing no end markers. -/
def NoMarkers (l : List ComponentStorageEntry) : Prop :=
  ∀ e ∈ l, e.kind ≠ EntryKind.componentWithoutArgsEndMarker
    ∧ e.kind ≠ EntryKind.componentWithArgsEndMarker

instance (l : List ComponentStorageEntry) : Decidable (NoMarkers l) := by
  unfold NoMarkers; infer_instance

/-- A well-formed lazy-component environment: no body contains end markers
(end markers are internal to the Expander; `addBindings` never pushes them). -/
def WfLazyEnv (env : LazyEnv) : Prop :=
  (∀ p ∈ env.no_args_bodies, NoMarkers p.2)
    ∧ (∀ p ∈ env.with_args_bodies, NoMarkers p.2)

instance (env : LazyEnv) : Decidable (WfLazyEnv env) := by
  unfold WfLazyEnv; infer_instance

theorem markerIdsNo_no_markers (l : List ComponentStorageEntry) (h : NoMarkers l) :
    markerIdsNo l = [] := by
  induction l with
  | nil => rfl
  | cons e rest ih =>
    have he := h e (by simp)
    have hrest : NoMarkers rest := fun x hx => h x (by simp [hx])
    simp [markerIdsNo, List.filterMap_cons, he.1, ih hrest]
    exact fun a ha => (hrest a ha).1

theorem markerIdsWa_no_markers (l : List ComponentStorageEntry) (h : NoMarkers l) :
    markerIdsWa l = [] := by
  induction l with
  | nil => rfl
  | cons e rest ih =>
    have he := h e (by simp)
    have hrest : NoMarkers rest := fun x hx => h x (by simp [hx])
    simp [markerIdsWa, List.filterMap_cons, he.2, ih hrest]
    exact fun a ha => (hrest a ha).2

theorem markerIdsNo_append (a b : List ComponentStorageEntry) :
    markerIdsNo (a ++ b) = markerIdsNo a ++ markerIdsNo b := by
  simp [markerIdsNo, List.filterMap_append]

theorem markerIdsWa_append (a b : List ComponentStorageEntry) :
    markerIdsWa (a ++ b) = markerIdsWa a ++ markerIdsWa b := by
  simp [markerIdsWa, List.filterMap_append]

theorem markerIdsNo_cons (e : ComponentStorageEntry) (rest : List ComponentStorageEntry) :
    markerIdsNo (e :: rest)
      = if e.kind = EntryKind.componentWithoutArgsEndMarker
        then e.lazy_no_args_id :: markerIdsNo rest else markerIdsNo rest := by
  simp only [markerIdsNo, List.filterMap_cons]
  split_ifs with hk <;> simp [hk]

theorem markerIdsWa_cons (e : ComponentStorageEntry) (rest : List ComponentStorageEntry) :
    markerIdsWa (e :: rest)
      = if e.kind = EntryKind.componentWithArgsEndMarker
        then e.lazy_with_args_id :: markerIdsWa rest else markerIdsWa rest := by
  simp only [markerIdsWa, List.filterMap_cons]
  split_ifs with hk <;> simp [hk]

theorem MarkerInv_pop (e : ComponentStorageEntry) (rest : List ComponentStorageEntry)
    (core : ExpanderState) (h : MarkerInv (e :: rest) core)
    (h1 : e.kind ≠ EntryKind.componentWithoutArgsEndMarker)
    (h2 : e.kind ≠ EntryKind.componentWithArgsEndMarker) : MarkerInv rest core := by
  obtain ⟨hno, hnod, hwa, hwanod⟩ := h
  rw [markerIdsNo_cons, if_neg h1] at hno hnod
  rw [markerIdsWa_cons, if_neg h2] at hwa hwanod
  exact ⟨hno, hnod, hwa, hwanod⟩

theorem bodyNoArgs_no_markers (env : LazyEnv) (henv : WfLazyEnv env) (id : Nat) :
    NoMarkers (bodyNoArgs env id) := by
  unfold bodyNoArgs
  cases hlook : lookupA env.no_args_bodies id with
  | none => intro e he; simp at he
  | some body =>
    simp only [Option.getD_some]
    exact henv.1 _ (lookupA_mem _ _ _ hlook)

theorem bodyWithArgs_no_markers (env : LazyEnv) (henv : WfLazyEnv env) (id : Nat) :
    NoMarkers (bodyWithArgs env id) := by
  unfold bodyWithArgs
  cases hlook : lookupA env.with_args_bodies id with
  | none => intro e he; simp at he
  | some body =>
    simp only [Option.getD_some]
    exact henv.2 _ (lookupA_mem _ _ _ hlook)

theorem NoMarkers_reverse (l : List ComponentStorageEntry) (h : NoMarkers l) :
    NoMarkers l.reverse :=
  fun e he => h e (List.mem_reverse.mp he)

/-- Every continuing step preserves the marker invariant. -/
theorem helperStep_marker_inv {σ : Type} (env : LazyEnv) (top : TypeId)
    (hc : σ → ComponentStorageEntry → σ)
    (hm : σ → ComponentStorageEntry → ComponentStorageEntry → σ)
    (henv : WfLazyEnv env)
    (entry : ComponentStorageEntry) (rest : List ComponentStorageEntry)
    (core : ExpanderState) (s : σ) (st : List ComponentStorageEntry)
    (c : ExpanderState) (s' : σ)
    (hinv : MarkerInv (entry :: rest) core)
    (h : helperStep env top hc hm entry rest core s = .next st c s') :
    MarkerInv st c := by
  cases hK : entry.kind <;> simp only [helperStep, hK] at h
  case bindingForConstructedObject =>
    have hpop := MarkerInv_pop entry rest core hinv (by simp [hK]) (by simp [hK])
    split at h
    · split_ifs at h
      obtain ⟨rfl, rfl, rfl⟩ : rest = st ∧ core = c ∧ s = s' := by
        simpa [StepOut.next.injEq] using h
      exact hpop
    · obtain ⟨rfl, rfl, rfl⟩ : rest = st
          ∧ { core with binding_data_map := insertA core.binding_data_map entry.type_id entry } = c
          ∧ s = s' := by
        simpa [StepOut.next.injEq] using h
      exact hpop
  case bindingForObjectToConstructThatNeedsAllocation =>
    have hpop := MarkerInv_pop entry rest core hinv (by simp [hK]) (by simp [hK])
    split at h
    · split_ifs at h
      obtain ⟨rfl, rfl, rfl⟩ : rest = st
          ∧ { core with allocator := core.allocator.addType entry.type_id } = c
          ∧ s = s' := by
        simpa [StepOut.next.injEq] using h
      exact hpop
    · obtain ⟨rfl, rfl, rfl⟩ : rest = st
          ∧ { core with
                allocator := core.allocator.addType entry.type_id
                binding_data_map := insertA core.binding_data_map entry.type_id entry } = c
          ∧ s = s' := by
        simpa [StepOut.next.injEq] using h
      exact hpop
  case bindingForObjectToConstructThatNeedsNoAllocation =>
    have hpop := MarkerInv_pop entry rest core hinv (by simp [hK]) (by simp [hK])
    split at h
    · split_ifs at h
      obtain ⟨rfl, rfl, rfl⟩ : rest = st
          ∧ { core with
                allocator := core.allocator.addExternallyAllocatedType entry.type_id } = c
          ∧ s = s' := by
        simpa [StepOut.next.injEq] using h
      exact hpop
    · obtain ⟨rfl, rfl, rfl⟩ : rest = st
          ∧ { core with
                allocator := core.allocator.addExternallyAllocatedType entry.type_id
                binding_data_map := insertA core.binding_data_map entry.type_id entry } = c
          ∧ s = s' := by
        simpa [StepOut.next.injEq] using h
      exact hpop
  case compressedBinding =>
    obtain ⟨rfl, rfl, rfl⟩ : rest = st ∧ core = c ∧ hc s entry = s' := by
      simpa [StepOut.next.injEq] using h
    exact MarkerInv_pop entry rest core hinv (by simp [hK]) (by simp [hK])
  case multibindingForConstructedObject =>
    cases rest with
    | nil => simp at h
    | cons vce rest' =>
      simp only [] at h
      split_ifs at h with hvk
      obtain ⟨rfl, rfl, rfl⟩ : rest' = st ∧ core = c ∧ hm s entry vce = s' := by
        simpa [StepOut.next.injEq] using h
      exact MarkerInv_pop vce rest' core
        (MarkerInv_pop entry (vce :: rest') core hinv (by simp [hK]) (by simp [hK]))
        (by simp [hvk]) (by simp [hvk])
  case multibindingForObjectToConstructThatNeedsAllocation =>
    cases rest with
    | nil => simp at h
    | cons vce rest' =>
      simp only [] at h
      split_ifs at h with hvk
      obtain ⟨rfl, rfl, rfl⟩ : rest' = st ∧ core = c ∧ hm s entry vce = s' := by
        simpa [StepOut.next.injEq] using h
      exact MarkerInv_pop vce rest' core
        (MarkerInv_pop entry (vce :: rest') core hinv (by simp [hK]) (by simp [hK]))
        (by simp [hvk]) (by simp [hvk])
  case multibindingForObjectToConstructThatNeedsNoAllocation =>
    cases rest with
    | nil => simp at h
    | cons vce rest' =>
      simp only [] at h
      split_ifs at h with hvk
      obtain ⟨rfl, rfl, rfl⟩ : rest' = st ∧ core = c ∧ hm s entry vce = s' := by
        simpa [StepOut.next.injEq] using h
      exact MarkerInv_pop vce rest' core
        (MarkerInv_pop entry (vce :: rest') core hinv (by simp [hK]) (by simp [hK]))
        (by simp [hvk]) (by simp [hvk])
  case multibindingVectorCreator =>
    cases rest with
    | nil => simp at h
    | cons mbe rest' =>
      simp only [] at h
      split_ifs at h with hvk
      obtain ⟨rfl, rfl, rfl⟩ : rest' = st ∧ core = c ∧ hm s mbe entry = s' := by
        simpa [StepOut.next.injEq] using h
      refine MarkerInv_pop mbe rest' core
        (MarkerInv_pop entry (mbe :: rest') core hinv (by simp [hK]) (by simp [hK]))
        ?_ ?_ <;> rcases hvk with hvk | hvk | hvk <;> simp [hvk]
  case componentWithoutArgsEndMarker =>
    obtain ⟨rfl, rfl, rfl⟩ : rest = st
        ∧ { core with
              in_progress_no_args := core.in_progress_no_args.filter
                (fun j => j ≠ entry.lazy_no_args_id)
              fully_expanded_no_args :=
                if entry.lazy_no_args_id ∈ core.fully_expanded_no_args
                then core.fully_expanded_no_args
                else entry.lazy_no_args_id :: core.fully_expanded_no_args } = c
        ∧ s = s' := by
      simpa [StepOut.next.injEq] using h
    obtain ⟨hno, hnod, hwa, hwanod⟩ := hinv
    rw [markerIdsNo_cons, if_pos hK] at hno hnod
    rw [markerIdsWa_cons, if_neg (by simp [hK])] at hwa hwanod
    have hidnot : entry.lazy_no_args_id ∉ markerIdsNo rest := (List.nodup_cons.mp hnod).1
    refine ⟨?_, (List.nodup_cons.mp hnod).2, hwa, hwanod⟩
    intro j
    constructor
    · intro hj
      have hj2 := List.mem_filter.mp hj
      have hjne : j ≠ entry.lazy_no_args_id := by simpa using hj2.2
      rcases List.mem_cons.mp ((hno j).mp hj2.1) with hje | hje
      · exact absurd hje hjne
      · exact hje
    · intro hj
      have hjne : j ≠ entry.lazy_no_args_id := fun hh => hidnot (hh ▸ hj)
      refine List.mem_filter.mpr ⟨(hno j).mpr (by simp [hj]), by simpa using hjne⟩
  case componentWithArgsEndMarker =>
    obtain ⟨rfl, rfl, rfl⟩ : rest = st
        ∧ { core with
              in_progress_with_args := core.in_progress_with_args.filter
                (fun j => j ≠ entry.lazy_with_args_id)
              fully_expanded_with_args :=
                if entry.lazy_with_args_id ∈ core.fully_expanded_with_args
                then core.fully_expanded_with_args
                else entry.lazy_with_args_id :: core.fully_expanded_with_args } = c
        ∧ s = s' := by
      simpa [StepOut.next.injEq] using h
    obtain ⟨hno, hnod, hwa, hwanod⟩ := hinv
    rw [markerIdsWa_cons, if_pos hK] at hwa hwanod
    rw [markerIdsNo_cons, if_neg (by simp [hK])] at hno hnod
    have hidnot : entry.lazy_with_args_id ∉ markerIdsWa rest := (List.nodup_cons.mp hwanod).1
    refine ⟨hno, hnod, ?_, (List.nodup_cons.mp hwanod).2⟩
    intro j
    constructor
    · intro hj
      have hj2 := List.mem_filter.mp hj
      have hjne : j ≠ entry.lazy_with_args_id := by simpa using hj2.2
      rcases List.mem_cons.mp ((hwa j).mp hj2.1) with hje | hje
      · exact absurd hje hjne
      · exact hje
    · intro hj
      have hjne : j ≠ entry.lazy_with_args_id := fun hh => hidnot (hh ▸ hj)
      refine List.mem_filter.mpr ⟨(hwa j).mpr (by simp [hj]), by simpa using hjne⟩
  case lazyComponentWithArgs =>
    split_ifs at h with hfully hprog
    · obtain ⟨rfl, rfl, rfl⟩ : rest = st ∧ core = c ∧ s = s' := by
        simpa [StepOut.next.injEq] using h
      exact MarkerInv_pop entry rest core hinv (by simp [hK]) (by simp [hK])
    · obtain ⟨rfl, rfl, rfl⟩ :
          (bodyWithArgs env entry.lazy_with_args_id).reverse
            ++ ({ entry with kind := EntryKind.componentWithArgsEndMarker } :: rest) = st
          ∧ { core with
                in_progress_with_args :=
                  entry.lazy_with_args_id :: core.in_progress_with_args } = c
          ∧ s = s' := by
        simpa [StepOut.next.injEq] using h
      obtain ⟨hno, hnod, hwa, hwanod⟩ := hinv
      rw [markerIdsNo_cons, if_neg (by simp [hK])] at hno hnod
      rw [markerIdsWa_cons, if_neg (by simp [hK])] at hwa hwanod
      have hbody : NoMarkers (bodyWithArgs env entry.lazy_with_args_id).reverse :=
        NoMarkers_reverse _ (bodyWithArgs_no_markers env henv _)
      have hbn : markerIdsNo (bodyWithArgs env entry.lazy_with_args_id).reverse = [] :=
        markerIdsNo_no_markers _ hbody
      have hbw : markerIdsWa (bodyWithArgs env entry.lazy_with_args_id).reverse = [] :=
        markerIdsWa_no_markers _ hbody
      have hnost : markerIdsNo
          ((bodyWithArgs env entry.lazy_with_args_id).reverse
            ++ ({ entry with kind := EntryKind.componentWithArgsEndMarker } :: rest))
          = markerIdsNo rest := by
        rw [markerIdsNo_append, hbn, markerIdsNo_cons, if_neg (by simp)]
        simp
      have hwast : markerIdsWa
          ((bodyWithArgs env entry.lazy_with_args_id).reverse
            ++ ({ entry with kind := EntryKind.componentWithArgsEndMarker } :: rest))
          = entry.lazy_with_args_id :: markerIdsWa rest := by
        rw [markerIdsWa_append, hbw, markerIdsWa_cons, if_pos (by simp)]
        simp [ComponentStorageEntry.lazy_with_args_id]
      refine ⟨?_, ?_, ?_, ?_⟩
      · intro j
        rw [hnost]
        exact hno j
      · rw [hnost]
        exact hnod
      · intro j
        rw [hwast]
        simp only [List.mem_cons]
        constructor
        · rintro (hj | hj)
          · exact Or.inl hj
          · exact Or.inr ((hwa j).mp hj)
        · rintro (hj | hj)
          · exact Or.inl hj
          · exact Or.inr ((hwa j).mpr hj)
      · rw [hwast]
        refine List.nodup_cons.mpr ⟨fun hh => hprog ((hwa _).mpr hh), hwanod⟩
  case lazyComponentWithNoArgs =>
    split_ifs at h with hfully hprog
    · obtain ⟨rfl, rfl, rfl⟩ : rest = st ∧ core = c ∧ s = s' := by
        simpa [StepOut.next.injEq] using h
      exact MarkerInv_pop entry rest core hinv (by simp [hK]) (by simp [hK])
    · obtain ⟨rfl, rfl, rfl⟩ :
          (bodyNoArgs env entry.lazy_no_args_id).reverse
            ++ ({ entry with kind := EntryKind.componentWithoutArgsEndMarker } :: rest) = st
          ∧ { core with
                in_progress_no_args :=
                  entry.lazy_no_args_id :: core.in_progress_no_args } = c
          ∧ s = s' := by
        simpa [StepOut.next.injEq] using h
      obtain ⟨hno, hnod, hwa, hwanod⟩ := hinv
      rw [markerIdsNo_cons, if_neg (by simp [hK])] at hno hnod
      rw [markerIdsWa_cons, if_neg (by simp [hK])] at hwa hwanod
      have hbody : NoMarkers (bodyNoArgs env entry.lazy_no_args_id).reverse :=
        NoMarkers_reverse _ (bodyNoArgs_no_markers env henv _)
      have hbn : markerIdsNo (bodyNoArgs env entry.lazy_no_args_id).reverse = [] :=
        markerIdsNo_no_markers _ hbody
      have hbw : markerIdsWa (bodyNoArgs env entry.lazy_no_args_id).reverse = [] :=
        markerIdsWa_no_markers _ hbody
      have hnost : markerIdsNo
          ((bodyNoArgs env entry.lazy_no_args_id).reverse
            ++ ({ entry with kind := EntryKind.componentWithoutArgsEndMarker } :: rest))
          = entry.lazy_no_args_id :: markerIdsNo rest := by
        rw [markerIdsNo_append, hbn, markerIdsNo_cons, if_pos (by simp)]
        simp [ComponentStorageEntry.lazy_no_args_id]
      have hwast : markerIdsWa
          ((bodyNoArgs env entry.lazy_no_args_id).reverse
            ++ ({ entry with kind := EntryKind.componentWithoutArgsEndMarker } :: rest))
          = markerIdsWa rest := by
        rw [markerIdsWa_append, hbw, markerIdsWa_cons, if_neg (by simp)]
        simp
      refine ⟨?_, ?_, ?_, ?_⟩
      · intro j
        rw [hnost]
        simp only [List.mem_cons]
        constructor
        · rintro (hj | hj)
          · exact Or.inl hj
          · exact Or.inr ((hno j).mp hj)
        · rintro (hj | hj)
          · exact Or.inl hj
          · exact Or.inr ((hno j).mpr hj)
      · rw [hnost]
        refine List.nodup_cons.mpr ⟨fun hh => hprog ((hno _).mpr hh), hnod⟩
      · intro j
        rw [hwast]
        exact hwa j
      · rw [hwast]
        exact hwanod

/-- A successful run leaves both in-progress sets empty. -/
theorem helperLoop_ok_inprog {σ : Type} (env : LazyEnv) (top : TypeId)
    (hc : σ → ComponentStorageEntry → σ)
    (hm : σ → ComponentStorageEntry → ComponentStorageEntry → σ)
    (henv : WfLazyEnv env) :
    ∀ (fuel : Nat) (stack : List ComponentStorageEntry) (core : ExpanderState)
      (s : σ) (core' : ExpanderState) (s' : σ),
    MarkerInv stack core →
    helperLoop env top hc hm fuel stack core s = .ok (core', s') →
    core'.in_progress_no_args = [] ∧ core'.in_progress_with_args = [] := by
  intro fuel
  induction fuel with
  | zero =>
    intro stack core s core' s' hinv h
    cases stack with
    | nil =>
      obtain ⟨rfl, rfl⟩ : core = core' ∧ s = s' := by simpa [helperLoop] using h
      obtain ⟨hno, -, hwa, -⟩ := hinv
      constructor
      · refine List.eq_nil_iff_forall_not_mem.mpr fun j hj => ?_
        have := (hno j).mp hj
        simp [markerIdsNo] at this
      · refine List.eq_nil_iff_forall_not_mem.mpr fun j hj => ?_
        have := (hwa j).mp hj
        simp [markerIdsWa] at this
    | cons e rest => simp [helperLoop] at h
  | succ fuel ih =>
    intro stack core s core' s' hinv h
    cases stack with
    | nil =>
      obtain ⟨rfl, rfl⟩ : core = core' ∧ s = s' := by simpa [helperLoop] using h
      obtain ⟨hno, -, hwa, -⟩ := hinv
      constructor
      · refine List.eq_nil_iff_forall_not_mem.mpr fun j hj => ?_
        have := (hno j).mp hj
        simp [markerIdsNo] at this
      · refine List.eq_nil_iff_forall_not_mem.mpr fun j hj => ?_
        have := (hwa j).mp hj
        simp [markerIdsWa] at this
    | cons entry rest =>
      rw [helperLoop] at h
      cases hstep : helperStep env top hc hm entry rest core s with
      | fatal d => rw [hstep] at h; exact absurd h (by simp)
      | assertFail => rw [hstep] at h; exact absurd h (by simp)
      | next st c s2 =>
        rw [hstep] at h
        exact ih st c s2 core' s'
          (helperStep_marker_inv env top hc hm henv entry rest core s st c s2 hinv hstep) h

/-- C8: for any input whose entries and lazy-component bodies contain no
end markers (end markers are internal to the Expander), the work-stack loop
terminates — with fuel equal to the initial measure it never exhausts the
fuel — and whenever it reaches the empty stack and returns successfully, both
the no-args and with-args in-progress sets are empty. -/
theorem claim8_termination {σ : Type} (env : LazyEnv) (top : TypeId)
    (hc : σ → ComponentStorageEntry → σ)
    (hm : σ → ComponentStorageEntry → ComponentStorageEntry → σ)
    (l : List ComponentStorageEntry) (alloc : FixedSizeAllocatorData) (s : σ)
    (henv : WfLazyEnv env) (hl : NoMarkers l) :
    normalizeBindingsHelper (loopMeasure env l.reverse (initialState alloc))
        env l alloc top hc hm s ≠ .outOfFuel
    ∧ ∀ (fuel : Nat) (core' : ExpanderState) (s' : σ),
        normalizeBindingsHelper fuel env l alloc top hc hm s = .ok (core', s') →
        core'.in_progress_no_args = [] ∧ core'.in_progress_with_args = [] := by
  constructor
  · exact helperLoop_no_fuel_exhaustion env top hc hm _ l.reverse
      (initialState alloc) s (le_refl _)
  · intro fuel core' s' h
    have hinv : MarkerInv l.reverse (initialState alloc) := by
      have hnom : markerIdsNo l.reverse = []  :=
        markerIdsNo_no_markers _ (NoMarkers_reverse l hl)
      have hwam : markerIdsWa l.reverse = [] :=
        markerIdsWa_no_markers _ (NoMarkers_reverse l hl)
      refine ⟨fun j => ?_, ?_, fun j => ?_, ?_⟩
      · rw [hnom]
        simp [initialState]
      · rw [hnom]
        exact List.nodup_nil
      · rw [hwam]
        simp [initialState]
      · rw [hwam]
        exact List.nodup_nil
    exact helperLoop_ok_inprog env top hc hm henv fuel l.reverse
      (initialState alloc) s core' s' hinv h

/-- The environment for the C8 witness: lazy component 5 contributes one
constructed-object binding. -/
def c8env : LazyEnv := ⟨[(5, [mkBindingCO 7 100])], []⟩

/-- Witness for C8 at a concrete input: expanding lazy component 5 terminates
within the measure and leaves both in-progress sets empty. -/
theorem claim8_witness :
    WfLazyEnv c8env
    ∧ normalizeBindingsHelper
        (loopMeasure c8env [mkLazyNoArgs 50 5].reverse (initialState emptyAlloc))
        c8env [mkLazyNoArgs 50 5] emptyAlloc 0 trivialHC trivialHM () ≠ .outOfFuel
    ∧ ∃ core', normalizeBindingsHelper 10 c8env [mkLazyNoArgs 50 5] emptyAlloc 0
          trivialHC trivialHM () = .ok (core', ())
        ∧ core'.in_progress_no_args = [] ∧ core'.in_progress_with_args = [] := by
  have h := claim8_termination c8env 0 trivialHC trivialHM [mkLazyNoArgs 50 5]
    emptyAlloc () (by decide) (by decide)
  refine ⟨by decide, h.1, ?_⟩
  obtain ⟨h1, h2⟩ := h.2 10 _ _ rfl
  exact ⟨_, rfl, h1, h2⟩

/-! ### Claim C9: determinism and input-order independence of the binding map -/

/-- The three direct-binding kinds that populate the binding map. -/
def directKind (e : ComponentStorageEntry) : Prop :=
  e.kind = EntryKind.bindingForConstructedObject
    ∨ e.kind = EntryKind.bindingForObjectToConstructThatNeedsAllocation
    ∨ e.kind = EntryKind.bindingForObjectToConstructThatNeedsNoAllocation

instance (e : ComponentStorageEntry) : Decidable (directKind e) := by
  unfold directKind; infer_instance

/-- All entries the run can ever see: the top-level entries plus every
lazy-component body. -/
def poolList (env : LazyEnv) (l : List ComponentStorageEntry) :
    List ComponentStorageEntry :=
  l ++ (env.no_args_bodies.map Prod.snd).flatten
    ++ (env.with_args_bodies.map Prod.snd).flatten

/-- Consistency of an input: any two direct-binding entries for the same
`TypeId` anywhere in the input or in a component body are fully identical. -/
def Consistent (env : LazyEnv) (l : List ComponentStorageEntry) : Prop :=
  ∀ e1 ∈ poolList env l, ∀ e2 ∈ poolList env l,
    directKind e1 → directKind e2 → e1.type_id = e2.type_id → e1 = e2

instance (env : LazyEnv) (l : List ComponentStorageEntry) :
    Decidable (Consistent env l) := by
  unfold Consistent; infer_instance

/-- An entry has been accounted for by a state: direct bindings have their type
in the binding map, lazy components and end markers have their identity in the
fully-expanded or in-progress set, everything else trivially. -/
def Handled (core : ExpanderState) (e : ComponentStorageEntry) : Prop :=
  match e.kind with
  | EntryKind.bindingForConstructedObject =>
    ∃ v, lookupA core.binding_data_map e.type_id = some v
  | EntryKind.bindingForObjectToConstructThatNeedsAllocation =>
    ∃ v, lookupA core.binding_data_map e.type_id = some v
  | EntryKind.bindingForObjectToConstructThatNeedsNoAllocation =>
    ∃ v, lookupA core.binding_data_map e.type_id = some v
  | EntryKind.lazyComponentWithNoArgs =>
    e.lazy_no_args_id ∈ core.fully_expanded_no_args
      ∨ e.lazy_no_args_id ∈ core.in_progress_no_args
  | EntryKind.componentWithoutArgsEndMarker =>
    e.lazy_no_args_id ∈ core.fully_expanded_no_args
      ∨ e.lazy_no_args_id ∈ core.in_progress_no_args
  | EntryKind.lazyComponentWithArgs =>
    e.lazy_with_args_id ∈ core.fully_expanded_with_args
      ∨ e.lazy_with_args_id ∈ core.in_progress_with_args
  | EntryKind.componentWithArgsEndMarker =>
    e.lazy_with_args_id ∈ core.fully_expanded_with_args
      ∨ e.lazy_with_args_id ∈ core.in_progress_with_args
  | _ => True

/-- Marker obligation: each end marker on the stack has every entry of its body
either already handled or still somewhere on the stack. -/
def MOblig (env : LazyEnv) (stack : List ComponentStorageEntry)
    (core : ExpanderState) : Prop :=
  ∀ e ∈ stack,
    (e.kind = EntryKind.componentWithoutArgsEndMarker →
      ∀ b ∈ bodyNoArgs env e.lazy_no_args_id, Handled core b ∨ b ∈ stack)
    ∧ (e.kind = EntryKind.componentWithArgsEndMarker →
      ∀ b ∈ bodyWithArgs env e.lazy_with_args_id, Handled core b ∨ b ∈ stack)

/-- Soundness of the binding map: each entry is stored under its own type, is a
direct binding, and comes from the input pool. -/
def MapSound (env : LazyEnv) (l : List ComponentStorageEntry)
    (m : List (TypeId × ComponentStorageEntry)) : Prop :=
  ∀ p ∈ m, p.2.type_id = p.1 ∧ directKind p.2 ∧ p.2 ∈ poolList env l

/-- Every direct entry on the stack comes from the input pool. -/
def StackPool (env : LazyEnv) (l : List ComponentStorageEntry)
    (stack : List ComponentStorageEntry) : Prop :=
  ∀ e ∈ stack, directKind e → e ∈ poolList env l

/-- A type is reachable from an entry: the entry is a direct binding for it, or
a lazy component whose body (transitively) contains a direct binding for it. -/
inductive Reach (env : LazyEnv) : ComponentStorageEntry → TypeId → Prop where
  | direct (e : ComponentStorageEntry) : directKind e → Reach env e e.type_id
  | thruNoArgs (e b : ComponentStorageEntry) (t : TypeId) :
      e.kind = EntryKind.lazyComponentWithNoArgs →
      b ∈ bodyNoArgs env e.lazy_no_args_id → Reach env b t → Reach env e t
  | thruWithArgs (e b : ComponentStorageEntry) (t : TypeId) :
      e.kind = EntryKind.lazyComponentWithArgs →
      b ∈ bodyWithArgs env e.lazy_with_args_id → Reach env b t → Reach env e t

theorem Reach_kinds (env : LazyEnv) (e : ComponentStorageEntry) (t : TypeId)
    (h : Reach env e t) :
    directKind e ∨ e.kind = EntryKind.lazyComponentWithNoArgs
      ∨ e.kind = EntryKind.lazyComponentWithArgs := by
  cases h with
  | direct _ hd => exact Or.inl hd
  | thruNoArgs _ _ _ hk _ _ => exact Or.inr (Or.inl hk)
  | thruWithArgs _ _ _ hk _ _ => exact Or.inr (Or.inr hk)

/-- `Handled` is monotone along growth of the binding-map domain and of the
unions fully-expanded ∪ in-progress. -/
theorem Handled_mono (c1 c2 : ExpanderState)
    (hdom : ∀ t v, lookupA c1.binding_data_map t = some v →
      ∃ v', lookupA c2.binding_data_map t = some v')
    (hno : ∀ id, (id ∈ c1.fully_expanded_no_args ∨ id ∈ c1.in_progress_no_args) →
      (id ∈ c2.fully_expanded_no_args ∨ id ∈ c2.in_progress_no_args))
    (hwa : ∀ id, (id ∈ c1.fully_expanded_with_args ∨ id ∈ c1.in_progress_with_args) →
      (id ∈ c2.fully_expanded_with_args ∨ id ∈ c2.in_progress_with_args))
    (e : ComponentStorageEntry) (h : Handled c1 e) : Handled c2 e := by
  unfold Handled at h ⊢
  cases hK : e.kind <;> rw [hK] at h <;> simp only []
  case bindingForConstructedObject =>
    obtain ⟨v, hv⟩ := h
    exact hdom _ v hv
  case bindingForObjectToConstructThatNeedsAllocation =>
    obtain ⟨v, hv⟩ := h
    exact hdom _ v hv
  case bindingForObjectToConstructThatNeedsNoAllocation =>
    obtain ⟨v, hv⟩ := h
    exact hdom _ v hv
  case lazyComponentWithNoArgs => exact hno _ h
  case componentWithoutArgsEndMarker => exact hno _ h
  case lazyComponentWithArgs => exact hwa _ h
  case componentWithArgsEndMarker => exact hwa _ h
  all_goals trivial

theorem lookupA_insertA_domMono {β : Type} (m : List (Nat × β)) (k : Nat) (v : β)
    (t : Nat) (w : β) (h : lookupA m t = some w) :
    ∃ w', lookupA (insertA m k v) t = some w' := by
  rw [lookupA_insertA]
  by_cases hk : k = t
  · exact ⟨v, by rw [if_pos hk]⟩
  · exact ⟨w, by rw [if_neg hk]; exact h⟩

theorem Handled_of_direct (core : ExpanderState) (e : ComponentStorageEntry)
    (hk : directKind e)
    (hv : ∃ v, lookupA core.binding_data_map e.type_id = some v) : Handled core e := by
  rcases hk with h | h | h <;> unfold Handled <;> rw [h] <;> exact hv

theorem Handled_direct_dom (core : ExpanderState) (e : ComponentStorageEntry)
    (hk : directKind e) (h : Handled core e) :
    ∃ v, lookupA core.binding_data_map e.type_id = some v := by
  rcases hk with hh | hh | hh <;> unfold Handled at h <;> rw [hh] at h <;> exact h

theorem Handled_trivial (core : ExpanderState) (e : ComponentStorageEntry)
    (hk : e.kind = EntryKind.compressedBinding
      ∨ e.kind = EntryKind.multibindingForConstructedObject
      ∨ e.kind = EntryKind.multibindingForObjectToConstructThatNeedsAllocation
      ∨ e.kind = EntryKind.multibindingForObjectToConstructThatNeedsNoAllocation
      ∨ e.kind = EntryKind.multibindingVectorCreator) : Handled core e := by
  rcases hk with h | h | h | h | h <;> unfold Handled <;> rw [h] <;> exact trivial

theorem Handled_of_no (core : ExpanderState) (e : ComponentStorageEntry)
    (hk : e.kind = EntryKind.lazyComponentWithNoArgs
      ∨ e.kind = EntryKind.componentWithoutArgsEndMarker)
    (h : e.lazy_no_args_id ∈ core.fully_expanded_no_args
      ∨ e.lazy_no_args_id ∈ core.in_progress_no_args) : Handled core e := by
  rcases hk with hh | hh <;> unfold Handled <;> rw [hh] <;> exact h

theorem Handled_no_elim (core : ExpanderState) (e : ComponentStorageEntry)
    (hk : e.kind = EntryKind.lazyComponentWithNoArgs
      ∨ e.kind = EntryKind.componentWithoutArgsEndMarker)
    (h : Handled core e) :
    e.lazy_no_args_id ∈ core.fully_expanded_no_args
      ∨ e.lazy_no_args_id ∈ core.in_progress_no_args := by
  rcases hk with hh | hh <;> unfold Handled at h <;> rw [hh] at h <;> exact h

theorem Handled_of_wa (core : ExpanderState) (e : ComponentStorageEntry)
    (hk : e.kind = EntryKind.lazyComponentWithArgs
      ∨ e.kind = EntryKind.componentWithArgsEndMarker)
    (h : e.lazy_with_args_id ∈ core.fully_expanded_with_args
      ∨ e.lazy_with_args_id ∈ core.in_progress_with_args) : Handled core e := by
  rcases hk with hh | hh <;> unfold Handled <;> rw [hh] <;> exact h

theorem Handled_wa_elim (core : ExpanderState) (e : ComponentStorageEntry)
    (hk : e.kind = EntryKind.lazyComponentWithArgs
      ∨ e.kind = EntryKind.componentWithArgsEndMarker)
    (h : Handled core e) :
    e.lazy_with_args_id ∈ core.fully_expanded_with_args
      ∨ e.lazy_with_args_id ∈ core.in_progress_with_args := by
  rcases hk with hh | hh <;> unfold Handled at h <;> rw [hh] at h <;> exact h

/-- Popping an already-handled entry from the stack preserves the marker
obligation, for any state transition that does not unhandle entries. -/
theorem MOblig_pop (env : LazyEnv) (x : ComponentStorageEntry)
    (s : List ComponentStorageEntry) (core c : ExpanderState)
    (hmono : ∀ b, Handled core b → Handled c b)
    (hx : Handled c x) (hmo : MOblig env (x :: s) core) : MOblig env s c := by
  intro e he
  obtain ⟨h1, h2⟩ := hmo e (List.mem_cons_of_mem _ he)
  refine ⟨fun hk b hb => ?_, fun hk b hb => ?_⟩
  · rcases h1 hk b hb with hh | hh
    · exact Or.inl (hmono b hh)
    · rcases List.mem_cons.mp hh with rfl | hh
      · exact Or.inl hx
      · exact Or.inr hh
  · rcases h2 hk b hb with hh | hh
    · exact Or.inl (hmono b hh)
    · rcases List.mem_cons.mp hh with rfl | hh
      · exact Or.inl hx
      · exact Or.inr hh

theorem StackPool_sub (env : LazyEnv) (l st stack : List ComponentStorageEntry)
    (hsub : ∀ e ∈ st, e ∈ stack) (hsp : StackPool env l stack) :
    StackPool env l st :=
  fun e he hd => hsp e (hsub e he) hd

theorem mem_bodyNoArgs_pool (env : LazyEnv) (l : List ComponentStorageEntry)
    (id : Nat) (b : ComponentStorageEntry) (hb : b ∈ bodyNoArgs env id) :
    b ∈ poolList env l := by
  unfold bodyNoArgs at hb
  cases hlook : lookupA env.no_args_bodies id with
  | none => rw [hlook] at hb; exact absurd hb (by simp)
  | some body =>
    rw [hlook] at hb
    have hmem : (id, body) ∈ env.no_args_bodies := lookupA_mem _ _ _ hlook
    unfold poolList
    refine List.mem_append.mpr (Or.inl (List.mem_append.mpr (Or.inr ?_)))
    exact List.mem_flatten.mpr ⟨body, List.mem_map.mpr ⟨(id, body), hmem, rfl⟩, hb⟩

theorem mem_bodyWithArgs_pool (env : LazyEnv) (l : List ComponentStorageEntry)
    (id : Nat) (b : ComponentStorageEntry) (hb : b ∈ bodyWithArgs env id) :
    b ∈ poolList env l := by
  unfold bodyWithArgs at hb
  cases hlook : lookupA env.with_args_bodies id with
  | none => rw [hlook] at hb; exact absurd hb (by simp)
  | some body =>
    rw [hlook] at hb
    have hmem : (id, body) ∈ env.with_args_bodies := lookupA_mem _ _ _ hlook
    unfold poolList
    refine List.mem_append.mpr (Or.inr ?_)
    exact List.mem_flatten.mpr ⟨body, List.mem_map.mpr ⟨(id, body), hmem, rfl⟩, hb⟩

/-- The facts one continuing `helperStep` provides for the order-independence
argument: monotonicity of the map domain and of the bookkeeping unions, the
popped entry is handled, popped-but-not-pushed entries are handled, the marker
obligation, stack pool membership and map soundness are preserved, reachability
transfers back, fully-expanded sets only grow at the matching end marker, and
new map entries are reachable from the popped entry. -/
def C9Step (env : LazyEnv) (l : List ComponentStorageEntry)
    (entry : ComponentStorageEntry) (rest st : List ComponentStorageEntry)
    (core c : ExpanderState) : Prop :=
  (∀ t v, lookupA core.binding_data_map t = some v →
      ∃ v', lookupA c.binding_data_map t = some v')
  ∧ (∀ j, (j ∈ core.fully_expanded_no_args ∨ j ∈ core.in_progress_no_args) →
      (j ∈ c.fully_expanded_no_args ∨ j ∈ c.in_progress_no_args))
  ∧ (∀ j, (j ∈ core.fully_expanded_with_args ∨ j ∈ core.in_progress_with_args) →
      (j ∈ c.fully_expanded_with_args ∨ j ∈ c.in_progress_with_args))
  ∧ Handled c entry
  ∧ (∀ b ∈ rest, Handled c b ∨ b ∈ st)
  ∧ MOblig env st c
  ∧ StackPool env l st
  ∧ (MapSound env l core.binding_data_map → MapSound env l c.binding_data_map)
  ∧ (∀ e ∈ st, ∀ t, Reach env e t → ∃ e' ∈ entry :: rest, Reach env e' t)
  ∧ (∀ j, j ∈ c.fully_expanded_no_args → j ∈ core.fully_expanded_no_args ∨
      (entry.kind = EntryKind.componentWithoutArgsEndMarker ∧ j = entry.lazy_no_args_id))
  ∧ (∀ j, j ∈ c.fully_expanded_with_args → j ∈ core.fully_expanded_with_args ∨
      (entry.kind = EntryKind.componentWithArgsEndMarker ∧ j = entry.lazy_with_args_id))
  ∧ (∀ t v, lookupA c.binding_data_map t = some v →
      (∃ w, lookupA core.binding_data_map t = some w) ∨ Reach env entry t)

/-- A step that pops the top entry and leaves map and bookkeeping sets
untouched satisfies `C9Step` as soon as the popped entry is handled. -/
theorem c9_simple_pop (env : LazyEnv) (l : List ComponentStorageEntry)
    (entry : ComponentStorageEntry) (rest : List ComponentStorageEntry)
    (core c : ExpanderState)
    (hmap : c.binding_data_map = core.binding_data_map)
    (hfno : c.fully_expanded_no_args = core.fully_expanded_no_args)
    (hino : c.in_progress_no_args = core.in_progress_no_args)
    (hfwa : c.fully_expanded_with_args = core.fully_expanded_with_args)
    (hiwa : c.in_progress_with_args = core.in_progress_with_args)
    (hent : Handled c entry)
    (hmo : MOblig env (entry :: rest) core)
    (hsp : StackPool env l (entry :: rest)) :
    C9Step env l entry rest rest core c := by
  have p1 : ∀ t v, lookupA core.binding_data_map t = some v →
      ∃ v', lookupA c.binding_data_map t = some v' := by
    intro t v hv
    exact ⟨v, by rw [hmap]; exact hv⟩
  have p2 : ∀ j, (j ∈ core.fully_expanded_no_args ∨ j ∈ core.in_progress_no_args) →
      (j ∈ c.fully_expanded_no_args ∨ j ∈ c.in_progress_no_args) := by
    intro j hj
    rw [hfno, hino]
    exact hj
  have p3 : ∀ j, (j ∈ core.fully_expanded_with_args ∨ j ∈ core.in_progress_with_args) →
      (j ∈ c.fully_expanded_with_args ∨ j ∈ c.in_progress_with_args) := by
    intro j hj
    rw [hfwa, hiwa]
    exact hj
  refine ⟨p1, p2, p3, hent, fun b hb => Or.inr hb,
    MOblig_pop env entry rest core c (fun b => Handled_mono core c p1 p2 p3 b) hent hmo,
    StackPool_sub env l rest _ (fun e he => List.mem_cons_of_mem _ he) hsp,
    ?_, fun e he t hr => ⟨e, List.mem_cons_of_mem _ he, hr⟩, ?_, ?_, ?_⟩
  · intro hms p hp
    rw [hmap] at hp
    exact hms p hp
  · intro j hj
    rw [hfno] at hj
    exact Or.inl hj
  · intro j hj
    rw [hfwa] at hj
    exact Or.inl hj
  · intro t v hv
    rw [hmap] at hv
    exact Or.inl ⟨v, hv⟩

/-- A step that pops a direct binding and inserts it into the map satisfies
`C9Step`. -/
theorem c9_direct_insert (env : LazyEnv) (l : List ComponentStorageEntry)
    (entry : ComponentStorageEntry) (rest : List ComponentStorageEntry)
    (core c : ExpanderState)
    (hk : directKind entry)
    (hmap : c.binding_data_map = insertA core.binding_data_map entry.type_id entry)
    (hfno : c.fully_expanded_no_args = core.fully_expanded_no_args)
    (hino : c.in_progress_no_args = core.in_progress_no_args)
    (hfwa : c.fully_expanded_with_args = core.fully_expanded_with_args)
    (hiwa : c.in_progress_with_args = core.in_progress_with_args)
    (hmo : MOblig env (entry :: rest) core)
    (hsp : StackPool env l (entry :: rest)) :
    C9Step env l entry rest rest core c := by
  have p1 : ∀ t v, lookupA core.binding_data_map t = some v →
      ∃ v', lookupA c.binding_data_map t = some v' := by
    intro t v hv
    rw [hmap]
    exact lookupA_insertA_domMono core.binding_data_map entry.type_id entry t v hv
  have p2 : ∀ j, (j ∈ core.fully_expanded_no_args ∨ j ∈ core.in_progress_no_args) →
      (j ∈ c.fully_expanded_no_args ∨ j ∈ c.in_progress_no_args) := by
    intro j hj
    rw [hfno, hino]
    exact hj
  have p3 : ∀ j, (j ∈ core.fully_expanded_with_args ∨ j ∈ core.in_progress_with_args) →
      (j ∈ c.fully_expanded_with_args ∨ j ∈ c.in_progress_with_args) := by
    intro j hj
    rw [hfwa, hiwa]
    exact hj
  have p4 : Handled c entry := by
    refine Handled_of_direct c entry hk ⟨entry, ?_⟩
    rw [hmap, lookupA_insertA]
    simp
  refine ⟨p1, p2, p3, p4, fun b hb => Or.inr hb,
    MOblig_pop env entry rest core c (fun b => Handled_mono core c p1 p2 p3 b) p4 hmo,
    StackPool_sub env l rest _ (fun e he => List.mem_cons_of_mem _ he) hsp,
    ?_, fun e he t hr => ⟨e, List.mem_cons_of_mem _ he, hr⟩, ?_, ?_, ?_⟩
  · intro hms p hp
    rw [hmap] at hp
    rcases mem_insertA core.binding_data_map entry.type_id entry p hp with rfl | hp2
    · exact ⟨rfl, hk, hsp entry (List.mem_cons_self _ _) hk⟩
    · exact hms p hp2
  · intro j hj
    rw [hfno] at hj
    exact Or.inl hj
  · intro j hj
    rw [hfwa] at hj
    exact Or.inl hj
  · intro t v hv
    rw [hmap, lookupA_insertA] at hv
    split_ifs at hv with ht
    · exact Or.inr (ht ▸ Reach.direct entry hk)
    · exact Or.inl ⟨v, hv⟩

/-- The state after popping a no-args end marker. -/
def markerStepNo (core : ExpanderState) (id : Nat) : ExpanderState :=
  { core with
    in_progress_no_args := core.in_progress_no_args.filter (fun j => j ≠ id)
    fully_expanded_no_args :=
      if id ∈ core.fully_expanded_no_args then core.fully_expanded_no_args
      else id :: core.fully_expanded_no_args }

/-- The state after popping a with-args end marker. -/
def markerStepWa (core : ExpanderState) (id : Nat) : ExpanderState :=
  { core with
    in_progress_with_args := core.in_progress_with_args.filter (fun j => j ≠ id)
    fully_expanded_with_args :=
      if id ∈ core.fully_expanded_with_args then core.fully_expanded_with_args
      else id :: core.fully_expanded_with_args }

/-- The state after starting the expansion of a no-args lazy component. -/
def expandStepNo (core : ExpanderState) (id : Nat) : ExpanderState :=
  { core with in_progress_no_args := id :: core.in_progress_no_args }

/-- The state after starting the expansion of a with-args lazy component. -/
def expandStepWa (core : ExpanderState) (id : Nat) : ExpanderState :=
  { core with in_progress_with_args := id :: core.in_progress_with_args }

/-- Every continuing `helperStep` satisfies the `C9Step` property bundle. -/
theorem helperStep_c9 {σ : Type} (env : LazyEnv) (top : TypeId)
    (hc : σ → ComponentStorageEntry → σ)
    (hm : σ → ComponentStorageEntry → ComponentStorageEntry → σ)
    (l : List ComponentStorageEntry) (henv : WfLazyEnv env)
    (entry : ComponentStorageEntry) (rest : List ComponentStorageEntry)
    (core : ExpanderState) (s : σ) (st : List ComponentStorageEntry)
    (c : ExpanderState) (s' : σ)
    (hmo : MOblig env (entry :: rest) core)
    (hsp : StackPool env l (entry :: rest))
    (h : helperStep env top hc hm entry rest core s = .next st c s') :
    C9Step env l entry rest st core c := by
  cases hK : entry.kind <;> simp only [helperStep, hK] at h
  case bindingForConstructedObject =>
    split at h
    · rename_i entry_in_map hl
      split_ifs at h
      obtain ⟨rfl, rfl, rfl⟩ : rest = st ∧ core = c ∧ s = s' := by
        simpa [StepOut.next.injEq] using h
      exact c9_simple_pop env l entry rest core core rfl rfl rfl rfl rfl
        (Handled_of_direct core entry (Or.inl hK) ⟨entry_in_map, hl⟩) hmo hsp
    · obtain ⟨rfl, rfl, rfl⟩ : rest = st
          ∧ { core with
                binding_data_map := insertA core.binding_data_map entry.type_id entry } = c
          ∧ s = s' := by
        simpa [StepOut.next.injEq] using h
      exact c9_direct_insert env l entry rest core _ (Or.inl hK) rfl rfl rfl rfl rfl hmo hsp
  case bindingForObjectToConstructThatNeedsAllocation =>
    split at h
    · rename_i entry_in_map hl
      split_ifs at h
      obtain ⟨rfl, rfl, rfl⟩ : rest = st
          ∧ { core with allocator := core.allocator.addType entry.type_id } = c
          ∧ s = s' := by
        simpa [StepOut.next.injEq] using h
      exact c9_simple_pop env l entry rest core _ rfl rfl rfl rfl rfl
        (Handled_of_direct _ entry (Or.inr (Or.inl hK)) ⟨entry_in_map, hl⟩) hmo hsp
    · rename_i hl
      obtain ⟨rfl, rfl, rfl⟩ : rest = st
          ∧ { core with
                allocator := core.allocator.addType entry.type_id
                binding_data_map := insertA core.binding_data_map entry.type_id entry } = c
          ∧ s = s' := by
        simpa [StepOut.next.injEq] using h
      exact c9_direct_insert env l entry rest core _ (Or.inr (Or.inl hK))
        rfl rfl rfl rfl rfl hmo hsp
  case bindingForObjectToConstructThatNeedsNoAllocation =>
    split at h
    · rename_i entry_in_map hl
      split_ifs at h
      obtain ⟨rfl, rfl, rfl⟩ : rest = st
          ∧ { core with
                allocator := core.allocator.addExternallyAllocatedType entry.type_id } = c
          ∧ s = s' := by
        simpa [StepOut.next.injEq] using h
      exact c9_simple_pop env l entry rest core _ rfl rfl rfl rfl rfl
        (Handled_of_direct _ entry (Or.inr (Or.inr hK)) ⟨entry_in_map, hl⟩) hmo hsp
    · rename_i hl
      obtain ⟨rfl, rfl, rfl⟩ : rest = st
          ∧ { core with
                allocator := core.allocator.addExternallyAllocatedType entry.type_id
                binding_data_map := insertA core.binding_data_map entry.type_id entry } = c
          ∧ s = s' := by
        simpa [StepOut.next.injEq] using h
      exact c9_direct_insert env l entry rest core _ (Or.inr (Or.inr hK))
        rfl rfl rfl rfl rfl hmo hsp
  case compressedBinding =>
    obtain ⟨rfl, rfl, rfl⟩ : rest = st ∧ core = c ∧ hc s entry = s' := by
      simpa [StepOut.next.injEq] using h
    exact c9_simple_pop env l entry rest core core rfl rfl rfl rfl rfl
      (Handled_trivial core entry (Or.inl hK)) hmo hsp
  case multibindingForConstructedObject =>
    cases rest with
    | nil => simp at h
    | cons vce rest' =>
      simp only [] at h
      split_ifs at h with hvk
      obtain ⟨rfl, rfl, rfl⟩ : rest' = st ∧ core = c ∧ hm s entry vce = s' := by
        simpa [StepOut.next.injEq] using h
      have hent : Handled core entry := Handled_trivial core entry (Or.inr (Or.inl hK))
      have hvce : Handled core vce :=
        Handled_trivial core vce (Or.inr (Or.inr (Or.inr (Or.inr hvk))))
      refine ⟨fun t v hv => ⟨v, hv⟩, fun j hj => hj, fun j hj => hj, hent, ?_, ?_, ?_,
        fun hms => hms, fun e he t hr => ⟨e, List.mem_cons_of_mem _ (List.mem_cons_of_mem _ he), hr⟩,
        fun j hj => Or.inl hj, fun j hj => Or.inl hj, fun t v hv => Or.inl ⟨v, hv⟩⟩
      · intro b hb
        rcases List.mem_cons.mp hb with rfl | hb2
        · exact Or.inl hvce
        · exact Or.inr hb2
      · exact MOblig_pop env vce rest' core core (fun b hb => hb) hvce
          (MOblig_pop env entry (vce :: rest') core core (fun b hb => hb) hent hmo)
      · exact StackPool_sub env l rest' _
          (fun e he => List.mem_cons_of_mem _ (List.mem_cons_of_mem _ he)) hsp
  case multibindingForObjectToConstructThatNeedsAllocation =>
    cases rest with
    | nil => simp at h
    | cons vce rest' =>
      simp only [] at h
      split_ifs at h with hvk
      obtain ⟨rfl, rfl, rfl⟩ : rest' = st ∧ core = c ∧ hm s entry vce = s' := by
        simpa [StepOut.next.injEq] using h
      have hent : Handled core entry := Handled_trivial core entry (Or.inr (Or.inr (Or.inl hK)))
      have hvce : Handled core vce :=
        Handled_trivial core vce (Or.inr (Or.inr (Or.inr (Or.inr hvk))))
      refine ⟨fun t v hv => ⟨v, hv⟩, fun j hj => hj, fun j hj => hj, hent, ?_, ?_, ?_,
        fun hms => hms, fun e he t hr => ⟨e, List.mem_cons_of_mem _ (List.mem_cons_of_mem _ he), hr⟩,
        fun j hj => Or.inl hj, fun j hj => Or.inl hj, fun t v hv => Or.inl ⟨v, hv⟩⟩
      · intro b hb
        rcases List.mem_cons.mp hb with rfl | hb2
        · exact Or.inl hvce
        · exact Or.inr hb2
      · exact MOblig_pop env vce rest' core core (fun b hb => hb) hvce
          (MOblig_pop env entry (vce :: rest') core core (fun b hb => hb) hent hmo)
      · exact StackPool_sub env l rest' _
          (fun e he => List.mem_cons_of_mem _ (List.mem_cons_of_mem _ he)) hsp
  case multibindingForObjectToConstructThatNeedsNoAllocation =>
    cases rest with
    | nil => simp at h
    | cons vce rest' =>
      simp only [] at h
      split_ifs at h with hvk
      obtain ⟨rfl, rfl, rfl⟩ : rest' = st ∧ core = c ∧ hm s entry vce = s' := by
        simpa [StepOut.next.injEq] using h
      have hent : Handled core entry :=
        Handled_trivial core entry (Or.inr (Or.inr (Or.inr (Or.inl hK))))
      have hvce : Handled core vce :=
        Handled_trivial core vce (Or.inr (Or.inr (Or.inr (Or.inr hvk))))
      refine ⟨fun t v hv => ⟨v, hv⟩, fun j hj => hj, fun j hj => hj, hent, ?_, ?_, ?_,
        fun hms => hms, fun e he t hr => ⟨e, List.mem_cons_of_mem _ (List.mem_cons_of_mem _ he), hr⟩,
        fun j hj => Or.inl hj, fun j hj => Or.inl hj, fun t v hv => Or.inl ⟨v, hv⟩⟩
      · intro b hb
        rcases List.mem_cons.mp hb with rfl | hb2
        · exact Or.inl hvce
        · exact Or.inr hb2
      · exact MOblig_pop env vce rest' core core (fun b hb => hb) hvce
          (MOblig_pop env entry (vce :: rest') core core (fun b hb => hb) hent hmo)
      · exact StackPool_sub env l rest' _
          (fun e he => List.mem_cons_of_mem _ (List.mem_cons_of_mem _ he)) hsp
  case multibindingVectorCreator =>
    cases rest with
    | nil => simp at h
    | cons mbe rest' =>
      simp only [] at h
      split_ifs at h with hvk
      obtain ⟨rfl, rfl, rfl⟩ : rest' = st ∧ core = c ∧ hm s mbe entry = s' := by
        simpa [StepOut.next.injEq] using h
      have hent : Handled core entry :=
        Handled_trivial core entry (Or.inr (Or.inr (Or.inr (Or.inr hK))))
      have hmbe : Handled core mbe := by
        rcases hvk with hh | hh | hh
        · exact Handled_trivial core mbe (Or.inr (Or.inl hh))
        · exact Handled_trivial core mbe (Or.inr (Or.inr (Or.inl hh)))
        · exact Handled_trivial core mbe (Or.inr (Or.inr (Or.inr (Or.inl hh))))
      refine ⟨fun t v hv => ⟨v, hv⟩, fun j hj => hj, fun j hj => hj, hent, ?_, ?_, ?_,
        fun hms => hms, fun e he t hr => ⟨e, List.mem_cons_of_mem _ (List.mem_cons_of_mem _ he), hr⟩,
        fun j hj => Or.inl hj, fun j hj => Or.inl hj, fun t v hv => Or.inl ⟨v, hv⟩⟩
      · intro b hb
        rcases List.mem_cons.mp hb with rfl | hb2
        · exact Or.inl hmbe
        · exact Or.inr hb2
      · exact MOblig_pop env mbe rest' core core (fun b hb => hb) hmbe
          (MOblig_pop env entry (mbe :: rest') core core (fun b hb => hb) hent hmo)
      · exact StackPool_sub env l rest' _
          (fun e he => List.mem_cons_of_mem _ (List.mem_cons_of_mem _ he)) hsp
  case componentWithoutArgsEndMarker =>
    obtain ⟨rfl, rfl, rfl⟩ : rest = st
        ∧ markerStepNo core entry.lazy_no_args_id = c
        ∧ s = s' := by
      simpa [markerStepNo, StepOut.next.injEq] using h
    have hidfull : entry.lazy_no_args_id ∈
        (markerStepNo core entry.lazy_no_args_id).fully_expanded_no_args := by
      show entry.lazy_no_args_id ∈
        (if entry.lazy_no_args_id ∈ core.fully_expanded_no_args
         then core.fully_expanded_no_args
         else entry.lazy_no_args_id :: core.fully_expanded_no_args)
      split_ifs with hin
      · exact hin
      · exact List.mem_cons_self _ _
    have hfullsub : ∀ j ∈ core.fully_expanded_no_args,
        j ∈ (markerStepNo core entry.lazy_no_args_id).fully_expanded_no_args := by
      intro j hj
      show j ∈ (if entry.lazy_no_args_id ∈ core.fully_expanded_no_args
         then core.fully_expanded_no_args
         else entry.lazy_no_args_id :: core.fully_expanded_no_args)
      split_ifs with hin
      · exact hj
      · exact List.mem_cons_of_mem _ hj
    have p1 : ∀ t v, lookupA core.binding_data_map t = some v →
        ∃ v', lookupA (markerStepNo core entry.lazy_no_args_id).binding_data_map t
          = some v' := fun t v hv => ⟨v, hv⟩
    have p2 : ∀ j, (j ∈ core.fully_expanded_no_args ∨ j ∈ core.in_progress_no_args) →
        (j ∈ (markerStepNo core entry.lazy_no_args_id).fully_expanded_no_args
          ∨ j ∈ (markerStepNo core entry.lazy_no_args_id).in_progress_no_args) := by
      intro j hj
      rcases hj with hj | hj
      · exact Or.inl (hfullsub j hj)
      · by_cases hje : j = entry.lazy_no_args_id
        · exact Or.inl (hje ▸ hidfull)
        · exact Or.inr (List.mem_filter.mpr ⟨hj, by simp [hje]⟩)
    have p3 : ∀ j, (j ∈ core.fully_expanded_with_args ∨ j ∈ core.in_progress_with_args) →
        (j ∈ (markerStepNo core entry.lazy_no_args_id).fully_expanded_with_args
          ∨ j ∈ (markerStepNo core entry.lazy_no_args_id).in_progress_with_args) :=
      fun j hj => hj
    have p4 : Handled (markerStepNo core entry.lazy_no_args_id) entry :=
      Handled_of_no _ entry (Or.inr hK) (Or.inl hidfull)
    refine ⟨p1, p2, p3, p4, fun b hb => Or.inr hb,
      MOblig_pop env entry rest core (markerStepNo core entry.lazy_no_args_id)
        (fun b => Handled_mono core (markerStepNo core entry.lazy_no_args_id) p1 p2 p3 b)
        p4 hmo,
      StackPool_sub env l rest _ (fun e he => List.mem_cons_of_mem _ he) hsp,
      fun hms => hms, fun e he t hr => ⟨e, List.mem_cons_of_mem _ he, hr⟩,
      ?_, fun j hj => Or.inl hj, fun t v hv => Or.inl ⟨v, hv⟩⟩
    intro j hj
    have hj' : j ∈ (if entry.lazy_no_args_id ∈ core.fully_expanded_no_args
        then core.fully_expanded_no_args
        else entry.lazy_no_args_id :: core.fully_expanded_no_args) := hj
    split_ifs at hj' with hin
    · exact Or.inl hj'
    · rcases List.mem_cons.mp hj' with rfl | hj2
      · exact Or.inr ⟨hK, rfl⟩
      · exact Or.inl hj2
  case componentWithArgsEndMarker =>
    obtain ⟨rfl, rfl, rfl⟩ : rest = st
        ∧ markerStepWa core entry.lazy_with_args_id = c
        ∧ s = s' := by
      simpa [markerStepWa, StepOut.next.injEq] using h
    have hidfull : entry.lazy_with_args_id ∈
        (markerStepWa core entry.lazy_with_args_id).fully_expanded_with_args := by
      show entry.lazy_with_args_id ∈
        (if entry.lazy_with_args_id ∈ core.fully_expanded_with_args
         then core.fully_expanded_with_args
         else entry.lazy_with_args_id :: core.fully_expanded_with_args)
      split_ifs with hin
      · exact hin
      · exact List.mem_cons_self _ _
    have hfullsub : ∀ j ∈ core.fully_expanded_with_args,
        j ∈ (markerStepWa core entry.lazy_with_args_id).fully_expanded_with_args := by
      intro j hj
      show j ∈ (if entry.lazy_with_args_id ∈ core.fully_expanded_with_args
         then core.fully_expanded_with_args
         else entry.lazy_with_args_id :: core.fully_expanded_with_args)
      split_ifs with hin
      · exact hj
      · exact List.mem_cons_of_mem _ hj
    have p1 : ∀ t v, lookupA core.binding_data_map t = some v →
        ∃ v', lookupA (markerStepWa core entry.lazy_with_args_id).binding_data_map t
          = some v' := fun t v hv => ⟨v, hv⟩
    have p2 : ∀ j, (j ∈ core.fully_expanded_no_args ∨ j ∈ core.in_progress_no_args) →
        (j ∈ (markerStepWa core entry.lazy_with_args_id).fully_expanded_no_args
          ∨ j ∈ (markerStepWa core entry.lazy_with_args_id).in_progress_no_args) :=
      fun j hj => hj
    have p3 : ∀ j, (j ∈ core.fully_expanded_with_args ∨ j ∈ core.in_progress_with_args) →
        (j ∈ (markerStepWa core entry.lazy_with_args_id).fully_expanded_with_args
          ∨ j ∈ (markerStepWa core entry.lazy_with_args_id).in_progress_with_args) := by
      intro j hj
      rcases hj with hj | hj
      · exact Or.inl (hfullsub j hj)
      · by_cases hje : j = entry.lazy_with_args_id
        · exact Or.inl (hje ▸ hidfull)
        · exact Or.inr (List.mem_filter.mpr ⟨hj, by simp [hje]⟩)
    have p4 : Handled (markerStepWa core entry.lazy_with_args_id) entry :=
      Handled_of_wa _ entry (Or.inr hK) (Or.inl hidfull)
    refine ⟨p1, p2, p3, p4, fun b hb => Or.inr hb,
      MOblig_pop env entry rest core (markerStepWa core entry.lazy_with_args_id)
        (fun b => Handled_mono core (markerStepWa core entry.lazy_with_args_id) p1 p2 p3 b)
        p4 hmo,
      StackPool_sub env l rest _ (fun e he => List.mem_cons_of_mem _ he) hsp,
      fun hms => hms, fun e he t hr => ⟨e, List.mem_cons_of_mem _ he, hr⟩,
      fun j hj => Or.inl hj, ?_, fun t v hv => Or.inl ⟨v, hv⟩⟩
    intro j hj
    have hj' : j ∈ (if entry.lazy_with_args_id ∈ core.fully_expanded_with_args
        then core.fully_expanded_with_args
        else entry.lazy_with_args_id :: core.fully_expanded_with_args) := hj
    split_ifs at hj' with hin
    · exact Or.inl hj'
    · rcases List.mem_cons.mp hj' with rfl | hj2
      · exact Or.inr ⟨hK, rfl⟩
      · exact Or.inl hj2
  case lazyComponentWithArgs =>
    split_ifs at h with h1 h2
    · obtain ⟨rfl, rfl, rfl⟩ : rest = st ∧ core = c ∧ s = s' := by
        simpa [StepOut.next.injEq] using h
      exact c9_simple_pop env l entry rest core core rfl rfl rfl rfl rfl
        (Handled_of_wa core entry (Or.inl hK) (Or.inl h1)) hmo hsp
    · obtain ⟨rfl, rfl, rfl⟩ : (bodyWithArgs env entry.lazy_with_args_id).reverse
            ++ ({ entry with kind := EntryKind.componentWithArgsEndMarker } :: rest) = st
          ∧ expandStepWa core entry.lazy_with_args_id = c
          ∧ s = s' := by
        simpa [expandStepWa, StepOut.next.injEq] using h
      have p1 : ∀ t v, lookupA core.binding_data_map t = some v →
          ∃ v', lookupA (expandStepWa core entry.lazy_with_args_id).binding_data_map t
            = some v' := fun t v hv => ⟨v, hv⟩
      have p2 : ∀ j, (j ∈ core.fully_expanded_no_args ∨ j ∈ core.in_progress_no_args) →
          (j ∈ (expandStepWa core entry.lazy_with_args_id).fully_expanded_no_args
            ∨ j ∈ (expandStepWa core entry.lazy_with_args_id).in_progress_no_args) :=
        fun j hj => hj
      have p3 : ∀ j, (j ∈ core.fully_expanded_with_args ∨ j ∈ core.in_progress_with_args) →
          (j ∈ (expandStepWa core entry.lazy_with_args_id).fully_expanded_with_args
            ∨ j ∈ (expandStepWa core entry.lazy_with_args_id).in_progress_with_args) := by
        intro j hj
        rcases hj with hj | hj
        · exact Or.inl hj
        · exact Or.inr (List.mem_cons_of_mem _ hj)
      have p4 : Handled (expandStepWa core entry.lazy_with_args_id) entry :=
        Handled_of_wa _ entry (Or.inl hK) (Or.inr (List.mem_cons_self _ _))
      have hmono : ∀ b, Handled core b →
          Handled (expandStepWa core entry.lazy_with_args_id) b :=
        fun b => Handled_mono core (expandStepWa core entry.lazy_with_args_id) p1 p2 p3 b
      refine ⟨p1, p2, p3, p4, ?_, ?_, ?_, fun hms => hms, ?_,
        fun j hj => Or.inl hj, fun j hj => Or.inl hj, fun t v hv => Or.inl ⟨v, hv⟩⟩
      · intro b hb
        exact Or.inr (List.mem_append.mpr (Or.inr (List.mem_cons_of_mem _ hb)))
      · intro e he
        rcases List.mem_append.mp he with hbody | hcons
        · have hnm := bodyWithArgs_no_markers env henv entry.lazy_with_args_id e
            (List.mem_reverse.mp hbody)
          exact ⟨fun hk => absurd hk hnm.1, fun hk => absurd hk hnm.2⟩
        · rcases List.mem_cons.mp hcons with rfl | hrest
          · refine ⟨fun hk => EntryKind.noConfusion hk, fun _ b hb => ?_⟩
            exact Or.inr (List.mem_append.mpr (Or.inl (List.mem_reverse.mpr hb)))
          · obtain ⟨hob1, hob2⟩ := hmo e (List.mem_cons_of_mem _ hrest)
            refine ⟨fun hk b hb => ?_, fun hk b hb => ?_⟩
            · rcases hob1 hk b hb with hh | hh
              · exact Or.inl (hmono b hh)
              · rcases List.mem_cons.mp hh with rfl | hh2
                · exact Or.inl p4
                · exact Or.inr (List.mem_append.mpr (Or.inr (List.mem_cons_of_mem _ hh2)))
            · rcases hob2 hk b hb with hh | hh
              · exact Or.inl (hmono b hh)
              · rcases List.mem_cons.mp hh with rfl | hh2
                · exact Or.inl p4
                · exact Or.inr (List.mem_append.mpr (Or.inr (List.mem_cons_of_mem _ hh2)))
      · intro e he hd
        rcases List.mem_append.mp he with hbody | hcons
        · exact mem_bodyWithArgs_pool env l entry.lazy_with_args_id e
            (List.mem_reverse.mp hbody)
        · rcases List.mem_cons.mp hcons with rfl | hrest
          · rcases hd with hh | hh | hh <;> exact EntryKind.noConfusion hh
          · exact hsp e (List.mem_cons_of_mem _ hrest) hd
      · intro e he t hr
        rcases List.mem_append.mp he with hbody | hcons
        · exact ⟨entry, List.mem_cons_self _ _,
            Reach.thruWithArgs entry e t hK (List.mem_reverse.mp hbody) hr⟩
        · rcases List.mem_cons.mp hcons with rfl | hrest
          · rcases Reach_kinds env _ t hr with hd | hd | hd
            · rcases hd with hh | hh | hh <;> exact EntryKind.noConfusion hh
            · exact EntryKind.noConfusion hd
            · exact EntryKind.noConfusion hd
          · exact ⟨e, List.mem_cons_of_mem _ hrest, hr⟩
  case lazyComponentWithNoArgs =>
    split_ifs at h with h1 h2
    · obtain ⟨rfl, rfl, rfl⟩ : rest = st ∧ core = c ∧ s = s' := by
        simpa [StepOut.next.injEq] using h
      exact c9_simple_pop env l entry rest core core rfl rfl rfl rfl rfl
        (Handled_of_no core entry (Or.inl hK) (Or.inl h1)) hmo hsp
    · obtain ⟨rfl, rfl, rfl⟩ : (bodyNoArgs env entry.lazy_no_args_id).reverse
            ++ ({ entry with kind := EntryKind.componentWithoutArgsEndMarker } :: rest) = st
          ∧ expandStepNo core entry.lazy_no_args_id = c
          ∧ s = s' := by
        simpa [expandStepNo, StepOut.next.injEq] using h
      have p1 : ∀ t v, lookupA core.binding_data_map t = some v →
          ∃ v', lookupA (expandStepNo core entry.lazy_no_args_id).binding_data_map t
            = some v' := fun t v hv => ⟨v, hv⟩
      have p2 : ∀ j, (j ∈ core.fully_expanded_no_args ∨ j ∈ core.in_progress_no_args) →
          (j ∈ (expandStepNo core entry.lazy_no_args_id).fully_expanded_no_args
            ∨ j ∈ (expandStepNo core entry.lazy_no_args_id).in_progress_no_args) := by
        intro j hj
        rcases hj with hj | hj
        · exact Or.inl hj
        · exact Or.inr (List.mem_cons_of_mem _ hj)
      have p3 : ∀ j, (j ∈ core.fully_expanded_with_args ∨ j ∈ core.in_progress_with_args) →
          (j ∈ (expandStepNo core entry.lazy_no_args_id).fully_expanded_with_args
            ∨ j ∈ (expandStepNo core entry.lazy_no_args_id).in_progress_with_args) :=
        fun j hj => hj
      have p4 : Handled (expandStepNo core entry.lazy_no_args_id) entry :=
        Handled_of_no _ entry (Or.inl hK) (Or.inr (List.mem_cons_self _ _))
      have hmono : ∀ b, Handled core b →
          Handled (expandStepNo core entry.lazy_no_args_id) b :=
        fun b => Handled_mono core (expandStepNo core entry.lazy_no_args_id) p1 p2 p3 b
      refine ⟨p1, p2, p3, p4, ?_, ?_, ?_, fun hms => hms, ?_,
        fun j hj => Or.inl hj, fun j hj => Or.inl hj, fun t v hv => Or.inl ⟨v, hv⟩⟩
      · intro b hb
        exact Or.inr (List.mem_append.mpr (Or.inr (List.mem_cons_of_mem _ hb)))
      · intro e he
        rcases List.mem_append.mp he with hbody | hcons
        · have hnm := bodyNoArgs_no_markers env henv entry.lazy_no_args_id e
            (List.mem_reverse.mp hbody)
          exact ⟨fun hk => absurd hk hnm.1, fun hk => absurd hk hnm.2⟩
        · rcases List.mem_cons.mp hcons with rfl | hrest
          · refine ⟨fun _ b hb => ?_, fun hk => EntryKind.noConfusion hk⟩
            exact Or.inr (List.mem_append.mpr (Or.inl (List.mem_reverse.mpr hb)))
          · obtain ⟨hob1, hob2⟩ := hmo e (List.mem_cons_of_mem _ hrest)
            refine ⟨fun hk b hb => ?_, fun hk b hb => ?_⟩
            · rcases hob1 hk b hb with hh | hh
              · exact Or.inl (hmono b hh)
              · rcases List.mem_cons.mp hh with rfl | hh2
                · exact Or.inl p4
                · exact Or.inr (List.mem_append.mpr (Or.inr (List.mem_cons_of_mem _ hh2)))
            · rcases hob2 hk b hb with hh | hh
              · exact Or.inl (hmono b hh)
              · rcases List.mem_cons.mp hh with rfl | hh2
                · exact Or.inl p4
                · exact Or.inr (List.mem_append.mpr (Or.inr (List.mem_cons_of_mem _ hh2)))
      · intro e he hd
        rcases List.mem_append.mp he with hbody | hcons
        · exact mem_bodyNoArgs_pool env l entry.lazy_no_args_id e
            (List.mem_reverse.mp hbody)
        · rcases List.mem_cons.mp hcons with rfl | hrest
          · rcases hd with hh | hh | hh <;> exact EntryKind.noConfusion hh
          · exact hsp e (List.mem_cons_of_mem _ hrest) hd
      · intro e he t hr
        rcases List.mem_append.mp he with hbody | hcons
        · exact ⟨entry, List.mem_cons_self _ _,
            Reach.thruNoArgs entry e t hK (List.mem_reverse.mp hbody) hr⟩
        · rcases List.mem_cons.mp hcons with rfl | hrest
          · rcases Reach_kinds env _ t hr with hd | hd | hd
            · rcases hd with hh | hh | hh <;> exact EntryKind.noConfusion hh
            · exact EntryKind.noConfusion hd
            · exact EntryKind.noConfusion hd
          · exact ⟨e, List.mem_cons_of_mem _ hrest, hr⟩

/-- The run-level facts for the order-independence argument: along every
successful run, the map domain and the bookkeeping unions grow monotonically,
every stack entry ends up handled, map soundness is preserved, every newly
fully-expanded component has a fully handled body, and every map entry was
present initially or is reachable from a stack entry. -/
theorem helperLoop_c9_master {σ : Type} (env : LazyEnv) (top : TypeId)
    (hc : σ → ComponentStorageEntry → σ)
    (hm : σ → ComponentStorageEntry → ComponentStorageEntry → σ)
    (l : List ComponentStorageEntry) (henv : WfLazyEnv env) :
    ∀ (fuel : Nat) (stack : List ComponentStorageEntry) (core : ExpanderState)
      (s : σ) (coreF : ExpanderState) (s' : σ),
    helperLoop env top hc hm fuel stack core s = .ok (coreF, s') →
    MOblig env stack core → StackPool env l stack →
    MapSound env l core.binding_data_map →
    (∀ t v, lookupA core.binding_data_map t = some v →
        ∃ v', lookupA coreF.binding_data_map t = some v')
    ∧ (∀ j, (j ∈ core.fully_expanded_no_args ∨ j ∈ core.in_progress_no_args) →
        (j ∈ coreF.fully_expanded_no_args ∨ j ∈ coreF.in_progress_no_args))
    ∧ (∀ j, (j ∈ core.fully_expanded_with_args ∨ j ∈ core.in_progress_with_args) →
        (j ∈ coreF.fully_expanded_with_args ∨ j ∈ coreF.in_progress_with_args))
    ∧ (∀ e ∈ stack, Handled coreF e)
    ∧ MapSound env l coreF.binding_data_map
    ∧ (∀ j ∈ coreF.fully_expanded_no_args, j ∈ core.fully_expanded_no_args ∨
        ∀ b ∈ bodyNoArgs env j, Handled coreF b)
    ∧ (∀ j ∈ coreF.fully_expanded_with_args, j ∈ core.fully_expanded_with_args ∨
        ∀ b ∈ bodyWithArgs env j, Handled coreF b)
    ∧ (∀ t v, lookupA coreF.binding_data_map t = some v →
        (∃ w, lookupA core.binding_data_map t = some w) ∨ ∃ e ∈ stack, Reach env e t) := by
  intro fuel
  induction fuel with
  | zero =>
    intro stack core s coreF s' h hmo hsp hms
    cases stack with
    | nil =>
      obtain ⟨rfl, rfl⟩ : core = coreF ∧ s = s' := by simpa [helperLoop] using h
      exact ⟨fun t v hv => ⟨v, hv⟩, fun j hj => hj, fun j hj => hj,
        fun e he => absurd he (by simp), hms,
        fun j hj => Or.inl hj, fun j hj => Or.inl hj, fun t v hv => Or.inl ⟨v, hv⟩⟩
    | cons e rest => simp [helperLoop] at h
  | succ fuel ih =>
    intro stack core s coreF s' h hmo hsp hms
    cases stack with
    | nil =>
      obtain ⟨rfl, rfl⟩ : core = coreF ∧ s = s' := by simpa [helperLoop] using h
      exact ⟨fun t v hv => ⟨v, hv⟩, fun j hj => hj, fun j hj => hj,
        fun e he => absurd he (by simp), hms,
        fun j hj => Or.inl hj, fun j hj => Or.inl hj, fun t v hv => Or.inl ⟨v, hv⟩⟩
    | cons entry rest =>
      rw [helperLoop] at h
      cases hstep : helperStep env top hc hm entry rest core s with
      | fatal d => rw [hstep] at h; exact absurd h (by simp)
      | assertFail => rw [hstep] at h; exact absurd h (by simp)
      | next st c s2 =>
        rw [hstep] at h
        obtain ⟨q1, q2, q3, q4, q5, q6, q7, q8, q9, q10, q11, q12⟩ :=
          helperStep_c9 env top hc hm l henv entry rest core s st c s2 hmo hsp hstep
        obtain ⟨L1, L2, L3, L4, L5, L6, L7, L8⟩ :=
          ih st c s2 coreF s' h q6 q7 (q8 hms)
        have hmonoF : ∀ b, Handled c b → Handled coreF b :=
          fun b => Handled_mono c coreF L1 L2 L3 b
        have hmonoStep : ∀ b, Handled core b → Handled c b :=
          fun b => Handled_mono core c q1 q2 q3 b
        have hstackF : ∀ e ∈ entry :: rest, Handled coreF e := by
          intro e he
          rcases List.mem_cons.mp he with rfl | he2
          · exact hmonoF e q4
          · rcases q5 e he2 with hh | hh
            · exact hmonoF e hh
            · exact L4 e hh
        refine ⟨?_, fun j hj => L2 j (q2 j hj), fun j hj => L3 j (q3 j hj),
          hstackF, L5, ?_, ?_, ?_⟩
        · intro t v hv
          obtain ⟨v1, hv1⟩ := q1 t v hv
          exact L1 t v1 hv1
        · intro j hj
          rcases L6 j hj with hj2 | hcl
          · rcases q10 j hj2 with hj3 | ⟨hK, rfl⟩
            · exact Or.inl hj3
            · refine Or.inr fun b hb => ?_
              obtain ⟨ho1, -⟩ := hmo entry (List.mem_cons_self _ _)
              rcases ho1 hK b hb with hh | hh
              · exact hmonoF b (hmonoStep b hh)
              · exact hstackF b hh
          · exact Or.inr hcl
        · intro j hj
          rcases L7 j hj with hj2 | hcl
          · rcases q11 j hj2 with hj3 | ⟨hK, rfl⟩
            · exact Or.inl hj3
            · refine Or.inr fun b hb => ?_
              obtain ⟨-, ho2⟩ := hmo entry (List.mem_cons_self _ _)
              rcases ho2 hK b hb with hh | hh
              · exact hmonoF b (hmonoStep b hh)
              · exact hstackF b hh
          · exact Or.inr hcl
        · intro t v hv
          rcases L8 t v hv with ⟨w, hw⟩ | ⟨e, he, hr⟩
          · rcases q12 t w hw with ⟨w2, hw2⟩ | hre
            · exact Or.inl ⟨w2, hw2⟩
            · exact Or.inr ⟨entry, List.mem_cons_self _ _, hre⟩
          · obtain ⟨e2, he2, hr2⟩ := q9 e he t hr
            exact Or.inr ⟨e2, he2, hr2⟩

/-- In a final state with no in-progress components and fully handled bodies
for every fully-expanded component, every type reachable from a handled entry
is in the binding-map domain. -/
theorem reach_complete (env : LazyEnv) (coreF : ExpanderState)
    (hno : ∀ j ∈ coreF.fully_expanded_no_args, ∀ b ∈ bodyNoArgs env j, Handled coreF b)
    (hwa : ∀ j ∈ coreF.fully_expanded_with_args, ∀ b ∈ bodyWithArgs env j, Handled coreF b)
    (hipno : coreF.in_progress_no_args = [])
    (hipwa : coreF.in_progress_with_args = []) :
    ∀ (e : ComponentStorageEntry) (t : TypeId), Reach env e t → Handled coreF e →
      ∃ v, lookupA coreF.binding_data_map t = some v := by
  intro e t hr
  induction hr with
  | direct e hd =>
    intro hh
    exact Handled_direct_dom coreF e hd hh
  | thruNoArgs e b t hk hb hrb ihb =>
    intro hh
    rcases Handled_no_elim coreF e (Or.inl hk) hh with hf | hip
    · exact ihb (hno e.lazy_no_args_id hf b hb)
    · rw [hipno] at hip
      exact absurd hip (by simp)
  | thruWithArgs e b t hk hb hrb ihb =>
    intro hh
    rcases Handled_wa_elim coreF e (Or.inl hk) hh with hf | hip
    · exact ihb (hwa e.lazy_with_args_id hf b hb)
    · rw [hipwa] at hip
      exact absurd hip (by simp)

theorem MOblig_of_noMarkers (env : LazyEnv) (stack : List ComponentStorageEntry)
    (core : ExpanderState) (h : NoMarkers stack) : MOblig env stack core :=
  fun e he => ⟨fun hk => absurd hk (h e he).1, fun hk => absurd hk (h e he).2⟩

theorem StackPool_reverse (env : LazyEnv) (l : List ComponentStorageEntry) :
    StackPool env l l.reverse := by
  intro e he hd
  unfold poolList
  exact List.mem_append.mpr (Or.inl (List.mem_append.mpr (Or.inl (List.mem_reverse.mp he))))

theorem MapSound_nil (env : LazyEnv) (l : List ComponentStorageEntry) :
    MapSound env l [] := fun p hp => absurd hp (by simp)

theorem MarkerInv_initial (l : List ComponentStorageEntry)
    (alloc : FixedSizeAllocatorData) (hl : NoMarkers l) :
    MarkerInv l.reverse (initialState alloc) := by
  have hnom : markerIdsNo l.reverse = [] :=
    markerIdsNo_no_markers _ (NoMarkers_reverse l hl)
  have hwam : markerIdsWa l.reverse = [] :=
    markerIdsWa_no_markers _ (NoMarkers_reverse l hl)
  refine ⟨fun j => ?_, ?_, fun j => ?_, ?_⟩
  · rw [hnom]
    simp [initialState]
  · rw [hnom]
    exact List.nodup_nil
  · rw [hwam]
    simp [initialState]
  · rw [hwam]
    exact List.nodup_nil

theorem poolList_perm (env : LazyEnv) (l1 l2 : List ComponentStorageEntry)
    (h : l1.Perm l2) : (poolList env l1).Perm (poolList env l2) := by
  unfold poolList
  exact (h.append (List.Perm.refl _)).append (List.Perm.refl _)

/-- C9 counterexample: two needs-allocation bindings for the same type with the
same create function but different dependency lists are "consistent" in the
spec's sense (same kind and create identity, which is all the duplicate check
compares), the two input orders are permutations of each other, both runs
succeed, yet the resulting binding maps differ at that type — the map keeps the
dependency list of whichever entry was processed first. -/
theorem claim9_counterexample :
    semanticallyIdentical (mkBindingNA 1 100 []) (mkBindingNA 1 100 [7])
    ∧ List.Perm [mkBindingNA 1 100 [], mkBindingNA 1 100 [7]]
        [mkBindingNA 1 100 [7], mkBindingNA 1 100 []]
    ∧ ∃ core1 core2 : ExpanderState,
        normalizeBindingsHelper 3 emptyEnv
            [mkBindingNA 1 100 [], mkBindingNA 1 100 [7]] emptyAlloc 0
            trivialHC trivialHM () = .ok (core1, ())
        ∧ normalizeBindingsHelper 3 emptyEnv
            [mkBindingNA 1 100 [7], mkBindingNA 1 100 []] emptyAlloc 0
            trivialHC trivialHM () = .ok (core2, ())
        ∧ lookupA core1.binding_data_map 1 ≠ lookupA core2.binding_data_map 1 :=
  ⟨by decide, by decide, _, _, rfl, rfl, by decide⟩

/-- C9 (amended): over a well-formed lazy environment and an input without
Expander-internal end markers, if the input pool is consistent in the strong
sense — any two direct bindings for the same type anywhere in the input or in
a component body are fully identical, dependency lists included — then any two
successful Expander runs on permutations of the input (with arbitrary
handlers, handler states, top-level ids, allocators and fuel) produce the same
binding map as a key-to-entry mapping.  Determinism on syntactically identical
inputs is definitional in this embedding, since the run is a pure function of
its arguments. -/
theorem claim9_order_independence {σ1 σ2 : Type} (env : LazyEnv) (top1 top2 : TypeId)
    (hc1 : σ1 → ComponentStorageEntry → σ1)
    (hm1 : σ1 → ComponentStorageEntry → ComponentStorageEntry → σ1)
    (hc2 : σ2 → ComponentStorageEntry → σ2)
    (hm2 : σ2 → ComponentStorageEntry → ComponentStorageEntry → σ2)
    (fuel1 fuel2 : Nat) (l1 l2 : List ComponentStorageEntry)
    (alloc1 alloc2 : FixedSizeAllocatorData) (s1 : σ1) (s2 : σ2)
    (core1 : ExpanderState) (s1' : σ1) (core2 : ExpanderState) (s2' : σ2)
    (henv : WfLazyEnv env) (hnm : NoMarkers l1)
    (hcons : Consistent env l1) (hperm : l1.Perm l2)
    (h1 : normalizeBindingsHelper fuel1 env l1 alloc1 top1 hc1 hm1 s1 = .ok (core1, s1'))
    (h2 : normalizeBindingsHelper fuel2 env l2 alloc2 top2 hc2 hm2 s2 = .ok (core2, s2')) :
    ∀ t, lookupA core1.binding_data_map t = lookupA core2.binding_data_map t := by
  have hnm2 : NoMarkers l2 := fun e he => hnm e (hperm.mem_iff.mpr he)
  unfold normalizeBindingsHelper at h1 h2
  obtain ⟨M1dom, M1no, M1wa, M1stack, M1ms, M1fcno, M1fcwa, M1snd⟩ :=
    helperLoop_c9_master env top1 hc1 hm1 l1 henv fuel1 l1.reverse
      (initialState alloc1) s1 core1 s1' h1
      (MOblig_of_noMarkers env _ _ (NoMarkers_reverse l1 hnm))
      (StackPool_reverse env l1) (MapSound_nil env l1)
  obtain ⟨M2dom, M2no, M2wa, M2stack, M2ms, M2fcno, M2fcwa, M2snd⟩ :=
    helperLoop_c9_master env top2 hc2 hm2 l2 henv fuel2 l2.reverse
      (initialState alloc2) s2 core2 s2' h2
      (MOblig_of_noMarkers env _ _ (NoMarkers_reverse l2 hnm2))
      (StackPool_reverse env l2) (MapSound_nil env l2)
  obtain ⟨hip1no, hip1wa⟩ :=
    helperLoop_ok_inprog env top1 hc1 hm1 henv fuel1 l1.reverse (initialState alloc1)
      s1 core1 s1' (MarkerInv_initial l1 alloc1 hnm) h1
  obtain ⟨hip2no, hip2wa⟩ :=
    helperLoop_ok_inprog env top2 hc2 hm2 henv fuel2 l2.reverse (initialState alloc2)
      s2 core2 s2' (MarkerInv_initial l2 alloc2 hnm2) h2
  have hcl1no : ∀ j ∈ core1.fully_expanded_no_args,
      ∀ b ∈ bodyNoArgs env j, Handled core1 b := by
    intro j hj
    rcases M1fcno j hj with hj0 | hcl
    · exact absurd hj0 (by simp [initialState])
    · exact hcl
  have hcl1wa : ∀ j ∈ core1.fully_expanded_with_args,
      ∀ b ∈ bodyWithArgs env j, Handled core1 b := by
    intro j hj
    rcases M1fcwa j hj with hj0 | hcl
    · exact absurd hj0 (by simp [initialState])
    · exact hcl
  have hcl2no : ∀ j ∈ core2.fully_expanded_no_args,
      ∀ b ∈ bodyNoArgs env j, Handled core2 b := by
    intro j hj
    rcases M2fcno j hj with hj0 | hcl
    · exact absurd hj0 (by simp [initialState])
    · exact hcl
  have hcl2wa : ∀ j ∈ core2.fully_expanded_with_args,
      ∀ b ∈ bodyWithArgs env j, Handled core2 b := by
    intro j hj
    rcases M2fcwa j hj with hj0 | hcl
    · exact absurd hj0 (by simp [initialState])
    · exact hcl
  have hrc1 := reach_complete env core1 hcl1no hcl1wa hip1no hip1wa
  have hrc2 := reach_complete env core2 hcl2no hcl2wa hip2no hip2wa
  have hdom1 : ∀ t, (∃ v, lookupA core1.binding_data_map t = some v) ↔
      (∃ e ∈ l1, Reach env e t) := by
    intro t
    constructor
    · rintro ⟨v, hv⟩
      rcases M1snd t v hv with ⟨w, hw⟩ | ⟨e, he, hr⟩
      · exact absurd hw (by simp [initialState, lookupA])
      · exact ⟨e, List.mem_reverse.mp he, hr⟩
    · rintro ⟨e, he, hr⟩
      exact hrc1 e t hr (M1stack e (List.mem_reverse.mpr he))
  have hdom2 : ∀ t, (∃ v, lookupA core2.binding_data_map t = some v) ↔
      (∃ e ∈ l2, Reach env e t) := by
    intro t
    constructor
    · rintro ⟨v, hv⟩
      rcases M2snd t v hv with ⟨w, hw⟩ | ⟨e, he, hr⟩
      · exact absurd hw (by simp [initialState, lookupA])
      · exact ⟨e, List.mem_reverse.mp he, hr⟩
    · rintro ⟨e, he, hr⟩
      exact hrc2 e t hr (M2stack e (List.mem_reverse.mpr he))
  intro t
  cases hv1 : lookupA core1.binding_data_map t with
  | none =>
    cases hv2 : lookupA core2.binding_data_map t with
    | none => rfl
    | some v2 =>
      exfalso
      obtain ⟨e, he, hr⟩ := (hdom2 t).mp ⟨v2, hv2⟩
      obtain ⟨w, hw⟩ := (hdom1 t).mpr ⟨e, hperm.mem_iff.mpr he, hr⟩
      rw [hv1] at hw
      exact absurd hw (by simp)
  | some v1 =>
    obtain ⟨e, he, hr⟩ := (hdom1 t).mp ⟨v1, hv1⟩
    obtain ⟨v2, hv2⟩ := (hdom2 t).mpr ⟨e, hperm.mem_iff.mp he, hr⟩
    rw [hv2]
    obtain ⟨ht1, hd1, hp1⟩ := M1ms (t, v1) (lookupA_mem _ _ _ hv1)
    obtain ⟨ht2, hd2, hp2⟩ := M2ms (t, v2) (lookupA_mem _ _ _ hv2)
    have hp2l1 : v2 ∈ poolList env l1 :=
      (poolList_perm env l1 l2 hperm).mem_iff.mpr hp2
    have hv12 : v1 = v2 := hcons v1 hp1 v2 hp2l1 hd1 hd2 (ht1.trans ht2.symm)
    rw [hv12]

/-- Witness for the amended C9 at a concrete input: a constructed-object
binding and a needs-allocation binding in the two possible orders. -/
theorem claim9_witness :
    ∃ core1 core2 : ExpanderState,
      normalizeBindingsHelper 2 emptyEnv [mkBindingCO 1 5, mkBindingNA 2 9 []]
          emptyAlloc 0 trivialHC trivialHM () = .ok (core1, ())
      ∧ normalizeBindingsHelper 2 emptyEnv [mkBindingNA 2 9 [], mkBindingCO 1 5]
          emptyAlloc 0 trivialHC trivialHM () = .ok (core2, ())
      ∧ ∀ t, lookupA core1.binding_data_map t = lookupA core2.binding_data_map t := by
  refine ⟨_, _, rfl, rfl, ?_⟩
  exact claim9_order_independence emptyEnv 0 0 trivialHC trivialHM trivialHC trivialHM
    2 2 [mkBindingCO 1 5, mkBindingNA 2 9 []] [mkBindingNA 2 9 [], mkBindingCO 1 5]
    emptyAlloc emptyAlloc () () _ () _ ()
    (by decide) (by decide) (by decide) (by decide) rfl rfl

end Fruit
